import Mathlib

/-!
# flexnet: a NetPC disk server for Flex systems

A shallow embedding of `flexnet_original.c` and theorems about it.

Conventions of the embedding:

* a C `uint8_t` is a `Nat` below 256; a C `int` is an `Int` (no computation of
  the program leaves the 32-bit range, the largest value being a file
  position `256 * ts2blk` below `2^24`);
* the C globals (`bloc`, `ready`, `readonly`, `nbtrk`, `nbsec`, `track0l`, the
  descriptor `fd` and the stream `serial`) are the fields of `Server`, and a C
  function that touches them is a function from `Server` to `Server`;
* the buffer `param` is added in `Session` and the string `curdir` in
  `Process`; what the host answers to `stat`, `open`, `readdir` and `chdir` is
  a parameter of the function that asks;
* diagnostic output (`printf` under `verbose`, `fprintf (stderr, ...)`) never
  changes control flow or any of the modelled state and is left out.
-/

namespace Flexnet

/-! ## Constants -/

/-- Sector size of a Flex disk, `#define SECSIZE 256`. -/
def SECSIZE : Nat := 256

/-- Line feed, `#define LF 0x0a`. -/
def LF : Nat := 0x0a

/-- Carriage return, `#define CR 0x0d`. -/
def CR : Nat := 0x0d

/-- Positive acknowledge, `#define ACK 0x06`. -/
def ACK : Nat := 0x06

/-- Negative acknowledge, `#define NAK 0x15`. -/
def NAK : Nat := 0x15

/-- Escape, `#define ESC 0x1B`. -/
def ESC : Nat := 0x1B

/-! ## Address translation -/

/-- The function `ts2blk` (lines 128-145).  The three globals it reads,
`nbtrk`, `nbsec` and `track0l`, are its first three arguments; `ntrk` and
`nsec` are the requested track and sector.  The result is the C `int`. -/
def ts2blk (nbtrk nbsec track0l ntrk nsec : Nat) : Int :=
  if ntrk > nbtrk ∨ nsec > nbsec ∨ (nsec = 0 ∧ ntrk ≠ 0) then
    -1
  else if ntrk = 0 then
    if nsec = 0 then 0 else (nsec : Int) - 1
  else
    (track0l : Int) + ((ntrk : Int) - 1) * (nbsec : Int) + (nsec : Int) - 1

/-! ## File names -/

/-- The C library predicate `isalnum` in the "C" locale, the one in force
since the program never calls `setlocale`: decimal digits, upper-case and
lower-case ASCII letters. -/
def isalnum (c : Nat) : Bool :=
  (48 ≤ c ∧ c ≤ 57) ∨ (65 ≤ c ∧ c ≤ 90) ∨ (97 ≤ c ∧ c ≤ 122)

/-- The test of lines 171-172: the byte is none of the accepted ones. -/
def badNameByte (c : Nat) : Bool :=
  !isalnum c && c != 45 && c != 95 && c != 0xFF
    && c != 32 && c != 42 && c != 46 && c != 0

/-- The loop of `getname` (lines 170-188) from index `j` on, with `fuel`
iterations left, `k` bytes already stored and `name` the bytes `name[0..k)`.
The result is the returned `int` and the bytes stored in `name` (without the
terminator, which the early `return -1` does not store). -/
def getnameLoop (pos : List Nat) (dot : Int) : Nat → Nat → Nat → List Nat → Int × List Nat
  | 0, _, k, name => ((k : Int), name)
  | fuel + 1, j, k, name =>
    let c := pos.getD j 0
    if badNameByte c then (-1, name)
    else if dot ≠ 0 ∧ c = 32 then (-1, name)
    else
      let k1 := if c ≠ 0 then k + 1 else k
      let name1 := if c ≠ 0 then name ++ [c] else name
      if j = 7 then
        if pos.getD 8 0 = 0 then ((k1 : Int), name1)
        else
          let k2 := if dot ≠ 0 then k1 + 1 else k1
          let name2 := if dot ≠ 0 then name1 ++ [46] else name1
          getnameLoop pos dot fuel (j + 1) k2 name2
      else getnameLoop pos dot fuel (j + 1) k1 name1

/-- The function `getname` (lines 167-191) on the 11-byte field `pos`:
the returned value and the string left in `name`. -/
def getname (pos : List Nat) (dot : Int) : Int × List Nat :=
  getnameLoop pos dot 11 0 0 []

/-! ## Checksum -/

/-- The function `checksum` (lines 392-400): the loop adds `data[i]` for
`i = 0 .. 255` and the result is masked with `0xFFFF`.  The sum is at most
`256 * 255`, so the C `int` never overflows and stays non-negative. -/
def checksum (data : List Nat) : Nat :=
  ((List.range 256).foldl (fun chks i => chks + data.getD i 0) 0) &&& 0xFFFF

/-! ## Session state and the system calls used by the sector handlers -/

/-- The file behind the descriptor `fd`: its bytes, the file offset, and
whether it was opened `O_RDWR` (`writable`) or `O_RDONLY`. -/
structure OpenFile where
  content : List Nat
  offset : Nat
  writable : Bool
  deriving DecidableEq, Repr

/-- The globals of the program that the sector handlers use, with the two
ends of the stream `serial`: `input` holds the bytes the client has sent and
the server has not read yet, `output` the bytes the server has written, oldest
first.  `fd` is `none` when the descriptor is not open.  `nwrites` counts the
calls of `write` on the image, so that "no write is attempted" can be
stated. -/
structure Server where
  input : List Nat
  output : List Nat
  fd : Option OpenFile
  nwrites : Nat
  bloc : List Nat
  ready : Int
  readonly : Int
  nbtrk : Nat
  nbsec : Nat
  track0l : Nat
  deriving DecidableEq, Repr

/-- Conversion of a C `int` to `uint8_t`. -/
def toU8 (c : Int) : Nat := (c % 256).toNat

/-- The call `fgetc (serial)`: the next byte as a non-negative `int`, or `EOF`
(-1) when the stream is exhausted. -/
def fgetc (s : Server) : Int × Server :=
  match s.input with
  | [] => (-1, s)
  | b :: rest => (((b % 256 : Nat) : Int), { s with input := rest })

/-- The call `fputc (c, serial)`: the byte `(unsigned char) c` is written. -/
def fputc (c : Int) (s : Server) : Server :=
  { s with output := s.output ++ [toU8 c] }

/-- The call `lseek (fd, pos, SEEK_SET)` on a regular file: the offset becomes
`pos` and is returned; -1 on a closed descriptor or a negative position. -/
def lseek (pos : Int) (s : Server) : Int × Server :=
  match s.fd with
  | none => (-1, s)
  | some f =>
    if pos < 0 then (-1, s)
    else (pos, { s with fd := some { f with offset := pos.toNat } })

/-- The call `read (fd, bloc, SECSIZE)`: the bytes from the file offset to the
end of the file, at most 256 of them, are copied to the start of `bloc` and
their number is returned; -1 on a closed descriptor. -/
def read (s : Server) : Int × Server :=
  match s.fd with
  | none => (-1, s)
  | some f =>
    let data := (f.content.drop f.offset).take 256
    ((data.length : Int),
      { s with bloc := data ++ s.bloc.drop data.length,
               fd := some { f with offset := f.offset + data.length } })

/-- The call `write (fd, bloc, SECSIZE)`: on a descriptor opened `O_RDWR` the
256 bytes of `bloc` replace the bytes of the file at the file offset (a file
that is shorter is first extended with zeros) and 256 is returned; -1 on a
closed or read-only descriptor, the file being left as it is. -/
def write (s : Server) : Int × Server :=
  match s.fd with
  | none => (-1, { s with nwrites := s.nwrites + 1 })
  | some f =>
    if f.writable then
      let padded := f.content ++ List.replicate (f.offset - f.content.length) 0
      (256, { s with
        nwrites := s.nwrites + 1,
        fd := some { f with
          content := padded.take f.offset ++ s.bloc.take 256 ++ padded.drop (f.offset + 256),
          offset := f.offset + 256 } })
    else (-1, { s with nwrites := s.nwrites + 1 })

/-! ## Sector handlers -/

/-- The loop `for (i = 0; i < 258; i++) fputc (0, serial)` and its like:
`n` times the byte `c`. -/
def fputcTimes (c : Int) : Nat → Server → Server
  | 0, s => s
  | n + 1, s => fputcTimes c n (fputc c s)

/-- The loop `for (i = 0; i < 256; i++) bloc[i] = 0` (lines 451-452), from
index `i` on with `n` iterations left. -/
def zeroBloc : Nat → Nat → Server → Server
  | 0, _, s => s
  | n + 1, i, s => zeroBloc n (i + 1) { s with bloc := s.bloc.set i 0 }

/-- The loop `for (i = 0; i < 256; i++) fputc (bloc[i], serial)`
(lines 462-463), from index `i` on with `n` iterations left. -/
def sendBloc : Nat → Nat → Server → Server
  | 0, _, s => s
  | n + 1, i, s => sendBloc n (i + 1) (fputc (s.bloc.getD i 0 : Nat) s)

/-- The loop `for (i = 0; i < 256; i++) bloc[i] = fgetc (serial)`
(lines 510-511), from index `i` on with `n` iterations left. -/
def recvBloc : Nat → Nat → Server → Server
  | 0, _, s => s
  | n + 1, i, s =>
    let r := fgetc s
    recvBloc n (i + 1) { r.2 with bloc := r.2.bloc.set i (toU8 r.1) }

/-- Lines 431-440 of `sndblk`, the reply when no disk is mounted: 258 times
the byte 0, then the byte 1, then one byte is read from the client. -/
def sndblkNotReady (s : Server) : Server :=
  let s := fputcTimes 0 258 s
  let s := fputc 1 s
  (fgetc s).2

/-- Lines 442-449 of `sndblk`: the sector at `(ntrk, nsec)` is read into
`bloc`; the first component is `retval`. -/
def sndblkRead (ntrk nsec : Nat) (s : Server) : Int × Server :=
  let pos : Int := (SECSIZE : Int) * ts2blk s.nbtrk s.nbsec s.track0l ntrk nsec
  if pos < 0 then (0, s)
  else
    let r1 := lseek pos s
    let retval : Int := if r1.1 ≠ pos then 0 else 1
    let r2 := read r1.2
    let retval : Int := if r2.1 ≠ (SECSIZE : Int) then 0 else retval
    (retval, r2.2)

/-- Lines 450-475 of `sndblk`: `bloc` is cleared when `retval` is 0, then sent
with the two bytes of its checksum, and one byte is read from the client. -/
def sndblkReply (retval : Int) (s : Server) : Server :=
  let s := if retval = 0 then zeroBloc 256 0 s else s
  let chks := checksum s.bloc
  let lsb := chks &&& 0xFF
  let msb := (chks >>> 8) &&& 0xFF
  let s := sendBloc 256 0 s
  let s := fputc (msb : Nat) s
  let s := fputc (lsb : Nat) s
  (fgetc s).2

/-- The function `sndblk` (lines 419-475): the three bytes of the request are
read, then the three parts above are run. -/
def sndblk (s : Server) : Server :=
  let r := fgetc s                      -- drv
  let r := fgetc r.2
  let ntrk := toU8 r.1
  let r := fgetc r.2
  let nsec := toU8 r.1
  let s := r.2
  if s.ready = 0 then sndblkNotReady s
  else
    let rs := sndblkRead ntrk nsec s
    sndblkReply rs.1 rs.2

/-- The function `rcvblk` (lines 497-541): the returned `int` and the state
it leaves. -/
def rcvblk (s : Server) : Int × Server :=
  let r := fgetc s                      -- drv
  let r := fgetc r.2
  let ntrk := toU8 r.1
  let r := fgetc r.2
  let nsec := toU8 r.1
  let s := r.2
  let pos : Int := (SECSIZE : Int) * ts2blk s.nbtrk s.nbsec s.track0l ntrk nsec
  let s := recvBloc 256 0 s
  let rm := fgetc s
  let msb := rm.1
  let rl := fgetc rm.2
  let lsb := rl.1
  let s := rl.2
  if (checksum s.bloc : Int) = msb * 256 + lsb then
    if pos < 0 then (0, s)
    else if s.ready = 0 then (0, s)
    else
      let r1 := lseek pos s
      let retval : Int := if r1.1 ≠ pos then 0 else 1
      let r2 := write r1.2
      let retval : Int := if r2.1 ≠ (SECSIZE : Int) then 0 else retval
      (retval, r2.2)
  else (0, s)

/-- The case `'R'`, `'r'` of the dispatcher in `main` (lines 907-910):
`fputc (rcvblk () ? ACK : NAK, serial)`. -/
def mainReceive (s : Server) : Server :=
  let r := rcvblk s
  fputc (if r.1 ≠ 0 then (ACK : Int) else (NAK : Int)) r.2

/-- The case `'S'`, `'s'` of the dispatcher in `main` (lines 903-906). -/
def mainSend (s : Server) : Server :=
  sndblk s

/-! ## A sample session

A 30-sector image of a disk with `nbtrk = 2`, `nbsec = 10`, `track0l = 10`,
mounted and writable, and requests on it. -/

/-- A payload of 256 bytes 7; its checksum is `0x0700`. -/
def demoPayload : List Nat := List.replicate 256 7

/-- A writable image of 30 sectors, all bytes 0 but for block 10, which holds
256 bytes 5. -/
def demoImage : OpenFile :=
  { content := List.replicate 2560 0 ++ (List.replicate 256 5 ++ List.replicate 4864 0)
    offset := 0
    writable := true }

/-- The server with `demoImage` mounted and the bytes `input` on the line. -/
def demoServer (input : List Nat) : Server :=
  { input := input
    output := []
    fd := some demoImage
    nwrites := 0
    bloc := List.replicate 256 0
    ready := 1
    readonly := 0
    nbtrk := 2
    nbsec := 10
    track0l := 10 }

/-- A receive request for drive 0, track 1, sector 1 carrying `demoPayload`
and the checksum bytes `msb`, `lsb`, followed by the byte `'S'`. -/
def demoReceive (msb lsb : Nat) : Server :=
  demoServer (0 :: 1 :: 1 :: (demoPayload ++ msb :: lsb :: [83]))

/-! ## The output of `getname` as the spec describes it -/

/-- The extension part of the output of `getname`, in the words of the spec:
nothing when byte 8 is NUL, otherwise the separator when it is requested and
the non-NUL bytes from position 8 on. -/
def nameExt (pos : List Nat) (dot : Int) : List Nat :=
  if pos.getD 8 0 = 0 then []
  else (if dot ≠ 0 then [46] else []) ++ (pos.drop 8).filter (fun c => c ≠ 0)

/-- The bytes that `getname` stores from index `j` on, in the words of the
spec: the non-NUL bytes of the positions from `j` to 7 and the extension part,
or, from position 8 on, the non-NUL bytes that are left. -/
def nameRest (pos : List Nat) (dot : Int) (j : Nat) : List Nat :=
  if j < 8 then ((pos.drop j).take (8 - j)).filter (fun c => c ≠ 0) ++ nameExt pos dot
  else (pos.drop j).filter (fun c => c ≠ 0)

/-! ## Loading a disk image -/

/-- What `stat` and `open` find under the path given to `load_dsk`: the bytes
of the file, whether `S_IWUSR` is set in `st_mode`, and whether `open`
succeeds in the mode that `load_dsk` asks for (`O_RDWR` when `S_IWUSR` is
set, `O_RDONLY` otherwise). -/
structure HostFile where
  content : List Nat
  userWrite : Bool
  opens : Bool
  deriving DecidableEq, Repr

/-- Conversion to a 32-bit C `int`, as in `size = dsk_stat.st_size`. -/
def toInt32 (n : Int) : Int := (n + 2147483648) % 4294967296 - 2147483648

/-- Lines 308-345 of `load_dsk`, the guess of the geometry from the number of
sectors of the file, `nbtrk` and `nbsec` being those of the SIR.  `track0l` is
a `uint8_t`, so the difference assigned to it is reduced modulo 256, and so is
`nbtrk` when it is changed.  The division of line 338 is the C one, which
truncates. -/
def loadGeometry (nb_sectors : Int) (s : Server) : Int × Server :=
  if ((s.nbtrk : Int) + 1) * (s.nbsec : Int) = nb_sectors then
    (0, { s with track0l := s.nbsec, ready := 1 })
  else
    let track0l := toU8 (nb_sectors - (s.nbtrk : Int) * (s.nbsec : Int))
    if (s.nbsec ≥ 36 ∧ track0l = 20) ∨ (s.nbsec = 18 ∧ track0l = 10) ∨
        track0l = s.nbsec / 2 then
      (0, { s with track0l := track0l, ready := 1 })
    else if track0l > s.nbsec then
      (0, { s with track0l := s.nbsec, nbtrk := toU8 ((s.nbtrk : Int) + 1), ready := 1 })
    else if track0l > s.nbsec / 2 ∧ track0l < s.nbsec then
      (0, { s with track0l := track0l, ready := 1 })
    else
      (-1, { s with
        track0l := track0l,
        nbtrk := toU8 ((s.nbtrk : Int) -
          (Int.tdiv ((s.nbtrk : Int) * (s.nbsec : Int) - nb_sectors) (s.nbsec : Int) + 1)) })

/-- Lines 276-346 of `load_dsk`, what follows the reading of the SIR into
`bloc`: the size must be a whole number of sectors, the volume label at offset
0x10 must pass `getname` without separator, the bytes at 0x26 and 0x27 must
not be 0; they become `nbtrk` and `nbsec` and the geometry is guessed. -/
def loadCheck (size : Int) (s : Server) : Int × Server :=
  let nb_sectors := Int.tdiv size (SECSIZE : Int)
  if nb_sectors * (SECSIZE : Int) ≠ size then (-1, s)
  else if (getname (s.bloc.drop 0x10) 0).1 < 0 ∨ s.bloc.getD 0x26 0 = 0 ∨
      s.bloc.getD 0x27 0 = 0 then (-1, s)
  else
    loadGeometry nb_sectors { s with nbtrk := s.bloc.getD 0x26 0, nbsec := s.bloc.getD 0x27 0 }

/-- The function `load_dsk` (lines 222-346) on what the host holds under the
name: `none` when `stat` fails.  The copies of the name (`filename`,
`diskname`) only serve the diagnostics and are left out.  The sector at file
position 512 is read into `bloc`, then `loadCheck` runs. -/
def load_dsk (file : Option HostFile) (s : Server) : Int × Server :=
  match file with
  | none => (-1, s)
  | some h =>
    let size := toInt32 (h.content.length : Int)
    if h.opens = false then (-1, { s with fd := none })
    else
      let s : Server := { s with
        fd := some { content := h.content, offset := 0, writable := h.userWrite },
        readonly := if h.userWrite then 0 else 1 }
      let r := lseek ((SECSIZE : Int) * 2) s
      let r := read r.2
      if r.1 ≠ (SECSIZE : Int) then (-1, r.2)
      else loadCheck size r.2

/-- The five rules of the spec for the geometry, in their order, on the
integer `track0l = observed - nbtrk * nbsec`: the resulting `nbtrk` and
`track0l`, or `none` for a failure. -/
def specGeometry (nbtrk nbsec : Nat) (observed : Int) : Option (Nat × Nat) :=
  let track0l : Int := observed - (nbtrk : Int) * (nbsec : Int)
  if ((nbtrk : Int) + 1) * (nbsec : Int) = observed then some (nbtrk, nbsec)
  else if (nbsec ≥ 36 ∧ track0l = 20) ∨ (nbsec = 18 ∧ track0l = 10) ∨
      track0l = ((nbsec / 2 : Nat) : Int) then some (nbtrk, track0l.toNat)
  else if track0l > (nbsec : Int) then some (nbtrk + 1, nbsec)
  else if ((nbsec / 2 : Nat) : Int) < track0l ∧ track0l < (nbsec : Int) then
    some (nbtrk, track0l.toNat)
  else none

/-- A System Information Record with an empty volume label (11 NUL bytes) and
the bytes `nbtrk` and `nbsec` at offsets 0x26 and 0x27. -/
def demoSir (nbtrk nbsec : Nat) : List Nat :=
  List.replicate 0x26 0 ++ [nbtrk, nbsec] ++ List.replicate 216 0

/-- An image file of `sectors + 3` sectors that the owner may write: two empty
sectors, the SIR of `demoSir`, and `sectors` empty sectors. -/
def demoDisk (nbtrk nbsec sectors : Nat) : HostFile :=
  { content := List.replicate 512 0 ++ demoSir nbtrk nbsec ++ List.replicate (256 * sectors) 0
    userWrite := true
    opens := true }

/-- The server before any image is loaded. -/
def coldServer : Server :=
  { input := []
    output := []
    fd := none
    nwrites := 0
    bloc := List.replicate 256 0
    ready := 0
    readonly := 0
    nbtrk := 0
    nbsec := 0
    track0l := 0 }

/-! ## Command parameters and the listing of disk images -/

/-- The globals that the command handlers use besides those of `Server`: the
buffer `param[128]`. -/
structure Session where
  srv : Server
  param : List Nat
  deriving DecidableEq, Repr

/-- The loop of `getparam` (lines 368-373) on the bytes still to come, with
the index `i` and the buffer `param`: the bytes left after the first CR, the
index and the buffer reached.  At the end of the stream `fgetc` returns `EOF`
for ever, `EOF` is not CR and the loop does not end: `none`. -/
def getparamLoop : List Nat → Nat → List Nat → Option (List Nat × Nat × List Nat)
  | [], _, _ => none
  | b :: rest, i, param =>
    if b % 256 = CR then some (rest, i, param)
    else if i < 127 then getparamLoop rest (i + 1) (param.set i (b % 256))
    else getparamLoop rest i (param.set i 0)

/-- The function `getparam` (lines 363-375): the loop, then `param[i] = 0`;
`none` when it does not return. -/
def getparam (t : Session) : Option Session :=
  match getparamLoop t.srv.input 0 t.param with
  | none => none
  | some (rest, i, param) =>
    some { srv := { t.srv with input := rest }, param := param.set i 0 }

/-- The case `'D'` of the dispatcher in `main` (lines 948-954): one parameter
is read and NAK is written. -/
def mainDelete (t : Session) : Option Session :=
  match getparam t with
  | none => none
  | some t1 => some { t1 with srv := fputc (NAK : Int) t1.srv }

/-- The case `'C'` of the dispatcher in `main` (lines 942-947): four
parameters are read, and as the case has no `break` the case `'D'` follows. -/
def mainCreate (t : Session) : Option Session :=
  (getparam t).bind fun t1 =>
    (getparam t1).bind fun t2 =>
      (getparam t2).bind fun t3 =>
        (getparam t3).bind fun t4 => mainDelete t4

/-- The C library function `tolower` in the "C" locale. -/
def tolower (c : Nat) : Nat := if 65 ≤ c ∧ c ≤ 90 then c + 32 else c

/-- The C string held by a buffer: the bytes before the first NUL. -/
def cstr (buf : List Nat) : List Nat := buf.takeWhile (fun c => c ≠ 0)

/-- The test of line 655 negated,
`strcasecmp (d_name + strlen (d_name) - 3, "DSK") == 0`: the last three bytes
of the name are "DSK" in either case.  For a name of fewer than three bytes
the C expression points before the name; the model takes the test to fail
there. -/
def endsWithDSK (name : List Nat) : Bool :=
  (name.drop (name.length - 3)).map tolower == [100, 115, 107]

/-- The test of line 657 negated, `strcasestr (d_name, param) == d_name`: the
first occurrence of `param` in the name, cases ignored, is at its start, that
is, the name starts with `param`, cases ignored. -/
def startsWithCI (name param : List Nat) : Bool :=
  (param.map tolower).isPrefixOf (name.map tolower)

/-- The call `fputs (str, serial)`. -/
def fputs (str : List Nat) (s : Server) : Server :=
  { s with output := s.output ++ str }

/-- The loop of `lstdsk` (lines 654-670) over the names that `readdir` still
has to return; the first component is `endlist`. -/
def lstdskLoop (param : List Nat) : List (List Nat) → Server → Int × Server
  | [], s => (1, s)
  | name :: more, s =>
    if endsWithDSK name = false then lstdskLoop param more s
    else if startsWithCI name param = false then lstdskLoop param more s
    else
      let r := fgetc s
      if r.1 ≠ 32 then (0, r.2)
      else lstdskLoop param more (fputc (LF : Int) (fputc (CR : Int) (fputs name r.2)))

/-- The function `lstdsk` (lines 637-678) in a directory that `opendir` opens
and where `readdir` returns the names `entries` in this order (a name is the
string `d_name`, without NUL): `none` when `getparam` does not return. -/
def lstdsk (entries : List (List Nat)) (t : Session) : Option Session :=
  match getparam t with
  | none => none
  | some t1 =>
    let s := fputc (LF : Int) (fputc (CR : Int) t1.srv)
    let r := lstdskLoop (cstr t1.param) entries s
    let s := if r.1 ≠ 0 then (fgetc r.2).2 else r.2
    some { t1 with srv := fputc (ACK : Int) s }

/-- The session of `coldServer` with the bytes `input` on the line and an
empty parameter buffer. -/
def demoSession (input : List Nat) : Session :=
  { srv := { coldServer with input := input }
    param := List.replicate 128 0 }

/-- The names "A.DSK", "b.dsk" and "readme.txt". -/
def demoEntries : List (List Nat) :=
  [[65, 46, 68, 83, 75], [98, 46, 100, 115, 107],
   [114, 101, 97, 100, 109, 101, 46, 116, 120, 116]]

/-- The names that the loop of `lstdsk` lets through its two tests, in the
order of the directory. -/
def listedBy (param : List Nat) (entries : List (List Nat)) : List (List Nat) :=
  entries.filter (fun name => endsWithDSK name && startsWithCI name param)

/-- The bytes of a listing: each name followed by CR and LF. -/
def listingBytes : List (List Nat) → List Nat
  | [] => []
  | name :: more => name ++ [CR, LF] ++ listingBytes more

/-! ## The branches of the geometry detection taken in another order -/

/-- Branch `i` of the geometry detection of `load_dsk` once the single
density test has failed, for the `track0l` computed at line 315: branch 0 is
the first double density test (line 316), branch 1 the track 0 longer than a
track (line 322), branch 2 the second double density test (line 334). The
value is the result of the branch when its condition holds, `none` when it
does not. -/
def geometryBranch (s : Server) (track0l : Nat) (i : Fin 3) : Option (Int × Server) :=
  match i with
  | 0 =>
    if (s.nbsec ≥ 36 ∧ track0l = 20) ∨ (s.nbsec = 18 ∧ track0l = 10) ∨ track0l = s.nbsec / 2 then
      some (0, { s with track0l := track0l, ready := 1 })
    else none
  | 1 =>
    if track0l > s.nbsec then
      some (0, { s with track0l := s.nbsec, nbtrk := toU8 ((s.nbtrk : Int) + 1), ready := 1 })
    else none
  | 2 =>
    if track0l > s.nbsec / 2 ∧ track0l < s.nbsec then
      some (0, { s with track0l := track0l, ready := 1 })
    else none

/-- The geometry detection with the three branches of `geometryBranch`
tried in the order `i`, `j`, `k`; the single density test stays first and
the failure of line 339 stays last. The order of the code is 0, 1, 2. -/
def loadGeometryInOrder (i j k : Fin 3) (nb_sectors : Int) (s : Server) : Int × Server :=
  if ((s.nbtrk : Int) + 1) * (s.nbsec : Int) = nb_sectors then
    (0, { s with track0l := s.nbsec, ready := 1 })
  else
    let track0l := toU8 (nb_sectors - (s.nbtrk : Int) * (s.nbsec : Int))
    match geometryBranch s track0l i with
    | some r => r
    | none =>
      match geometryBranch s track0l j with
      | some r => r
      | none =>
        match geometryBranch s track0l k with
        | some r => r
        | none =>
          (-1, { s with
                  track0l := track0l,
                  nbtrk := toU8 ((s.nbtrk : Int) -
                    (Int.tdiv ((s.nbtrk : Int) * (s.nbsec : Int) - nb_sectors) (s.nbsec : Int) + 1)) })

/-! ## Mounting, directories and the command loop -/

/-- What the host answers while one command is handled, seen from the
working directory of the process, which `curdir` names: `file` is what `stat`
and `open` find under a path (`none` when `stat` fails), `entries` the names
that `readdir` returns for `opendir(curdir)`, in their order, `isDir` the
answer of `stat` on a name (`none` when it fails, else `S_ISDIR`), and `chdir`
the outcome of `chdir` on a path: `none` when it fails, else the string that
`getcwd` gives afterwards. -/
structure Host where
  file : List Nat → Option HostFile
  entries : List (List Nat)
  isDir : List Nat → Option Bool
  chdir : List Nat → Option (List Nat)

/-- The function `rmount` (lines 594-614): the descriptor is closed, `ready`
is set, the image is loaded from the parameter followed by ".DSK" and, if that
fails, from the parameter followed by ".dsk"; `ready` is cleared when both
fail, and returned. -/
def rmount (file : List Nat → Option HostFile) (t : Session) : Int × Session :=
  let s : Server := { t.srv with fd := none, ready := 1 }
  let r := load_dsk (file (cstr t.param ++ [46, 68, 83, 75])) s
  if r.1 < 0 then
    let r := load_dsk (file (cstr t.param ++ [46, 100, 115, 107])) r.2
    if r.1 < 0 then (0, { t with srv := { r.2 with ready := 0 } })
    else (r.2.ready, { t with srv := r.2 })
  else (r.2.ready, { t with srv := r.2 })

/-- The case 'M' of the dispatcher (lines 968-976): the parameter is read,
then ACK and 'R' or 'W' are written when `rmount` succeeds, NAK when it
fails. -/
def mainMount (file : List Nat → Option HostFile) (t : Session) : Option Session :=
  match getparam t with
  | none => none
  | some t1 =>
    let r := rmount file t1
    if r.1 ≠ 0 then
      let s := fputc (ACK : Int) r.2.srv
      some { r.2 with srv := fputc (if r.2.srv.readonly ≠ 0 then 82 else 87) s }
    else some { r.2 with srv := fputc (NAK : Int) r.2.srv }

/-- The session with the string `curdir`, which holds the working directory
of the process. -/
structure Process where
  ses : Session
  curdir : List Nat
  deriving DecidableEq, Repr

/-- The function `chngd` (lines 558-572): on success of `chdir` on the
parameter, `curdir` is refreshed with `getcwd` and 1 is returned; on failure 0
is returned. -/
def chngd (host : Host) (p : Process) : Int × Process :=
  match host.chdir (cstr p.ses.param) with
  | none => (0, p)
  | some dir => (1, { p with curdir := dir })

/-- The loop of `lstdir` (lines 724-745) over the names that `readdir`
returns: "." and ".." are skipped, and so are the names on which `stat` fails
and those that are no directory; for each other name one byte is read, and
unless it is a space the loop ends with `endlist` 0. The first component is
`endlist`. -/
def lstdirLoop (isDir : List Nat → Option Bool) : List (List Nat) → Server → Int × Server
  | [], s => (1, s)
  | name :: more, s =>
    if name = [46] ∨ name = [46, 46] then lstdirLoop isDir more s
    else
      match isDir name with
      | none => lstdirLoop isDir more s
      | some false => lstdirLoop isDir more s
      | some true =>
        let r := fgetc s
        if r.1 ≠ 0x20 then (0, r.2)
        else lstdirLoop isDir more (fputc (LF : Int) (fputc (CR : Int) (fputs name r.2)))

/-- The function `lstdir` (lines 704-753): the parameter is read, then one
byte; CR LF are written when that byte is a space. The directories are then
listed, one more byte is read when the list came to its end, and ACK is
written. -/
def lstdir (host : Host) (t : Session) : Option Session :=
  match getparam t with
  | none => none
  | some t1 =>
    let r := fgetc t1.srv
    let s := if r.1 ≠ 0x20 then r.2 else fputc (LF : Int) (fputc (CR : Int) r.2)
    let l := lstdirLoop host.isDir host.entries s
    let s := if l.1 ≠ 0 then (fgetc l.2).2 else l.2
    some { t1 with srv := fputc (ACK : Int) s }

/-- How one pass of the command loop ends: the loop goes on with the next
command, the process exits with a status, or a handler waits for ever for the
CR of a parameter. -/
inductive Outcome where
  | next (p : Process)
  | exited (status : Nat) (p : Process)
  | blocked
  deriving DecidableEq, Repr

/-- A handler that reads parameters, inside the command loop. -/
def continueWith (p : Process) (r : Option Session) : Outcome :=
  match r with
  | none => Outcome.blocked
  | some t => Outcome.next { p with ses := t }

/-- One pass of the command loop of `main` (lines 889-988): the command byte
is read, the first byte of `param` is cleared, and the `switch` selects the
handler. The cases stand in the order of the source; 'C' falls through to
'D' inside `mainCreate`. A byte that no case names gets the `default`, which
only prints in verbose mode. -/
def mainStep (host : Host) (p : Process) : Outcome :=
  let r := fgetc p.ses.srv
  let command := r.1
  let t : Session := { srv := r.2, param := p.ses.param.set 0 0 }
  if command = 0x55 ∨ command = 0xAA then
    Outcome.next { p with ses := { t with srv := fputc command t.srv } }
  else if command = 83 ∨ command = 115 then
    Outcome.next { p with ses := { t with srv := mainSend t.srv } }
  else if command = 82 ∨ command = 114 then
    Outcome.next { p with ses := { t with srv := mainReceive t.srv } }
  else if command = 86 then
    continueWith p ((getparam t).map (fun t1 => { t1 with srv := fputc (ACK : Int) t1.srv }))
  else if command = 63 then
    let s := fputc (ACK : Int) (fputc (CR : Int) (fputs p.curdir t.srv))
    Outcome.next { p with ses := { t with srv := s } }
  else if command = 81 then
    Outcome.next { p with ses := { t with srv := fputc (ACK : Int) t.srv } }
  else if command = 65 then continueWith p (lstdsk host.entries t)
  else if command = 73 then continueWith p (lstdir host t)
  else if command = 67 then continueWith p (mainCreate t)
  else if command = 68 then continueWith p (mainDelete t)
  else if command = 69 then
    Outcome.exited 0 { p with ses := { t with srv := fputc (ACK : Int) t.srv } }
  else if command = 80 then
    match getparam t with
    | none => Outcome.blocked
    | some t1 =>
      let c := chngd host { p with ses := t1 }
      let s := fputc (if c.1 ≠ 0 then (ACK : Int) else (NAK : Int)) c.2.ses.srv
      Outcome.next { c.2 with ses := { c.2.ses with srv := s } }
  else if command = 77 then continueWith p (mainMount host.file t)
  else if command = -1 then Outcome.exited 1 { p with ses := t }
  else Outcome.next { p with ses := t }

/-- A host that holds one image, of four sectors, under the name "A.dsk". -/
def demoFiles (path : List Nat) : Option HostFile :=
  if path = [65, 46, 100, 115, 107] then some (demoDisk 1 2 1) else none

/-- A host with the image of `demoFiles`, the names of `demoEntries`, no
directory, and no directory to change to. -/
def demoHost : Host :=
  { file := demoFiles
    entries := demoEntries
    isDir := fun _ => some false
    chdir := fun _ => none }

/-- The process in the directory "/" before any image is loaded, with the
bytes `input` to come from the client. -/
def demoProcess (input : List Nat) : Process :=
  { ses := demoSession input, curdir := [47] }

/-! ## Theorems: address translation -/

/-- A rejected address translates to -1. -/
theorem ts2blk_rejected (nbtrk nbsec track0l ntrk nsec : Nat)
    (h : ntrk > nbtrk ∨ nsec > nbsec ∨ (nsec = 0 ∧ ntrk ≠ 0)) :
    ts2blk nbtrk nbsec track0l ntrk nsec = -1 := by
  unfold ts2blk; rw [if_pos h]

/-- An accepted address translates to a non-negative block number. -/
theorem ts2blk_accepted (nbtrk nbsec track0l ntrk nsec : Nat)
    (h : ¬ (ntrk > nbtrk ∨ nsec > nbsec ∨ (nsec = 0 ∧ ntrk ≠ 0))) :
    0 ≤ ts2blk nbtrk nbsec track0l ntrk nsec := by
  unfold ts2blk
  rw [if_neg h]
  by_cases ht : ntrk = 0
  · rw [if_pos ht]
    by_cases hs : nsec = 0
    · rw [if_pos hs]
    · rw [if_neg hs]; omega
  · rw [if_neg ht]
    have hm : 0 ≤ ((ntrk : Int) - 1) * (nbsec : Int) :=
      mul_nonneg (by omega) (by omega)
    have hs : 1 ≤ nsec := by
      by_contra hc
      exact h (Or.inr (Or.inr ⟨by omega, ht⟩))
    omega

/-- Claim C3: `ts2blk` returns -1 exactly when `track > nbtrk`, or
`sector > nbsec`, or `sector = 0` with `track ≠ 0`; otherwise it returns 0 for
(0,0), `sector - 1` on track 0 for `sector ≥ 1`, and
`track0l + (track - 1) * nbsec + sector - 1` for `track > 0`. -/
theorem ts2blk_spec (nbtrk nbsec track0l ntrk nsec : Nat) :
    (ts2blk nbtrk nbsec track0l ntrk nsec = -1 ↔
      (ntrk > nbtrk ∨ nsec > nbsec ∨ (nsec = 0 ∧ ntrk ≠ 0))) ∧
    (¬ (ntrk > nbtrk ∨ nsec > nbsec ∨ (nsec = 0 ∧ ntrk ≠ 0)) →
      (ntrk = 0 ∧ nsec = 0 → ts2blk nbtrk nbsec track0l ntrk nsec = 0) ∧
      (ntrk = 0 ∧ 1 ≤ nsec → ts2blk nbtrk nbsec track0l ntrk nsec = (nsec : Int) - 1) ∧
      (0 < ntrk → ts2blk nbtrk nbsec track0l ntrk nsec =
        (track0l : Int) + ((ntrk : Int) - 1) * (nbsec : Int) + (nsec : Int) - 1)) := by
  refine ⟨⟨fun h => ?_, fun h => ?_⟩, fun h => ⟨?_, ?_, ?_⟩⟩
  · by_contra hc
    have := ts2blk_accepted nbtrk nbsec track0l ntrk nsec hc
    omega
  · unfold ts2blk; rw [if_pos h]
  · rintro ⟨ht, hs⟩
    unfold ts2blk; rw [if_neg h, if_pos ht, if_pos hs]
  · rintro ⟨ht, hs⟩
    unfold ts2blk; rw [if_neg h, if_pos ht, if_neg (by omega)]
  · intro ht
    unfold ts2blk; rw [if_neg h, if_neg (by omega)]

/-- The translation is injective on the accepted addresses (apart from the
alias of sectors 0 and 1 of track 0) as soon as track 0 is at least as long
as the other tracks. -/
theorem ts2blk_injective_of_full_track0 (nbtrk nbsec track0l t1 s1 t2 s2 : Nat)
    (hfull : nbsec ≤ track0l)
    (h1 : ts2blk nbtrk nbsec track0l t1 s1 ≠ -1)
    (h2 : ts2blk nbtrk nbsec track0l t2 s2 ≠ -1)
    (heq : ts2blk nbtrk nbsec track0l t1 s1 = ts2blk nbtrk nbsec track0l t2 s2) :
    (t1 = t2 ∧ s1 = s2) ∨ (t1 = 0 ∧ t2 = 0 ∧ s1 ≤ 1 ∧ s2 ≤ 1) := by
  have a1 : ¬ (t1 > nbtrk ∨ s1 > nbsec ∨ (s1 = 0 ∧ t1 ≠ 0)) :=
    fun h => h1 (ts2blk_rejected nbtrk nbsec track0l t1 s1 h)
  have a2 : ¬ (t2 > nbtrk ∨ s2 > nbsec ∨ (s2 = 0 ∧ t2 ≠ 0)) :=
    fun h => h2 (ts2blk_rejected nbtrk nbsec track0l t2 s2 h)
  unfold ts2blk at heq
  rw [if_neg a1, if_neg a2] at heq
  have b1 : s1 ≤ nbsec := by omega
  have b2 : s2 ≤ nbsec := by omega
  by_cases ht1 : t1 = 0 <;> by_cases ht2 : t2 = 0
  · rw [if_pos ht1, if_pos ht2] at heq
    split_ifs at heq <;> omega
  · rw [if_pos ht1, if_neg ht2] at heq
    have hm : 0 ≤ ((t2 : Int) - 1) * (nbsec : Int) := mul_nonneg (by omega) (by omega)
    have c2 : 1 ≤ s2 := by omega
    split_ifs at heq <;> omega
  · rw [if_neg ht1, if_pos ht2] at heq
    have hm : 0 ≤ ((t1 : Int) - 1) * (nbsec : Int) := mul_nonneg (by omega) (by omega)
    have c1 : 1 ≤ s1 := by omega
    split_ifs at heq <;> omega
  · rw [if_neg ht1, if_neg ht2] at heq
    have c1 : 1 ≤ s1 := by omega
    have c2 : 1 ≤ s2 := by omega
    left
    rcases Nat.lt_trichotomy t1 t2 with hlt | heq2 | hgt
    · exfalso
      have : ((t2 : Int) - 1) * nbsec - ((t1 : Int) - 1) * nbsec = ((t2 : Int) - t1) * nbsec := by ring
      have hge : (nbsec : Int) ≤ ((t2 : Int) - t1) * nbsec := by
        have : (1 : Int) ≤ (t2 : Int) - t1 := by omega
        nlinarith
      omega
    · subst heq2
      exact ⟨rfl, by omega⟩
    · exfalso
      have : ((t1 : Int) - 1) * nbsec - ((t2 : Int) - 1) * nbsec = ((t1 : Int) - t2) * nbsec := by ring
      have hge : (nbsec : Int) ≤ ((t1 : Int) - t2) * nbsec := by
        have : (1 : Int) ≤ (t1 : Int) - t2 := by omega
        nlinarith
      omega

/-- Claim C1, evaluated on the code: with the geometry of a double-density
disk whose track 0 is single density (`nbtrk = 39`, `nbsec = 18`,
`track0l = 10`), the two distinct addresses (0,11) and (1,1) are both accepted
and both translate to block 10, so the translation is not injective there. -/
theorem ts2blk_track0_overlaps_track1 :
    ts2blk 39 18 10 0 11 ≠ -1 ∧ ts2blk 39 18 10 1 1 ≠ -1 ∧
    ((0 : Nat), (11 : Nat)) ≠ (1, 1) ∧
    ts2blk 39 18 10 0 11 = 10 ∧ ts2blk 39 18 10 1 1 = 10 := by
  decide

/-- Claim C2 as the spec states it fails: with `nbtrk = 2`, `nbsec = 10`,
`track0l = 10` the address (2,10) does not translate to 19. -/
theorem ts2blk_example_not_19 :
    ¬ (ts2blk 2 10 10 1 1 = 10 ∧ ts2blk 2 10 10 2 10 = 19) := by
  decide

/-- Claim C2, amended: with `nbtrk = 2`, `nbsec = 10`, `track0l = 10`,
`ts2blk (1,1)` is 10 and `ts2blk (2,10)` is 29 (19 is `ts2blk (1,10)`). -/
theorem ts2blk_example :
    ts2blk 2 10 10 1 1 = 10 ∧ ts2blk 2 10 10 2 10 = 29 ∧ ts2blk 2 10 10 1 10 = 19 := by
  decide

/-! ## Theorems: checksum -/

/-- Sum of a prefix extended by one element. -/
theorem sum_take_succ (data : List Nat) (n : Nat) :
    (data.take (n + 1)).sum = (data.take n).sum + data.getD n 0 := by
  induction data generalizing n with
  | nil => simp
  | cons a l ih =>
    cases n with
    | zero => simp
    | succ m =>
      simp only [List.take_succ_cons, List.sum_cons, List.getD_cons_succ]
      rw [ih m]; omega

/-- The loop of `checksum` over the first `n` indices adds up the first `n` bytes. -/
theorem foldl_range_getD (data : List Nat) (n : Nat) :
    (List.range n).foldl (fun chks i => chks + data.getD i 0) 0 = (data.take n).sum := by
  induction n with
  | zero => simp
  | succ m ih =>
    rw [List.range_succ, List.foldl_append, ih, sum_take_succ]
    simp

/-- On a 256-byte buffer `checksum` is the byte sum modulo `2^16`. -/
theorem checksum_eq_sum_mod (data : List Nat) (h : data.length = 256) :
    checksum data = data.sum % 65536 := by
  unfold checksum
  rw [foldl_range_getD, ← h, List.take_length]
  exact Nat.and_pow_two_sub_one_eq_mod _ 16

/-- A list of bytes adds up to at most 255 times its length. -/
theorem sum_le_of_bytes (data : List Nat) (h : ∀ b ∈ data, b < 256) :
    data.sum ≤ 255 * data.length := by
  induction data with
  | nil => simp
  | cons a l ih =>
    have ha : a < 256 := h a (by simp)
    have hl := ih (fun b hb => h b (by simp [hb]))
    simp only [List.sum_cons, List.length_cons]
    omega

/-- Claim C4: for every 256-byte buffer `checksum` returns the sum of the 256
byte values modulo `2^16`; it is 0 on the all-zero buffer and 65280 on the
buffer of 256 bytes `0xFF`. -/
theorem checksum_spec (data : List Nat) (h : data.length = 256) :
    checksum data = data.sum % 2 ^ 16 ∧
    checksum (List.replicate 256 0) = 0 ∧
    checksum (List.replicate 256 0xFF) = 65280 := by
  refine ⟨checksum_eq_sum_mod data h, ?_, ?_⟩
  · rw [checksum_eq_sum_mod _ (List.length_replicate _ _), List.sum_replicate]; rfl
  · rw [checksum_eq_sum_mod _ (List.length_replicate _ _), List.sum_replicate]; rfl

/-- Claim C4 at the buffer of 256 bytes 7. -/
theorem checksum_spec_witness :
    (List.replicate 256 7).length = 256 ∧
    (checksum (List.replicate 256 7) = (List.replicate 256 7).sum % 2 ^ 16 ∧
      checksum (List.replicate 256 0) = 0 ∧
      checksum (List.replicate 256 0xFF) = 65280) :=
  ⟨List.length_replicate _ _, checksum_spec (List.replicate 256 7) (List.length_replicate _ _)⟩

/-! ## Theorems: file names -/

/-- Claim C10, evaluated on the code: the field "abcdefghijk" (lower-case
letters, which `isalnum` accepts) is not rejected, with either value of `dot`;
and the field "HELLO", four NUL, "!!" is not rejected either, the loop being
left at index 7 before bytes 9 and 10 are looked at. -/
theorem getname_accepts_bytes_outside_charset :
    getname [97, 98, 99, 100, 101, 102, 103, 104, 105, 106, 107] 0 =
      (11, [97, 98, 99, 100, 101, 102, 103, 104, 105, 106, 107]) ∧
    getname [97, 98, 99, 100, 101, 102, 103, 104, 105, 106, 107] 1 =
      (12, [97, 98, 99, 100, 101, 102, 103, 104, 46, 105, 106, 107]) ∧
    getname [72, 69, 76, 76, 79, 0, 0, 0, 0, 33, 33] 0 = (5, [72, 69, 76, 76, 79]) ∧
    getname [72, 69, 76, 76, 79, 0, 0, 0, 0, 33, 33] 1 = (5, [72, 69, 76, 76, 79]) := by
  decide

/-! ## Theorems: the loops of the sector handlers -/

/-- A natural number converted to `uint8_t` is its residue modulo 256. -/
theorem toU8_natCast (n : Nat) : toU8 (n : Int) = n % 256 := by
  unfold toU8
  have h : ((n : Int) % 256) = ((n % 256 : Nat) : Int) := by omega
  rw [h, Int.toNat_natCast]

/-- The constant 0 as a byte. -/
theorem toU8_zero : toU8 0 = 0 := rfl

/-- The constant 1 as a byte. -/
theorem toU8_one : toU8 1 = 1 := rfl

/-- A byte survives the conversion to `uint8_t`. -/
theorem toU8_byte (n : Nat) (h : n < 256) : toU8 (n : Int) = n := by
  rw [toU8_natCast, Nat.mod_eq_of_lt h]

/-- Reading from a stream that still holds a byte. -/
theorem fgetc_cons (b : Nat) (r out : List Nat) (fd : Option OpenFile) (nw : Nat)
    (bl : List Nat) (rdy ro : Int) (nt ns t0 : Nat) :
    fgetc ⟨b :: r, out, fd, nw, bl, rdy, ro, nt, ns, t0⟩ =
      (((b % 256 : Nat) : Int), ⟨r, out, fd, nw, bl, rdy, ro, nt, ns, t0⟩) :=
  rfl

/-- Writing index `i` changes the prefix of length `i + 1` only in its last
element. -/
theorem take_succ_set (l : List Nat) (i a : Nat) (h : i < l.length) :
    (l.set i a).take (i + 1) = l.take i ++ [a] := by
  induction l generalizing i with
  | nil => simp at h
  | cons x xs ih =>
    cases i with
    | zero => simp
    | succ j =>
      simp only [List.length_cons, Nat.add_lt_add_iff_right] at h
      simp [ih j h]

/-- Writing index `i` leaves the suffix from any later index unchanged. -/
theorem drop_set_of_lt (l : List Nat) (i a k : Nat) (h : i < k) :
    (l.set i a).drop k = l.drop k := by
  induction l generalizing i k with
  | nil => simp
  | cons x xs ih =>
    cases k with
    | zero => omega
    | succ m =>
      cases i with
      | zero => simp
      | succ j => simp [ih j m (by omega)]

/-- The bytes written by `n` calls `fputc (c, serial)`. -/
theorem fputcTimes_eq (c : Int) (n : Nat) (s : Server) :
    fputcTimes c n s = { s with output := s.output ++ List.replicate n (toU8 c) } := by
  induction n generalizing s with
  | zero => simp [fputcTimes]
  | succ m ih =>
    rw [fputcTimes, ih]
    simp [fputc, List.replicate_succ]

/-- The zeroing loop of `sndblk` clears the `n` bytes from index `i` on. -/
theorem zeroBloc_eq (n i : Nat) (s : Server) (h : i + n ≤ s.bloc.length) :
    zeroBloc n i s =
      { s with bloc := s.bloc.take i ++ List.replicate n 0 ++ s.bloc.drop (i + n) } := by
  induction n generalizing i s with
  | zero => simp [zeroBloc]
  | succ m ih =>
    rw [zeroBloc, ih]
    · have hi : i < s.bloc.length := by omega
      simp only [take_succ_set _ _ _ hi, drop_set_of_lt _ i 0 (i + 1 + m) (by omega)]
      have e : i + 1 + m = i + (m + 1) := by omega
      simp [List.replicate_succ, e]
    · simp only [List.length_set]; omega

/-- The transmission loop of `sndblk` writes the `n` bytes of `bloc` from
index `i` on. -/
theorem sendBloc_eq (n i : Nat) (s : Server) (h : i + n ≤ s.bloc.length) :
    sendBloc n i s =
      { s with output := s.output ++ ((s.bloc.drop i).take n).map (fun b => b % 256) } := by
  induction n generalizing i s with
  | zero => simp [sendBloc]
  | succ m ih =>
    rw [sendBloc, ih]
    · have hi : i < s.bloc.length := by omega
      have hd : s.bloc.drop i = s.bloc[i] :: s.bloc.drop (i + 1) :=
        List.drop_eq_getElem_cons hi
      simp only [fputc, hd, List.take_succ_cons, List.map_cons, toU8_natCast,
        List.getD_eq_getElem _ _ hi, List.append_assoc, List.singleton_append]
    · simp only [fputc]; omega

/-- The reception loop of `rcvblk` stores the next `n` bytes of the stream in
`bloc` from index `i` on. -/
theorem recvBloc_eq (n i : Nat) (s : Server) (p rest : List Nat)
    (hin : s.input = p ++ rest) (hp : p.length = n) (hb : ∀ b ∈ p, b < 256)
    (h : i + n ≤ s.bloc.length) :
    recvBloc n i s =
      { s with input := rest, bloc := s.bloc.take i ++ p ++ s.bloc.drop (i + n) } := by
  induction n generalizing i s p with
  | zero =>
    have hp0 : p = [] := List.length_eq_zero.mp hp
    subst hp0
    obtain ⟨inp, out, fd, nw, bl, rdy, ro, nt, ns, t0⟩ := s
    simp only [List.nil_append] at hin
    subst hin
    simp [recvBloc]
  | succ m ih =>
    cases p with
    | nil => simp at hp
    | cons b q =>
      obtain ⟨inp, out, fd, nw, bl, rdy, ro, nt, ns, t0⟩ := s
      simp only [List.cons_append] at hin h
      subst hin
      have hi : i < bl.length := by omega
      have hb0 : b < 256 := hb b (by simp)
      simp only [recvBloc, fgetc, Nat.mod_eq_of_lt hb0, toU8_byte b hb0]
      rw [ih (i + 1) _ q rfl (by simpa using hp) (fun x hx => hb x (by simp [hx]))
        (by simp only [List.length_set]; omega)]
      simp only [take_succ_set _ _ _ hi, drop_set_of_lt _ i b (i + 1 + m) (by omega)]
      have e : i + 1 + m = i + (m + 1) := by omega
      simp [e]

/-! ## Theorems: the receive handler -/

section Handlers

attribute [local irreducible] fputcTimes zeroBloc sendBloc recvBloc

/-- The receive handler on a complete request: the three address bytes and
the frame are consumed, the payload is in `bloc`, and what follows depends on
the checksum, the address and `ready` as in lines 516-528. -/
theorem rcvblk_eq (s : Server) (drv trk sec msb lsb : Nat) (payload rest : List Nat)
    (hin : s.input = drv :: trk :: sec :: (payload ++ msb :: lsb :: rest))
    (hlen : payload.length = 256) (hb : ∀ b ∈ payload, b < 256)
    (hbloc : s.bloc.length = 256) :
    rcvblk s =
      if (checksum payload : Int) = ((msb % 256 : Nat) : Int) * 256 + ((lsb % 256 : Nat) : Int) then
        if (256 : Int) * ts2blk s.nbtrk s.nbsec s.track0l (trk % 256) (sec % 256) < 0 then
          (0, { s with input := rest, bloc := payload })
        else if s.ready = 0 then (0, { s with input := rest, bloc := payload })
        else
          ((if (write (lseek ((256 : Int) * ts2blk s.nbtrk s.nbsec s.track0l (trk % 256) (sec % 256))
                { s with input := rest, bloc := payload }).2).1 ≠ 256 then 0
            else if (lseek ((256 : Int) * ts2blk s.nbtrk s.nbsec s.track0l (trk % 256) (sec % 256))
                { s with input := rest, bloc := payload }).1 ≠
                (256 : Int) * ts2blk s.nbtrk s.nbsec s.track0l (trk % 256) (sec % 256) then 0
            else 1),
           (write (lseek ((256 : Int) * ts2blk s.nbtrk s.nbsec s.track0l (trk % 256) (sec % 256))
                { s with input := rest, bloc := payload }).2).2)
      else (0, { s with input := rest, bloc := payload }) := by
  obtain ⟨inp, out, fd, nw, bl, rdy, ro, nt, ns, t0⟩ := s
  simp only at hin hbloc
  subst hin
  have hdrop : bl.drop 256 = [] := List.drop_eq_nil_of_le (by omega)
  unfold rcvblk
  simp only [fgetc_cons, toU8_natCast, Nat.mod_mod, SECSIZE]
  rw [recvBloc_eq 256 0 _ payload (msb :: lsb :: rest) rfl hlen hb (by simp only; omega)]
  simp only [List.take_zero, List.nil_append, Nat.zero_add, hdrop, List.append_nil, Nat.cast_ofNat,
    fgetc_cons]

/-- The low byte sent by `sndblk`. -/
theorem and_255 (c : Nat) : c &&& 0xFF = c % 256 :=
  Nat.and_pow_two_sub_one_eq_mod c 8

/-- Shifting right by 8 bits divides by 256. -/
theorem shiftRight_8 (c : Nat) : c >>> 8 = c / 256 :=
  Nat.shiftRight_eq_div_pow c 8

/-- Reducing bytes modulo 256 changes nothing. -/
theorem map_mod_bytes (l : List Nat) (h : ∀ b ∈ l, b < 256) :
    l.map (fun b => b % 256) = l := by
  induction l with
  | nil => rfl
  | cons a t ih =>
    have ha : a < 256 := h a (by simp)
    simp only [List.map_cons, Nat.mod_eq_of_lt ha, ih (fun b hb => h b (by simp [hb]))]

/-- The checksum of 256 zero bytes. -/
theorem checksum_zeros : checksum (List.replicate 256 0) = 0 := by
  rw [checksum_eq_sum_mod _ (List.length_replicate _ _), List.sum_replicate]; rfl

/-! ## Theorems: the send handler -/

/-- The send handler when no disk is mounted: 258 zero bytes and a byte 1 are
written and one response byte is consumed. -/
theorem sndblk_not_ready (s : Server) (drv trk sec resp : Nat) (rest : List Nat)
    (hin : s.input = drv :: trk :: sec :: resp :: rest) (hready : s.ready = 0) :
    sndblk s =
      { s with input := rest, output := s.output ++ List.replicate 258 0 ++ [1] } := by
  obtain ⟨inp, out, fd, nw, bl, rdy, ro, nt, ns, t0⟩ := s
  simp only at hin hready
  subst hin hready
  unfold sndblk
  simp only [fgetc_cons, if_true, sndblkNotReady, fputcTimes_eq, fputc, toU8_zero, toU8_one]

/-- Reading at an address that `ts2blk` rejects: nothing is read, `retval`
is 0. -/
theorem sndblkRead_invalid (ntrk nsec : Nat) (s : Server)
    (h : ts2blk s.nbtrk s.nbsec s.track0l ntrk nsec = -1) :
    sndblkRead ntrk nsec s = (0, s) := by
  unfold sndblkRead
  simp only [h, SECSIZE]
  rfl

/-- Reading through a closed descriptor: nothing is read, `retval` is 0. -/
theorem sndblkRead_closed (ntrk nsec : Nat) (s : Server) (h : s.fd = none) :
    sndblkRead ntrk nsec s = (0, s) := by
  unfold sndblkRead
  by_cases hp : (SECSIZE : Int) * ts2blk s.nbtrk s.nbsec s.track0l ntrk nsec < 0
  · simp only [hp, if_true]
  · simp [hp, lseek, read, h]

/-- Reading block `blk` of an open file: the bytes of the file from position
`256 * blk` on, at most 256, go to the start of `bloc`, and `retval` is 1
exactly when there are 256 of them. -/
theorem sndblkRead_open (ntrk nsec blk : Nat) (s : Server) (f : OpenFile)
    (hblk : ts2blk s.nbtrk s.nbsec s.track0l ntrk nsec = (blk : Int))
    (hfd : s.fd = some f) :
    sndblkRead ntrk nsec s =
      ((if ((f.content.drop (256 * blk)).take 256).length = 256 then 1 else 0),
        { s with
          bloc := (f.content.drop (256 * blk)).take 256 ++
            s.bloc.drop ((f.content.drop (256 * blk)).take 256).length,
          fd := some { f with
            offset := 256 * blk + ((f.content.drop (256 * blk)).take 256).length } }) := by
  obtain ⟨inp, out, fd, nw, bl, rdy, ro, nt, ns, t0⟩ := s
  simp only at hblk hfd
  subst hfd
  have hpos : ¬ ((256 : Int) * (blk : Int) < 0) := by omega
  have htn : ((256 : Int) * (blk : Int)).toNat = 256 * blk := by omega
  unfold sndblkRead
  simp only [hblk, SECSIZE, Nat.cast_ofNat, hpos, if_false, lseek, read, htn, ne_eq,
    not_true_eq_false, Nat.cast_inj, ite_not]
  by_cases hl : ((f.content.drop (256 * blk)).take 256).length = 256
  · simp [hl]
  · have hl2 : ¬ ((((f.content.drop (256 * blk)).take 256).length : Int) = 256) := by omega
    simp only [hl, hl2, if_false]

/-- The reply after a failed read: 256 zero bytes and a zero checksum. -/
theorem sndblkReply_zero (s : Server) (resp : Nat) (rest : List Nat)
    (hin : s.input = resp :: rest) (hbloc : s.bloc.length = 256) :
    sndblkReply 0 s =
      { s with input := rest, bloc := List.replicate 256 0,
               output := s.output ++ List.replicate 256 0 ++ [0, 0] } := by
  obtain ⟨inp, out, fd, nw, bl, rdy, ro, nt, ns, t0⟩ := s
  simp only at hin hbloc
  subst hin
  have hdrop : bl.drop 256 = [] := List.drop_eq_nil_of_le (by omega)
  unfold sndblkReply
  simp only [if_true]
  rw [zeroBloc_eq 256 0 _ (by simp only; omega)]
  simp only [List.take_zero, List.nil_append, Nat.zero_add, hdrop, List.append_nil]
  rw [sendBloc_eq 256 0 _ (by simp only [List.length_replicate]; omega)]
  have h1 : toU8 ((0 >>> 8 &&& 255 : Nat) : Int) = 0 := rfl
  have h2 : toU8 ((0 &&& 255 : Nat) : Int) = 0 := rfl
  have h3 : List.map (fun b => b % 256) (List.take 256 (List.replicate 256 0)) =
      List.replicate 256 0 := by
    rw [List.take_of_length_le (List.length_replicate _ _).le, map_mod_bytes]
    intro b hb
    rw [List.mem_replicate] at hb
    omega
  simp only [List.drop_zero, checksum_zeros, fputc, fgetc_cons, h1, h2, h3,
    List.append_assoc, List.cons_append, List.nil_append]

/-- The reply after a successful read: the 256 bytes of `bloc` and the two
bytes of their checksum, high byte first. -/
theorem sndblkReply_one (s : Server) (resp : Nat) (rest : List Nat)
    (hin : s.input = resp :: rest) (hbloc : s.bloc.length = 256)
    (hb : ∀ b ∈ s.bloc, b < 256) :
    sndblkReply 1 s =
      { s with input := rest,
               output := s.output ++ s.bloc ++
                 [checksum s.bloc / 256 % 256, checksum s.bloc % 256] } := by
  obtain ⟨inp, out, fd, nw, bl, rdy, ro, nt, ns, t0⟩ := s
  simp only at hin hbloc hb
  subst hin
  unfold sndblkReply
  simp only [one_ne_zero, if_false]
  rw [sendBloc_eq 256 0 _ (by simp only; omega)]
  have ht : List.take 256 bl = bl := List.take_of_length_le (by omega)
  simp only [List.drop_zero, fputc, fgetc_cons, toU8_natCast, and_255, shiftRight_8, Nat.mod_mod,
    ht, map_mod_bytes bl hb, List.append_assoc, List.cons_append, List.nil_append]

/-- The checksum is a 16-bit value. -/
theorem checksum_lt (data : List Nat) : checksum data < 65536 := by
  unfold checksum
  rw [show (0xFFFF : Nat) = 2 ^ 16 - 1 from rfl, Nat.and_pow_two_sub_one_eq_mod]
  exact Nat.mod_lt _ (by norm_num)

/-- An address is either rejected or translated to a natural number. -/
theorem ts2blk_cases (nbtrk nbsec track0l ntrk nsec : Nat) :
    ts2blk nbtrk nbsec track0l ntrk nsec = -1 ∨
    ∃ blk : Nat, ts2blk nbtrk nbsec track0l ntrk nsec = (blk : Int) := by
  by_cases h : ntrk > nbtrk ∨ nsec > nbsec ∨ (nsec = 0 ∧ ntrk ≠ 0)
  · left
    unfold ts2blk; rw [if_pos h]
  · right
    have h0 := ts2blk_accepted nbtrk nbsec track0l ntrk nsec h
    exact ⟨(ts2blk nbtrk nbsec track0l ntrk nsec).toNat, (Int.toNat_of_nonneg h0).symm⟩

/-- The send handler on a mounted disk: after the three request bytes the
sector is read and the reply is sent. -/
theorem sndblk_mounted_eq (s : Server) (drv trk sec : Nat) (tail : List Nat)
    (hin : s.input = drv :: trk :: sec :: tail) (hready : s.ready ≠ 0) :
    sndblk s =
      sndblkReply (sndblkRead (trk % 256) (sec % 256) { s with input := tail }).1
        (sndblkRead (trk % 256) (sec % 256) { s with input := tail }).2 := by
  obtain ⟨inp, out, fd, nw, bl, rdy, ro, nt, ns, t0⟩ := s
  simp only at hin hready
  subst hin
  unfold sndblk
  simp only [fgetc_cons, toU8_natCast, Nat.mod_mod, if_neg hready]

/-- The send handler on a mounted disk when the address is rejected or the
descriptor is closed: 256 zero bytes and a zero checksum. -/
theorem sndblk_zero_reply (s : Server) (drv trk sec resp : Nat) (rest : List Nat)
    (hin : s.input = drv :: trk :: sec :: resp :: rest) (hready : s.ready ≠ 0)
    (hbloc : s.bloc.length = 256)
    (h : ts2blk s.nbtrk s.nbsec s.track0l (trk % 256) (sec % 256) = -1 ∨ s.fd = none) :
    sndblk s =
      { s with input := rest, bloc := List.replicate 256 0,
               output := s.output ++ List.replicate 256 0 ++ [0, 0] } := by
  have hr : sndblkRead (trk % 256) (sec % 256) { s with input := resp :: rest } =
      (0, { s with input := resp :: rest }) := by
    rcases h with h | h
    · exact sndblkRead_invalid _ _ _ h
    · exact sndblkRead_closed _ _ _ h
  rw [sndblk_mounted_eq s drv trk sec (resp :: rest) hin hready, hr]
  exact sndblkReply_zero _ resp rest rfl hbloc

/-- The send handler on a mounted disk when the file ends before the end of
the sector: 256 zero bytes and a zero checksum. -/
theorem sndblk_short_read (s : Server) (drv trk sec resp blk : Nat) (rest : List Nat)
    (f : OpenFile)
    (hin : s.input = drv :: trk :: sec :: resp :: rest) (hready : s.ready ≠ 0)
    (hbloc : s.bloc.length = 256)
    (hblk : ts2blk s.nbtrk s.nbsec s.track0l (trk % 256) (sec % 256) = (blk : Int))
    (hfd : s.fd = some f) (hshort : f.content.length < 256 * blk + 256) :
    sndblk s =
      { s with input := rest, bloc := List.replicate 256 0,
               output := s.output ++ List.replicate 256 0 ++ [0, 0],
               fd := some { f with offset := 256 * blk + (f.content.length - 256 * blk) } } := by
  have hl : ((f.content.drop (256 * blk)).take 256).length = f.content.length - 256 * blk := by
    rw [List.length_take, List.length_drop]; omega
  have hne : ¬ (f.content.length - 256 * blk = 256) := by omega
  rw [sndblk_mounted_eq s drv trk sec (resp :: rest) hin hready,
    sndblkRead_open _ _ blk { s with input := resp :: rest } f hblk hfd]
  simp only [hl, hne, if_false]
  rw [sndblkReply_zero _ resp rest rfl
    (by simp only [List.length_append, List.length_drop, hl]; omega)]

/-- The send handler on a mounted disk when the sector is in the file: the
sector and the two bytes of its checksum. -/
theorem sndblk_sector (s : Server) (drv trk sec resp blk : Nat) (rest : List Nat)
    (f : OpenFile)
    (hin : s.input = drv :: trk :: sec :: resp :: rest) (hready : s.ready ≠ 0)
    (hbloc : s.bloc.length = 256)
    (hblk : ts2blk s.nbtrk s.nbsec s.track0l (trk % 256) (sec % 256) = (blk : Int))
    (hfd : s.fd = some f) (hlen : 256 * blk + 256 ≤ f.content.length)
    (hb : ∀ b ∈ (f.content.drop (256 * blk)).take 256, b < 256) :
    sndblk s =
      { s with input := rest, bloc := (f.content.drop (256 * blk)).take 256,
               output := s.output ++ (f.content.drop (256 * blk)).take 256 ++
                 [checksum ((f.content.drop (256 * blk)).take 256) / 256,
                  checksum ((f.content.drop (256 * blk)).take 256) % 256],
               fd := some { f with offset := 256 * blk + 256 } } := by
  have hl : ((f.content.drop (256 * blk)).take 256).length = 256 := by
    rw [List.length_take, List.length_drop]; omega
  have hd : s.bloc.drop 256 = [] := List.drop_eq_nil_of_le (by omega)
  have hhi : checksum ((f.content.drop (256 * blk)).take 256) / 256 % 256 =
      checksum ((f.content.drop (256 * blk)).take 256) / 256 := by
    have := checksum_lt ((f.content.drop (256 * blk)).take 256)
    omega
  rw [sndblk_mounted_eq s drv trk sec (resp :: rest) hin hready,
    sndblkRead_open _ _ blk { s with input := resp :: rest } f hblk hfd]
  simp only [hl, if_true, hd, List.append_nil]
  rw [sndblkReply_one _ resp rest rfl hl hb]
  simp only [hhi]

/-! ## Theorems: writing and reading back -/

/-- Seeking to block `blk` of a file opened for writing and writing `bloc`
there. -/
theorem lseek_write_open (blk : Nat) (s : Server) (f : OpenFile)
    (hfd : s.fd = some f) (hw : f.writable = true) :
    (lseek ((256 : Int) * (blk : Int)) s).1 = (256 : Int) * (blk : Int) ∧
    write (lseek ((256 : Int) * (blk : Int)) s).2 =
      (256, { s with
        nwrites := s.nwrites + 1,
        fd := some
          { content :=
              (f.content ++ List.replicate (256 * blk - f.content.length) 0).take (256 * blk) ++
                s.bloc.take 256 ++
                (f.content ++ List.replicate (256 * blk - f.content.length) 0).drop
                  (256 * blk + 256),
            offset := 256 * blk + 256,
            writable := true } }) := by
  obtain ⟨inp, out, fd, nw, bl, rdy, ro, nt, ns, t0⟩ := s
  obtain ⟨c, o, w⟩ := f
  simp only at hfd hw
  subst hfd hw
  have hpos : ¬ ((256 : Int) * (blk : Int) < 0) := by omega
  have htn : ((256 : Int) * (blk : Int)).toNat = 256 * blk := by omega
  simp only [lseek, write, hpos, if_false, htn, if_true, and_self]

/-- Writing through a closed or read-only descriptor fails. -/
theorem lseek_write_fail (pos : Int) (s : Server)
    (h : s.fd = none ∨ ∃ f, s.fd = some f ∧ f.writable = false) :
    (write (lseek pos s).2).1 = -1 := by
  obtain ⟨inp, out, fd, nw, bl, rdy, ro, nt, ns, t0⟩ := s
  rcases h with h | ⟨f, h, hw⟩
  · simp only at h
    subst h
    simp only [lseek, write]
  · obtain ⟨c, o, w⟩ := f
    simp only at h hw
    subst h hw
    by_cases hp : pos < 0
    · simp [lseek, write, hp]
    · simp [lseek, write, hp]

/-- What a successful receive request has done: the checksum matched, the
address was accepted, a disk was mounted, the descriptor was open for writing,
and the payload now stands in the file at the position of the block. -/
theorem rcvblk_success (s : Server) (drv trk sec msb lsb : Nat) (payload rest : List Nat)
    (hin : s.input = drv :: trk :: sec :: (payload ++ msb :: lsb :: rest))
    (hlen : payload.length = 256) (hb : ∀ b ∈ payload, b < 256)
    (hbloc : s.bloc.length = 256) (hok : (rcvblk s).1 ≠ 0) :
    ∃ (f : OpenFile) (blk : Nat),
      s.fd = some f ∧ f.writable = true ∧ s.ready ≠ 0 ∧
      ts2blk s.nbtrk s.nbsec s.track0l (trk % 256) (sec % 256) = (blk : Int) ∧
      (checksum payload : Int) = ((msb % 256 : Nat) : Int) * 256 + ((lsb % 256 : Nat) : Int) ∧
      rcvblk s =
        (1, { s with
          input := rest, bloc := payload, nwrites := s.nwrites + 1,
          fd := some
            { content :=
                (f.content ++ List.replicate (256 * blk - f.content.length) 0).take (256 * blk) ++
                  payload ++
                  (f.content ++ List.replicate (256 * blk - f.content.length) 0).drop
                    (256 * blk + 256),
              offset := 256 * blk + 256,
              writable := true } }) := by
  have heq := rcvblk_eq s drv trk sec msb lsb payload rest hin hlen hb hbloc
  rw [heq] at hok
  by_cases hck : (checksum payload : Int) =
      ((msb % 256 : Nat) : Int) * 256 + ((lsb % 256 : Nat) : Int)
  swap
  · rw [if_neg hck] at hok
    exact absurd rfl hok
  rw [if_pos hck] at hok heq
  rcases ts2blk_cases s.nbtrk s.nbsec s.track0l (trk % 256) (sec % 256) with hbad | ⟨blk, hblk⟩
  · have hneg : (256 : Int) * ts2blk s.nbtrk s.nbsec s.track0l (trk % 256) (sec % 256) < 0 := by
      rw [hbad]; norm_num
    rw [if_pos hneg] at hok
    exact absurd rfl hok
  have hpos : ¬ ((256 : Int) * ts2blk s.nbtrk s.nbsec s.track0l (trk % 256) (sec % 256) < 0) := by
    rw [hblk]; omega
  rw [if_neg hpos] at hok heq
  by_cases hr : s.ready = 0
  · rw [if_pos hr] at hok
    exact absurd rfl hok
  rw [if_neg hr] at hok heq
  rw [hblk] at hok heq
  have hopen : ∃ f, s.fd = some f ∧ f.writable = true := by
    by_contra hc
    have hfail : s.fd = none ∨ ∃ f, s.fd = some f ∧ f.writable = false := by
      cases hfd : s.fd with
      | none => exact Or.inl rfl
      | some f =>
        right
        refine ⟨f, rfl, ?_⟩
        cases hw : f.writable with
        | false => rfl
        | true => exact absurd ⟨f, hfd, hw⟩ hc
    have hm := lseek_write_fail ((256 : Int) * (blk : Int))
      { s with input := rest, bloc := payload } hfail
    rw [hm] at hok
    simp at hok
  obtain ⟨f, hfd, hw⟩ := hopen
  obtain ⟨h1, h2⟩ := lseek_write_open blk { s with input := rest, bloc := payload } f hfd hw
  have htk : payload.take 256 = payload := List.take_of_length_le (by omega)
  refine ⟨f, blk, hfd, hw, hr, hblk, hck, ?_⟩
  rw [heq, h1, h2]
  simp [htk]

/-- The sector written at block `blk` is what a read of that block returns,
and the file reaches the end of the block. -/
theorem written_sector (c payload : List Nat) (blk : Nat) (hlen : payload.length = 256) :
    (((c ++ List.replicate (256 * blk - c.length) 0).take (256 * blk) ++ payload ++
        (c ++ List.replicate (256 * blk - c.length) 0).drop (256 * blk + 256)).drop
          (256 * blk)).take 256 = payload ∧
    256 * blk + 256 ≤
      ((c ++ List.replicate (256 * blk - c.length) 0).take (256 * blk) ++ payload ++
        (c ++ List.replicate (256 * blk - c.length) 0).drop (256 * blk + 256)).length := by
  have hp : ((c ++ List.replicate (256 * blk - c.length) 0).take (256 * blk)).length =
      256 * blk := by
    rw [List.length_take, List.length_append, List.length_replicate]; omega
  constructor
  · rw [List.append_assoc, List.drop_left' hp, List.take_left' hlen]
  · simp only [List.length_append, hp, hlen]; omega



/-! ## Theorems: the claims on the sector handlers -/

/-- Claim C5: a receive request (3 address bytes, 256 payload bytes, 2
checksum bytes) whose transmitted checksum `msb * 256 + lsb` differs from
`checksum payload` makes `rcvblk` return 0 without calling `write`, the file
behind `fd` is left as it was, and the dispatcher writes the single byte NAK
(0x15). -/
theorem rcvblk_bad_checksum (s : Server) (drv trk sec msb lsb : Nat) (payload rest : List Nat)
    (hin : s.input = drv :: trk :: sec :: (payload ++ msb :: lsb :: rest))
    (hlen : payload.length = 256) (hb : ∀ b ∈ payload, b < 256)
    (hmsb : msb < 256) (hlsb : lsb < 256) (hbloc : s.bloc.length = 256)
    (hck : msb * 256 + lsb ≠ checksum payload) :
    (rcvblk s).1 = 0 ∧
    (rcvblk s).2.nwrites = s.nwrites ∧
    (rcvblk s).2.fd = s.fd ∧
    (mainReceive s).nwrites = s.nwrites ∧
    (mainReceive s).fd = s.fd ∧
    (mainReceive s).input = rest ∧
    (mainReceive s).output = s.output ++ [NAK] ∧ NAK = 0x15 := by
  have hne : ¬ ((checksum payload : Int) =
      ((msb % 256 : Nat) : Int) * 256 + ((lsb % 256 : Nat) : Int)) := by
    rw [Nat.mod_eq_of_lt hmsb, Nat.mod_eq_of_lt hlsb]
    omega
  have heq := rcvblk_eq s drv trk sec msb lsb payload rest hin hlen hb hbloc
  rw [if_neg hne] at heq
  simp [mainReceive, heq, fputc, NAK, toU8]

/-- Claim C5 at a request on the sample session whose checksum bytes 1, 1 do
not match the payload. -/
theorem rcvblk_bad_checksum_witness :
    (demoPayload.length = 256 ∧ 1 * 256 + 1 ≠ checksum demoPayload) ∧
    ((rcvblk (demoReceive 1 1)).1 = 0 ∧
      (rcvblk (demoReceive 1 1)).2.nwrites = (demoReceive 1 1).nwrites ∧
      (rcvblk (demoReceive 1 1)).2.fd = (demoReceive 1 1).fd ∧
      (mainReceive (demoReceive 1 1)).nwrites = (demoReceive 1 1).nwrites ∧
      (mainReceive (demoReceive 1 1)).fd = (demoReceive 1 1).fd ∧
      (mainReceive (demoReceive 1 1)).input = [83] ∧
      (mainReceive (demoReceive 1 1)).output = (demoReceive 1 1).output ++ [NAK] ∧
      NAK = 0x15) := by
  have hck : 1 * 256 + 1 ≠ checksum demoPayload := by
    rw [demoPayload, checksum_eq_sum_mod _ (List.length_replicate _ _), List.sum_replicate]
    decide
  exact ⟨⟨List.length_replicate _ _, hck⟩,
    rcvblk_bad_checksum (demoReceive 1 1) 0 1 1 1 1 demoPayload [83] rfl
      (List.length_replicate _ _)
      (fun b hb => by rw [demoPayload, List.mem_replicate] at hb; omega)
      (by decide) (by decide) (List.length_replicate _ _) hck⟩


/-- Claim C7: a receive request whose address `ts2blk` rejects, or that comes
while no disk is mounted (`ready = 0`), makes `rcvblk` return 0 without calling
`write`, whether or not its checksum matches; the file behind `fd` is left as
it was and the dispatcher writes the single byte NAK. -/
theorem rcvblk_rejected (s : Server) (drv trk sec msb lsb : Nat) (payload rest : List Nat)
    (hin : s.input = drv :: trk :: sec :: (payload ++ msb :: lsb :: rest))
    (hlen : payload.length = 256) (hb : ∀ b ∈ payload, b < 256)
    (htrk : trk < 256) (hsec : sec < 256) (hbloc : s.bloc.length = 256)
    (h : ts2blk s.nbtrk s.nbsec s.track0l trk sec = -1 ∨ s.ready = 0) :
    (rcvblk s).1 = 0 ∧
    (rcvblk s).2.nwrites = s.nwrites ∧
    (rcvblk s).2.fd = s.fd ∧
    (mainReceive s).nwrites = s.nwrites ∧
    (mainReceive s).fd = s.fd ∧
    (mainReceive s).input = rest ∧
    (mainReceive s).output = s.output ++ [NAK] := by
  have heq := rcvblk_eq s drv trk sec msb lsb payload rest hin hlen hb hbloc
  rw [Nat.mod_eq_of_lt htrk, Nat.mod_eq_of_lt hsec] at heq
  have hres : rcvblk s = (0, { s with input := rest, bloc := payload }) := by
    rw [heq]
    by_cases hck : (checksum payload : Int) =
        ((msb % 256 : Nat) : Int) * 256 + ((lsb % 256 : Nat) : Int)
    · rw [if_pos hck]
      by_cases hneg : (256 : Int) * ts2blk s.nbtrk s.nbsec s.track0l trk sec < 0
      · rw [if_pos hneg]
      · rw [if_neg hneg]
        rcases h with h | h
        · rw [h] at hneg
          exact absurd (by norm_num) hneg
        · rw [if_pos h]
    · rw [if_neg hck]
  simp [mainReceive, hres, fputc, NAK, toU8]

/-- Claim C7 at a request on the sample session with a matching checksum and
track 3, beyond `nbtrk = 2`. -/
theorem rcvblk_rejected_witness :
    (7 * 256 + 0 = checksum demoPayload ∧ ts2blk 2 10 10 3 1 = -1) ∧
    ((rcvblk (demoServer (0 :: 3 :: 1 :: (demoPayload ++ 7 :: 0 :: [83])))).1 = 0 ∧
      (rcvblk (demoServer (0 :: 3 :: 1 :: (demoPayload ++ 7 :: 0 :: [83])))).2.nwrites = 0 ∧
      (rcvblk (demoServer (0 :: 3 :: 1 :: (demoPayload ++ 7 :: 0 :: [83])))).2.fd =
        some demoImage ∧
      (mainReceive (demoServer (0 :: 3 :: 1 :: (demoPayload ++ 7 :: 0 :: [83])))).nwrites = 0 ∧
      (mainReceive (demoServer (0 :: 3 :: 1 :: (demoPayload ++ 7 :: 0 :: [83])))).fd =
        some demoImage ∧
      (mainReceive (demoServer (0 :: 3 :: 1 :: (demoPayload ++ 7 :: 0 :: [83])))).input = [83] ∧
      (mainReceive (demoServer (0 :: 3 :: 1 :: (demoPayload ++ 7 :: 0 :: [83])))).output =
        [] ++ [NAK]) := by
  have hck : 7 * 256 + 0 = checksum demoPayload := by
    rw [demoPayload, checksum_eq_sum_mod _ (List.length_replicate _ _), List.sum_replicate]
    decide
  exact ⟨⟨hck, by decide⟩,
    rcvblk_rejected (demoServer (0 :: 3 :: 1 :: (demoPayload ++ 7 :: 0 :: [83])))
      0 3 1 7 0 demoPayload [83] rfl (List.length_replicate _ _)
      (fun b hb => by rw [demoPayload, List.mem_replicate] at hb; omega)
      (by decide) (by decide) (List.length_replicate _ _) (Or.inl (by decide))⟩

/-- Claim C8, evaluated on the code: when no disk is mounted the send handler
writes 259 bytes, 258 zero bytes and then the byte 1, and consumes one response
byte.  The first 258 bytes, read as a frame, are a payload of 256 zero bytes
and the checksum bytes 0, 0, and `0 * 256 + 0` is the checksum of that payload:
the checksum field is valid. -/
theorem sndblk_not_ready_frame_is_valid (s : Server) (drv trk sec resp : Nat)
    (rest : List Nat) :
    (sndblk { s with ready := 0, input := drv :: trk :: sec :: resp :: rest }).output =
      s.output ++ (List.replicate 256 0 ++ [0, 0]) ++ [1] ∧
    0 * 256 + 0 = checksum (List.replicate 256 0) ∧
    (sndblk { s with ready := 0, input := drv :: trk :: sec :: resp :: rest }).input = rest := by
  rw [sndblk_not_ready _ drv trk sec resp rest rfl rfl, checksum_zeros]
  refine ⟨?_, rfl, rfl⟩
  have h258 : List.replicate 258 0 = List.replicate 256 0 ++ [0, 0] := by
    rw [show (258 : Nat) = 256 + 2 from rfl, List.replicate_add]
    rfl
  simp only [h258]


/-- Claim C9: when a disk is mounted, a send request (drive, track, sector)
makes `sndblk` write exactly 258 bytes, a 256-byte payload followed by the high
byte and the low byte of its checksum.  The payload is the sector stored at
block `ts2blk (track, sector)` when the address is accepted and the file holds
the whole sector; it is 256 zero bytes, with checksum bytes 0, 0, when `ts2blk`
returns -1 or the read fails (closed descriptor, or a file that ends before the
end of the sector).  One response byte is then consumed, and its value has no
effect on the state. -/
theorem sndblk_mounted (s : Server) (drv trk sec resp : Nat) (rest : List Nat)
    (hin : s.input = drv :: trk :: sec :: resp :: rest)
    (htrk : trk < 256) (hsec : sec < 256)
    (hready : s.ready ≠ 0) (hbloc : s.bloc.length = 256)
    (hfile : ∀ f, s.fd = some f → ∀ b ∈ f.content, b < 256) :
    (∀ (f : OpenFile) (blk : Nat), s.fd = some f →
      ts2blk s.nbtrk s.nbsec s.track0l trk sec = (blk : Int) →
      256 * blk + 256 ≤ f.content.length →
      (sndblk s).output =
        s.output ++ (f.content.drop (256 * blk)).take 256 ++
          [checksum ((f.content.drop (256 * blk)).take 256) / 256,
           checksum ((f.content.drop (256 * blk)).take 256) % 256]) ∧
    ((ts2blk s.nbtrk s.nbsec s.track0l trk sec = -1 ∨ s.fd = none ∨
        ∃ (f : OpenFile) (blk : Nat), s.fd = some f ∧
          ts2blk s.nbtrk s.nbsec s.track0l trk sec = (blk : Int) ∧
          f.content.length < 256 * blk + 256) →
      (sndblk s).output = s.output ++ List.replicate 256 0 ++ [0, 0]) ∧
    (sndblk s).output.length = s.output.length + 258 ∧
    (sndblk s).input = rest ∧
    (∀ resp2 : Nat,
      sndblk { s with input := drv :: trk :: sec :: resp2 :: rest } = sndblk s) := by
  have mt : trk % 256 = trk := Nat.mod_eq_of_lt htrk
  have ms : sec % 256 = sec := Nat.mod_eq_of_lt hsec
  have hz : [checksum (List.replicate 256 0) / 256, checksum (List.replicate 256 0) % 256] =
      [0, 0] := by
    rw [checksum_zeros]
  have key : ∃ (payload : List Nat) (fd2 : Option OpenFile),
      payload.length = 256 ∧
      (∀ resp2 : Nat, sndblk { s with input := drv :: trk :: sec :: resp2 :: rest } =
        { s with input := rest, bloc := payload,
                 output := s.output ++ payload ++
                   [checksum payload / 256, checksum payload % 256],
                 fd := fd2 }) ∧
      (∀ (f : OpenFile) (blk : Nat), s.fd = some f →
        ts2blk s.nbtrk s.nbsec s.track0l trk sec = (blk : Int) →
        256 * blk + 256 ≤ f.content.length →
        payload = (f.content.drop (256 * blk)).take 256) ∧
      ((ts2blk s.nbtrk s.nbsec s.track0l trk sec = -1 ∨ s.fd = none ∨
          ∃ (f : OpenFile) (blk : Nat), s.fd = some f ∧
            ts2blk s.nbtrk s.nbsec s.track0l trk sec = (blk : Int) ∧
            f.content.length < 256 * blk + 256) →
        payload = List.replicate 256 0) := by
    rcases ts2blk_cases s.nbtrk s.nbsec s.track0l trk sec with h | ⟨blk, hblk⟩
    · refine ⟨List.replicate 256 0, s.fd, List.length_replicate _ _, ?_, ?_, fun _ => rfl⟩
      · intro resp2
        rw [hz]
        exact sndblk_zero_reply { s with input := drv :: trk :: sec :: resp2 :: rest }
          drv trk sec resp2 rest rfl hready hbloc (by rw [mt, ms]; exact Or.inl h)
      · intro f b _ hb _
        rw [h] at hb
        omega
    · have hopt : s.fd = none ∨ ∃ f, s.fd = some f := by
        cases s.fd with
        | none => exact Or.inl rfl
        | some f => exact Or.inr ⟨f, rfl⟩
      rcases hopt with hfd | ⟨f, hfd⟩
      · refine ⟨List.replicate 256 0, s.fd, List.length_replicate _ _, ?_, ?_, fun _ => rfl⟩
        · intro resp2
          rw [hz]
          exact sndblk_zero_reply { s with input := drv :: trk :: sec :: resp2 :: rest }
            drv trk sec resp2 rest rfl hready hbloc (Or.inr hfd)
        · intro f b hf _ _
          rw [hfd] at hf
          exact absurd hf (by simp)
      · by_cases hlen : 256 * blk + 256 ≤ f.content.length
        · refine ⟨(f.content.drop (256 * blk)).take 256,
            some { f with offset := 256 * blk + 256 }, ?_, ?_, ?_, ?_⟩
          · rw [List.length_take, List.length_drop]; omega
          · intro resp2
            exact sndblk_sector { s with input := drv :: trk :: sec :: resp2 :: rest }
              drv trk sec resp2 blk rest f rfl hready hbloc (by rw [mt, ms]; exact hblk) hfd hlen
              (fun b hb => hfile f hfd b (List.mem_of_mem_drop (List.mem_of_mem_take hb)))
          · intro f2 b2 hf2 hb2 _
            have e1 : f2 = f := by rw [hfd] at hf2; exact (Option.some.inj hf2).symm
            have e2 : b2 = blk := by rw [hblk] at hb2; omega
            rw [e1, e2]
          · rintro (h | h | ⟨f2, b2, hf2, hb2, hl2⟩)
            · rw [hblk] at h; omega
            · rw [hfd] at h; exact absurd h (by simp)
            · have e1 : f2 = f := by rw [hfd] at hf2; exact (Option.some.inj hf2).symm
              have e2 : b2 = blk := by rw [hblk] at hb2; omega
              rw [e1, e2] at hl2
              omega
        · refine ⟨List.replicate 256 0,
            some { f with offset := 256 * blk + (f.content.length - 256 * blk) },
            List.length_replicate _ _, ?_, ?_, fun _ => rfl⟩
          · intro resp2
            rw [hz]
            exact sndblk_short_read { s with input := drv :: trk :: sec :: resp2 :: rest }
              drv trk sec resp2 blk rest f rfl hready hbloc (by rw [mt, ms]; exact hblk) hfd
              (by omega)
          · intro f2 b2 hf2 hb2 hl2
            have e1 : f2 = f := by rw [hfd] at hf2; exact (Option.some.inj hf2).symm
            have e2 : b2 = blk := by rw [hblk] at hb2; omega
            rw [e1, e2] at hl2
            omega
  obtain ⟨payload, fd2, hpl, hall, hgood, hbad⟩ := key
  have hs : { s with input := drv :: trk :: sec :: resp :: rest } = s := by
    rw [← hin]
  have hres := hall resp
  rw [hs] at hres
  refine ⟨?_, ?_, ?_, ?_, ?_⟩
  · intro f blk hfd hblk hlen
    rw [hres, ← hgood f blk hfd hblk hlen]
  · intro h
    rw [hres, hbad h, hz]
  · rw [hres]
    simp only [List.length_append, List.length_cons, List.length_nil, hpl]
  · rw [hres]
  · intro resp2
    rw [hres, hall resp2]

/-- Claim C6, write-then-read round trip: when the receive handler reports
success for a request carrying the 256-byte payload `payload` for the address
(`trk`, `sec`), the dispatcher answers ACK, and a following send request for
the same address writes exactly those 256 bytes followed by the high and the
low byte of their checksum.  (Success implies that a disk is mounted, that the
descriptor is open for writing, that `ts2blk` accepts the address and that the
transmitted checksum is the right one.) -/
theorem write_then_read (s : Server) (drv trk sec msb lsb drv2 resp : Nat)
    (payload rest rest2 : List Nat)
    (hin : s.input = drv :: trk :: sec :: (payload ++ msb :: lsb :: rest))
    (hlen : payload.length = 256) (hb : ∀ b ∈ payload, b < 256)
    (hbloc : s.bloc.length = 256)
    (hok : (rcvblk s).1 ≠ 0) :
    (mainReceive s).output = s.output ++ [ACK] ∧
    (sndblk { mainReceive s with input := drv2 :: trk :: sec :: resp :: rest2 }).output =
      (mainReceive s).output ++ payload ++
        [checksum payload / 256, checksum payload % 256] := by
  obtain ⟨f, blk, hfd, hw, hr, hblk, hck, heq⟩ :=
    rcvblk_success s drv trk sec msb lsb payload rest hin hlen hb hbloc hok
  obtain ⟨hsec, hfit⟩ := written_sector f.content payload blk hlen
  have hm : mainReceive s =
      { s with
        input := rest, bloc := payload, nwrites := s.nwrites + 1,
        output := s.output ++ [ACK],
        fd := some
          { content :=
              (f.content ++ List.replicate (256 * blk - f.content.length) 0).take (256 * blk) ++
                payload ++
                (f.content ++ List.replicate (256 * blk - f.content.length) 0).drop
                  (256 * blk + 256),
            offset := 256 * blk + 256,
            writable := true } } := by
    unfold mainReceive
    rw [heq]
    simp only [one_ne_zero, ne_eq, not_false_eq_true, if_true, fputc, toU8_natCast, ACK]
  rw [hm]
  refine ⟨rfl, ?_⟩
  have hsnd := sndblk_sector
    { s with
        input := drv2 :: trk :: sec :: resp :: rest2, bloc := payload,
        nwrites := s.nwrites + 1, output := s.output ++ [ACK],
        fd := some
          { content :=
              (f.content ++ List.replicate (256 * blk - f.content.length) 0).take (256 * blk) ++
                payload ++
                (f.content ++ List.replicate (256 * blk - f.content.length) 0).drop
                  (256 * blk + 256),
            offset := 256 * blk + 256,
            writable := true } }
    drv2 trk sec resp blk rest2 _ rfl hr hlen hblk rfl hfit
    (by rw [hsec]; exact hb)
  rw [hsnd]
  simp only [hsec]

end Handlers


/-! ## Theorems: the claims at the sample session -/

/-- The receive handler accepts the sample request with the checksum bytes
7, 0. -/
theorem demoReceive_accepted : (rcvblk (demoReceive 7 0)).1 ≠ 0 := by
  set_option maxRecDepth 100000 in decide

/-- Claim C6 at the sample session: `demoPayload` is written to track 1,
sector 1 and read back. -/
theorem write_then_read_witness :
    (demoPayload.length = 256 ∧ (rcvblk (demoReceive 7 0)).1 ≠ 0) ∧
    ((mainReceive (demoReceive 7 0)).output = [] ++ [ACK] ∧
      (sndblk { mainReceive (demoReceive 7 0) with input := 0 :: 1 :: 1 :: 6 :: [] }).output =
        (mainReceive (demoReceive 7 0)).output ++ demoPayload ++
          [checksum demoPayload / 256, checksum demoPayload % 256]) :=
  ⟨⟨List.length_replicate _ _, demoReceive_accepted⟩,
    write_then_read (demoReceive 7 0) 0 1 1 7 0 0 6 demoPayload [83] [] rfl
      (List.length_replicate _ _)
      (fun b hb => by rw [demoPayload, List.mem_replicate] at hb; omega)
      (List.length_replicate _ _) demoReceive_accepted⟩

/-- The sample image holds bytes only. -/
theorem demoImage_bytes : ∀ b ∈ demoImage.content, b < 256 := by
  intro b hb
  simp only [demoImage, List.mem_append, List.mem_replicate] at hb
  omega

/-- Claim C9 at the sample session: the send request for track 1, sector 1 is
answered with block 10 of the image and its checksum. -/
theorem sndblk_mounted_witness :
    ((demoServer [0, 1, 1, 6]).ready ≠ 0 ∧ (demoServer [0, 1, 1, 6]).bloc.length = 256 ∧
      ts2blk 2 10 10 1 1 = (10 : Nat) ∧ 256 * 10 + 256 ≤ demoImage.content.length) ∧
    ((sndblk (demoServer [0, 1, 1, 6])).output =
        [] ++ (demoImage.content.drop (256 * 10)).take 256 ++
          [checksum ((demoImage.content.drop (256 * 10)).take 256) / 256,
           checksum ((demoImage.content.drop (256 * 10)).take 256) % 256] ∧
      (sndblk (demoServer [0, 1, 1, 6])).output.length = 0 + 258 ∧
      (sndblk (demoServer [0, 1, 1, 6])).input = []) := by
  have hfit : 256 * 10 + 256 ≤ demoImage.content.length := by
    simp only [demoImage, List.length_append, List.length_replicate]
    decide
  have h := sndblk_mounted (demoServer [0, 1, 1, 6]) 0 1 1 6 [] rfl (by decide) (by decide)
    (by decide) (List.length_replicate _ _)
    (fun f hf => by
      have e : f = demoImage := (Option.some.inj hf).symm
      rw [e]
      exact demoImage_bytes)
  exact ⟨⟨by decide, List.length_replicate _ _, by decide, hfit⟩,
    h.1 demoImage 10 rfl (by decide) hfit, h.2.2.1, h.2.2.2.1⟩

/-! ## Theorems: the output of `getname` -/

/-- The loop of `getname` fails when, with the separator requested, it comes
to a space: a space at an index `p` that the loop reaches from `j`, that is
`p ≤ 7`, or `j ≥ 8`, or byte 8 is not NUL. -/
theorem getnameLoop_space (pos : List Nat) (dot : Int) (hdot : dot ≠ 0) (p : Nat)
    (hp : pos.getD p 0 = 32) :
    ∀ (fuel j k : Nat) (name : List Nat), j ≤ p → p < j + fuel →
      (p ≤ 7 ∨ 8 ≤ j ∨ pos.getD 8 0 ≠ 0) →
      (getnameLoop pos dot fuel j k name).1 = -1 := by
  intro fuel
  induction fuel with
  | zero => intro j k name h1 h2; omega
  | succ n ih =>
    intro j k name h1 h2 h3
    rw [getnameLoop]
    by_cases hbad : badNameByte (pos.getD j 0) = true
    · simp only [hbad, if_true]
    · by_cases hsp : pos.getD j 0 = 32
      · simp only [hsp, hdot, ne_eq, not_false_eq_true, and_self, if_true, ite_self]
      · have hjp : j < p := by
          rcases Nat.lt_or_ge j p with h | h
          · exact h
          · have : j = p := by omega
            rw [this] at hsp
            exact absurd hp hsp
        simp only [hbad, hsp, and_false, if_false, Bool.false_eq_true]
        by_cases h7 : j = 7
        · have h8 : pos.getD 8 0 ≠ 0 := by
            rcases h3 with h | h | h
            · omega
            · omega
            · exact h
          simp only [h7, h8, if_true, if_false]
          exact ih 8 _ _ (by omega) (by omega) (Or.inr (Or.inl (le_refl 8)))
        · simp only [h7, if_false]
          exact ih (j + 1) _ _ (by omega) (by omega) (by omega)

/-- Claim C11 as the spec states it fails: with the separator requested, the
field "HELLO", four NUL, a space, NUL has a space at position 9 and is not
rejected, the loop being left at index 7 because byte 8 is NUL. -/
theorem getname_space_after_nul_extension :
    ([72, 69, 76, 76, 79, 0, 0, 0, 0, 32, 0] : List Nat).getD 9 0 = 32 ∧
    getname [72, 69, 76, 76, 79, 0, 0, 0, 0, 32, 0] 1 = (5, [72, 69, 76, 76, 79]) := by
  decide

/-- Claim C11, amended: when the separator is requested (`dot ≠ 0`) and a
space stands at one of the positions 0 to 8, or at position 9 or 10 while
byte 8 is not NUL, `getname` fails with -1. -/
theorem getname_space_rejected (pos : List Nat) (dot : Int) (p : Nat)
    (hdot : dot ≠ 0) (hp : p < 11) (hsp : pos.getD p 0 = 32)
    (hreach : p ≤ 8 ∨ pos.getD 8 0 ≠ 0) :
    (getname pos dot).1 = -1 := by
  unfold getname
  apply getnameLoop_space pos dot hdot p hsp 11 0 0 [] (Nat.zero_le _) (by omega)
  rcases hreach with h | h
  · rcases Nat.lt_or_ge p 8 with h1 | h1
    · exact Or.inl (by omega)
    · have : p = 8 := by omega
      right; right
      rw [← this, hsp]
      decide
  · exact Or.inr (Or.inr h)

/-- Claim C11, amended, at the field "HELLO   TXT" with the separator
requested: the space at position 5 makes `getname` fail. -/
theorem getname_space_rejected_witness :
    ((1 : Int) ≠ 0 ∧ ([72, 69, 76, 76, 79, 32, 32, 32, 84, 88, 84] : List Nat).getD 5 0 = 32) ∧
    (getname [72, 69, 76, 76, 79, 32, 32, 32, 84, 88, 84] 1).1 = -1 :=
  ⟨⟨by decide, by decide⟩,
    getname_space_rejected [72, 69, 76, 76, 79, 32, 32, 32, 84, 88, 84] 1 5
      (by decide) (by decide) (by decide) (Or.inl (by decide))⟩

/-- The rest of the output before position 8. -/
theorem nameRest_low (pos : List Nat) (dot : Int) (j : Nat) (hj : j < 8) :
    nameRest pos dot j =
      ((pos.drop j).take (8 - j)).filter (fun c => c ≠ 0) ++ nameExt pos dot := by
  unfold nameRest
  rw [if_pos hj]

/-- The rest of the output from position 8 on. -/
theorem nameRest_high (pos : List Nat) (dot : Int) (j : Nat) (hj : 8 ≤ j) :
    nameRest pos dot j = (pos.drop j).filter (fun c => c ≠ 0) := by
  unfold nameRest
  rw [if_neg (show ¬ j < 8 by omega)]

/-- One step of the rest of the output, before position 7. -/
theorem nameRest_step_low (pos : List Nat) (dot : Int) (j : Nat) (hlen : pos.length = 11)
    (hj : j < 7) :
    nameRest pos dot j =
      (if pos.getD j 0 ≠ 0 then [pos.getD j 0] else []) ++ nameRest pos dot (j + 1) := by
  have hjl : j < pos.length := by omega
  have h8 : 8 - j = (8 - (j + 1)) + 1 := by omega
  rw [nameRest_low pos dot j (by omega), nameRest_low pos dot (j + 1) (by omega),
    List.drop_eq_getElem_cons hjl, h8, List.take_succ_cons, List.filter_cons,
    List.getD_eq_getElem _ _ hjl]
  by_cases hz : pos[j] = 0
  · simp [hz]
  · simp [hz]

/-- The rest of the output at position 7. -/
theorem nameRest_seven (pos : List Nat) (dot : Int) (hlen : pos.length = 11) :
    nameRest pos dot 7 =
      (if pos.getD 7 0 ≠ 0 then [pos.getD 7 0] else []) ++ nameExt pos dot := by
  have hjl : 7 < pos.length := by omega
  rw [nameRest_low pos dot 7 (by omega), List.drop_eq_getElem_cons hjl,
    show 8 - 7 = 0 + 1 from rfl, List.take_succ_cons, List.take_zero, List.filter_cons,
    List.getD_eq_getElem _ _ hjl]
  by_cases hz : pos[7] = 0
  · simp [hz]
  · simp [hz]

/-- One step of the rest of the output, from position 8 on. -/
theorem nameRest_step_high (pos : List Nat) (dot : Int) (j : Nat) (hlen : pos.length = 11)
    (hj : 8 ≤ j) (hj2 : j < 11) :
    nameRest pos dot j =
      (if pos.getD j 0 ≠ 0 then [pos.getD j 0] else []) ++ nameRest pos dot (j + 1) := by
  have hjl : j < pos.length := by omega
  rw [nameRest_high pos dot j hj, nameRest_high pos dot (j + 1) (by omega),
    List.drop_eq_getElem_cons hjl, List.filter_cons, List.getD_eq_getElem _ _ hjl]
  by_cases hz : pos[j] = 0
  · simp [hz]
  · simp [hz]

/-- Nothing is left to store after position 10. -/
theorem nameRest_end (pos : List Nat) (dot : Int) (hlen : pos.length = 11) :
    nameRest pos dot 11 = [] := by
  rw [nameRest_high pos dot 11 (by omega), List.drop_eq_nil_of_le (by omega)]
  rfl

/-- When the loop of `getname` does not fail, it stores the rest of the output
as the spec describes it and returns its length added to `k`. -/
theorem getnameLoop_accepted (pos : List Nat) (dot : Int) (hlen : pos.length = 11) :
    ∀ (fuel j k : Nat) (name : List Nat), j + fuel = 11 →
      (getnameLoop pos dot fuel j k name).1 ≠ -1 →
      getnameLoop pos dot fuel j k name =
        (((k + (nameRest pos dot j).length : Nat) : Int), name ++ nameRest pos dot j) := by
  intro fuel
  induction fuel with
  | zero =>
    intro j k name hj _
    have : j = 11 := by omega
    rw [this, nameRest_end pos dot hlen]
    simp [getnameLoop]
  | succ n ih =>
    intro j k name hj hacc
    rw [getnameLoop] at hacc ⊢
    dsimp only at hacc ⊢
    by_cases hbad : badNameByte (pos.getD j 0) = true
    · rw [if_pos hbad] at hacc
      exact absurd rfl hacc
    · rw [if_neg hbad] at hacc ⊢
      by_cases hsp : dot ≠ 0 ∧ pos.getD j 0 = 32
      · rw [if_pos hsp] at hacc
        exact absurd rfl hacc
      · rw [if_neg hsp] at hacc ⊢
        by_cases h7 : j = 7
        · subst h7
          rw [if_pos rfl] at hacc ⊢
          rw [nameRest_seven pos dot hlen]
          by_cases h8 : pos.getD 8 0 = 0
          · rw [if_pos h8]
            have hext : nameExt pos dot = [] := by
              unfold nameExt
              rw [if_pos h8]
            rw [hext]
            generalize pos.getD 7 0 = c
            by_cases hz : c = 0
            · simp [hz]
            · simp [hz]
          · rw [if_neg h8] at hacc ⊢
            rw [ih 8 _ _ (by omega) hacc]
            have hext : nameExt pos dot =
                (if dot ≠ 0 then [46] else []) ++ nameRest pos dot 8 := by
              rw [nameRest_high pos dot 8 (le_refl 8)]
              unfold nameExt
              rw [if_neg h8]
            rw [hext]
            generalize pos.getD 7 0 = c
            generalize nameRest pos dot 8 = r
            by_cases hz : c = 0 <;> by_cases hd : dot = 0
            · simp [hz, hd]
            · simp [hz, hd]; omega
            · simp [hz, hd]; omega
            · simp [hz, hd]; omega
        · rw [if_neg h7] at hacc ⊢
          rw [ih (j + 1) _ _ (by omega) hacc]
          have hstep : nameRest pos dot j =
              (if pos.getD j 0 ≠ 0 then [pos.getD j 0] else []) ++ nameRest pos dot (j + 1) := by
            rcases Nat.lt_or_ge j 7 with h | h
            · exact nameRest_step_low pos dot j hlen h
            · exact nameRest_step_high pos dot j hlen (by omega) (by omega)
          rw [hstep]
          generalize pos.getD j 0 = c
          generalize nameRest pos dot (j + 1) = r
          by_cases hz : c = 0
          · simp [hz]
          · simp [hz]; omega

/-- Claim C12: for every 11-byte field that `getname` accepts, the output is
the non-NUL bytes of positions 0 to 7 in order; nothing more when byte 8 is
NUL; otherwise the separator '.' when it is requested and then the non-NUL
bytes of positions 8 to 10; the returned value is the length of that output.
The field "HELLO", three NUL, "TXT" with the separator gives "HELLO.TXT" and
9. -/
theorem getname_output (pos : List Nat) (dot : Int) (hlen : pos.length = 11)
    (hacc : (getname pos dot).1 ≠ -1) :
    (getname pos dot).2 =
      (pos.take 8).filter (fun c => c ≠ 0) ++
        (if pos.getD 8 0 = 0 then []
         else (if dot ≠ 0 then [46] else []) ++ (pos.drop 8).filter (fun c => c ≠ 0)) ∧
    (getname pos dot).1 = (((getname pos dot).2.length : Nat) : Int) ∧
    getname [72, 69, 76, 76, 79, 0, 0, 0, 84, 88, 84] 1 =
      (9, [72, 69, 76, 76, 79, 46, 84, 88, 84]) := by
  have h := getnameLoop_accepted pos dot hlen 11 0 0 [] rfl hacc
  have h0 : nameRest pos dot 0 =
      (pos.take 8).filter (fun c => c ≠ 0) ++
        (if pos.getD 8 0 = 0 then []
         else (if dot ≠ 0 then [46] else []) ++ (pos.drop 8).filter (fun c => c ≠ 0)) := by
    rw [nameRest_low pos dot 0 (by omega)]
    rfl
  unfold getname
  rw [h, ← h0]
  refine ⟨by simp, by simp, by decide⟩

/-- Claim C12 at the field "HELLO", three NUL, "TXT" without the separator. -/
theorem getname_output_witness :
    (([72, 69, 76, 76, 79, 0, 0, 0, 84, 88, 84] : List Nat).length = 11 ∧
      (getname [72, 69, 76, 76, 79, 0, 0, 0, 84, 88, 84] 0).1 ≠ -1) ∧
    ((getname [72, 69, 76, 76, 79, 0, 0, 0, 84, 88, 84] 0).2 =
        [72, 69, 76, 76, 79] ++ ([] ++ [84, 88, 84]) ∧
      (getname [72, 69, 76, 76, 79, 0, 0, 0, 84, 88, 84] 0).1 =
        (((getname [72, 69, 76, 76, 79, 0, 0, 0, 84, 88, 84] 0).2.length : Nat) : Int) ∧
      getname [72, 69, 76, 76, 79, 0, 0, 0, 84, 88, 84] 1 =
        (9, [72, 69, 76, 76, 79, 46, 84, 88, 84])) :=
  ⟨⟨by decide, by decide⟩,
    getname_output [72, 69, 76, 76, 79, 0, 0, 0, 84, 88, 84] 0 (by decide) (by decide)⟩

/-! ## Theorems: loading a disk image -/

/-- The result of the loop of `getname` is -1 or a length. -/
theorem getnameLoop_sign (pos : List Nat) (dot : Int) :
    ∀ (fuel j k : Nat) (name : List Nat),
      (getnameLoop pos dot fuel j k name).1 = -1 ∨ 0 ≤ (getnameLoop pos dot fuel j k name).1 := by
  intro fuel
  induction fuel with
  | zero =>
    intro j k name
    right
    simp [getnameLoop]
  | succ n ih =>
    intro j k name
    rw [getnameLoop]
    dsimp only
    by_cases hbad : badNameByte (pos.getD j 0) = true
    · rw [if_pos hbad]
      exact Or.inl rfl
    · rw [if_neg hbad]
      by_cases hsp : dot ≠ 0 ∧ pos.getD j 0 = 32
      · rw [if_pos hsp]
        exact Or.inl rfl
      · rw [if_neg hsp]
        by_cases h7 : j = 7
        · rw [if_pos h7]
          by_cases h8 : pos.getD 8 0 = 0
          · rw [if_pos h8]
            right
            exact Int.natCast_nonneg _
          · rw [if_neg h8]
            exact ih _ _ _
        · rw [if_neg h7]
          exact ih _ _ _

/-- The loop of `getname` looks at the first 11 bytes of the field only. -/
theorem getnameLoop_congr (pos pos2 : List Nat) (dot : Int)
    (h : ∀ j, j < 11 → pos.getD j 0 = pos2.getD j 0) :
    ∀ (fuel j k : Nat) (name : List Nat), j + fuel ≤ 11 →
      getnameLoop pos dot fuel j k name = getnameLoop pos2 dot fuel j k name := by
  intro fuel
  induction fuel with
  | zero =>
    intro j k name _
    simp [getnameLoop]
  | succ n ih =>
    intro j k name hj
    rw [getnameLoop, getnameLoop]
    dsimp only
    rw [h j (by omega), h 8 (by omega), ih (j + 1) _ _ (by omega), ih (j + 1) _ _ (by omega)]

/-- The field read by `getname` may be cut after its 11 bytes. -/
theorem getname_congr (pos pos2 : List Nat) (dot : Int)
    (h : ∀ j, j < 11 → pos.getD j 0 = pos2.getD j 0) :
    getname pos dot = getname pos2 dot :=
  getnameLoop_congr pos pos2 dot h 11 0 0 [] (le_refl 11)

/-- A file size below 2 GiB fits the `int`. -/
theorem toInt32_small (n : Nat) (h : n < 2147483648) : toInt32 (n : Int) = (n : Int) := by
  unfold toInt32
  omega

/-- The test of line 278 fails exactly on the sizes that are a multiple of
256. -/
theorem size_check (n : Nat) :
    Int.tdiv (toInt32 (n : Int)) 256 * 256 = toInt32 (n : Int) ↔ n % 256 = 0 := by
  constructor
  · intro h
    have h2 : toInt32 (n : Int) % 256 = 0 := by omega
    unfold toInt32 at h2
    omega
  · intro h
    apply Int.tdiv_mul_cancel
    unfold toInt32
    omega

/-- Reading in a list after dropping its first elements. -/
theorem getD_drop (l : List Nat) (n j : Nat) : (l.drop n).getD j 0 = l.getD (n + j) 0 := by
  simp [List.getD_eq_getElem?_getD, List.getElem?_drop]

/-- Reading in the first elements of a list. -/
theorem getD_take (l : List Nat) (k j : Nat) (hj : j < k) :
    (l.take k).getD j 0 = l.getD j 0 := by
  simp [List.getD_eq_getElem?_getD, List.getElem?_take, hj]

/-- Reading an index below 256 in the sector read from position 512. -/
theorem sir_getD (c junk : List Nat) (i : Nat) (hi : i < 256) (hc : 768 ≤ c.length) :
    ((c.drop 512).take 256 ++ junk).getD i 0 = c.getD (512 + i) 0 := by
  have hl : ((c.drop 512).take 256).length = 256 := by
    rw [List.length_take, List.length_drop]; omega
  rw [List.getD_append _ _ _ _ (by omega), getD_take _ _ _ hi, getD_drop]

/-- The volume label in the sector read from position 512. -/
theorem sir_label (c junk : List Nat) (hc : 768 ≤ c.length) :
    getname (((c.drop 512).take 256 ++ junk).drop 0x10) 0 =
      getname ((c.drop (512 + 0x10)).take 11) 0 := by
  apply getname_congr
  intro j hj
  rw [getD_drop, sir_getD c junk (0x10 + j) (by omega) hc, getD_take _ _ _ hj, getD_drop]
  congr 1
  omega

/-- The function `load_dsk` up to the reading of the SIR, on a file that opens
and holds three sectors at least. -/
theorem load_dsk_read (h : HostFile) (s : Server) (hopen : h.opens = true)
    (hc : 768 ≤ h.content.length) :
    load_dsk (some h) s =
      loadCheck (toInt32 (h.content.length : Int))
        { s with
          fd := some { content := h.content, offset := 768, writable := h.userWrite },
          readonly := if h.userWrite then 0 else 1,
          bloc := (h.content.drop 512).take 256 ++ s.bloc.drop 256 } := by
  have hmin : min 256 (h.content.length - 512) = 256 := by omega
  have hlt : ¬ (h.content.length - 512 < 256) := by omega
  unfold load_dsk
  simp only [hopen, lseek, read, SECSIZE]
  simp [hmin, hlt]

/-- The function `load_dsk` fails on a file that cannot be opened or that is
shorter than three sectors. -/
theorem load_dsk_unreadable (h : HostFile) (s : Server)
    (hbad : h.opens = false ∨ h.content.length < 768) :
    (load_dsk (some h) s).1 = -1 := by
  unfold load_dsk
  by_cases hopen : h.opens = false
  · simp only [hopen, if_true]
  · have hlen : h.content.length < 768 := by
      rcases hbad with hb | hb
      · exact absurd hb hopen
      · exact hb
    have hlt : h.content.length - 512 < 256 := by omega
    simp only [hopen, lseek, read, SECSIZE]
    simp [hlt]

/-- What `loadCheck` has verified when it succeeds, and what is left to
do. -/
theorem loadCheck_success (size : Int) (s : Server) (hok : (loadCheck size s).1 = 0) :
    Int.tdiv size 256 * 256 = size ∧ (getname (s.bloc.drop 0x10) 0).1 ≠ -1 ∧
    s.bloc.getD 0x26 0 ≠ 0 ∧ s.bloc.getD 0x27 0 ≠ 0 ∧
    loadCheck size s =
      loadGeometry (Int.tdiv size 256)
        { s with nbtrk := s.bloc.getD 0x26 0, nbsec := s.bloc.getD 0x27 0 } := by
  unfold loadCheck at hok ⊢
  simp only [SECSIZE, Nat.cast_ofNat] at hok ⊢
  by_cases h1 : Int.tdiv size 256 * 256 = size
  · rw [if_neg (not_not.mpr h1)] at hok ⊢
    by_cases h2 : (getname (s.bloc.drop 0x10) 0).1 < 0 ∨ s.bloc.getD 0x26 0 = 0 ∨
        s.bloc.getD 0x27 0 = 0
    · rw [if_pos h2] at hok
      simp at hok
    · rw [if_neg h2] at hok ⊢
      refine ⟨h1, ?_, ?_, ?_, rfl⟩
      · intro hneg
        exact h2 (Or.inl (by rw [hneg]; decide))
      · intro hz
        exact h2 (Or.inr (Or.inl hz))
      · intro hz
        exact h2 (Or.inr (Or.inr hz))
  · rw [if_pos h1] at hok
    simp at hok

/-- The checks of `loadCheck` that make it fail. -/
theorem loadCheck_fail (size : Int) (s : Server)
    (hbad : Int.tdiv size 256 * 256 ≠ size ∨ (getname (s.bloc.drop 0x10) 0).1 = -1 ∨
      s.bloc.getD 0x26 0 = 0 ∨ s.bloc.getD 0x27 0 = 0) :
    (loadCheck size s).1 = -1 := by
  unfold loadCheck
  simp only [SECSIZE, Nat.cast_ofNat]
  by_cases h1 : Int.tdiv size 256 * 256 = size
  · rw [if_neg (not_not.mpr h1)]
    have h2 : (getname (s.bloc.drop 0x10) 0).1 < 0 ∨ s.bloc.getD 0x26 0 = 0 ∨
        s.bloc.getD 0x27 0 = 0 := by
      rcases hbad with h | h | h | h
      · exact absurd h1 h
      · exact Or.inl (by rw [h]; decide)
      · exact Or.inr (Or.inl h)
      · exact Or.inr (Or.inr h)
    rw [if_pos h2]
  · rw [if_pos h1]

/-- The guess of the geometry does not change `nbsec`. -/
theorem loadGeometry_nbsec (n : Int) (s : Server) : (loadGeometry n s).2.nbsec = s.nbsec := by
  unfold loadGeometry
  dsimp only
  split_ifs <;> rfl

/-- When the guess of the geometry succeeds, `track0l` is positive unless
`nbsec` is 1. -/
theorem loadGeometry_track0l_pos (n : Int) (s : Server) (hsec : s.nbsec ≠ 0)
    (hok : (loadGeometry n s).1 = 0) (h1 : s.nbsec ≠ 1) :
    0 < (loadGeometry n s).2.track0l := by
  unfold loadGeometry at hok ⊢
  dsimp only at hok ⊢
  split_ifs at hok ⊢ with c1 c2 c3 c4
  · show 0 < s.nbsec
    omega
  · show 0 < toU8 (n - (s.nbtrk : Int) * (s.nbsec : Int))
    omega
  · show 0 < s.nbsec
    omega
  · show 0 < toU8 (n - (s.nbtrk : Int) * (s.nbsec : Int))
    omega
  · simp at hok

/-- The single-density rule: a file of `(nbtrk + 1) * nbsec` sectors. -/
theorem loadGeometry_single (n : Int) (s : Server)
    (h : ((s.nbtrk : Int) + 1) * (s.nbsec : Int) = n) :
    loadGeometry n s = (0, { s with track0l := s.nbsec, ready := 1 }) := by
  unfold loadGeometry
  rw [if_pos h]

/-- When the number of sectors exceeds `nbtrk * nbsec` by `nbsec` at most and
the guess of the geometry succeeds, the geometry accounts for all the sectors
and `nbtrk` is unchanged. -/
theorem loadGeometry_accounts (n : Int) (s : Server) (hsec : s.nbsec < 256)
    (hd0 : (s.nbtrk : Int) * (s.nbsec : Int) ≤ n)
    (hd1 : n ≤ (s.nbtrk : Int) * (s.nbsec : Int) + (s.nbsec : Int))
    (hok : (loadGeometry n s).1 = 0) :
    (loadGeometry n s).2.nbtrk = s.nbtrk ∧
    (((loadGeometry n s).2.track0l : Int) + (s.nbtrk : Int) * (s.nbsec : Int) = n) := by
  obtain ⟨m, hm⟩ : ∃ m : Nat, n - (s.nbtrk : Int) * (s.nbsec : Int) = (m : Int) :=
    ⟨(n - (s.nbtrk : Int) * (s.nbsec : Int)).toNat, by omega⟩
  have hm2 : m ≤ s.nbsec := by omega
  have hu : toU8 (n - (s.nbtrk : Int) * (s.nbsec : Int)) = m := by
    rw [hm, toU8_byte m (by omega)]
  unfold loadGeometry at hok ⊢
  dsimp only at hok ⊢
  rw [hu] at hok ⊢
  split_ifs at hok ⊢ with c1 c2 c3 c4
  · refine ⟨rfl, ?_⟩
    show (s.nbsec : Int) + (s.nbtrk : Int) * (s.nbsec : Int) = n
    rw [← c1]; ring
  · refine ⟨rfl, ?_⟩
    show (m : Int) + (s.nbtrk : Int) * (s.nbsec : Int) = n
    omega
  · omega
  · refine ⟨rfl, ?_⟩
    show (m : Int) + (s.nbtrk : Int) * (s.nbsec : Int) = n
    omega
  · simp at hok

/-- On a difference `observed - nbtrk * nbsec` that fits the `uint8_t` and
with `nbtrk` below 255, the guess of the geometry follows the five rules of
the spec. -/
theorem loadGeometry_eq_spec (n : Int) (s : Server) (htrk : s.nbtrk < 255)
    (hd0 : (s.nbtrk : Int) * (s.nbsec : Int) ≤ n)
    (hd1 : n < (s.nbtrk : Int) * (s.nbsec : Int) + 256) :
    (∀ t l, specGeometry s.nbtrk s.nbsec n = some (t, l) →
      loadGeometry n s = (0, { s with nbtrk := t, track0l := l, ready := 1 })) ∧
    (specGeometry s.nbtrk s.nbsec n = none → (loadGeometry n s).1 = -1) := by
  obtain ⟨m, hm⟩ : ∃ m : Nat, n - (s.nbtrk : Int) * (s.nbsec : Int) = (m : Int) :=
    ⟨(n - (s.nbtrk : Int) * (s.nbsec : Int)).toNat, by omega⟩
  have hu : toU8 (n - (s.nbtrk : Int) * (s.nbsec : Int)) = m := by
    rw [hm, toU8_byte m (by omega)]
  have hn : toU8 ((s.nbtrk : Int) + 1) = s.nbtrk + 1 := by
    have e : ((s.nbtrk : Int) + 1) = ((s.nbtrk + 1 : Nat) : Int) := by push_cast; rfl
    rw [e, toU8_byte _ (by omega)]
  unfold specGeometry loadGeometry
  dsimp only
  rw [hu, hm, hn]
  constructor
  · intro t l hs
    split_ifs at hs ⊢ with c1 c2 c3 c4 c5 c6 c7 c8 c9 c10 <;>
      first
      | omega
      | (simp only [Option.some.injEq, Prod.mk.injEq] at hs
         obtain ⟨h1, h2⟩ := hs
         subst h1 h2
         simp)
  · intro hs
    split_ifs at hs ⊢ with c1 c2 c3 c4 c5 c6 c7 c8 c9 c10 <;> omega

/-- Claim C13, evaluated on the code: an image of 3 sectors whose SIR carries
`nbtrk = 1` and `nbsec = 10` gives the integer `track0l = 3 - 10 = -7`, for
which the five rules of the spec fail (rule 5, image too small); `load_dsk`
keeps the difference in a `uint8_t`, where it is 249, takes the anomalous
branch and succeeds with `nbtrk = 2` and `track0l = 10`. -/
theorem load_dsk_truncated_image_accepted :
    (demoDisk 1 10 0).content.length = 3 * 256 ∧
    (demoDisk 1 10 0).content.getD (512 + 0x26) 0 = 1 ∧
    (demoDisk 1 10 0).content.getD (512 + 0x27) 0 = 10 ∧
    specGeometry 1 10 3 = none ∧
    (load_dsk (some (demoDisk 1 10 0)) coldServer).1 = 0 ∧
    (load_dsk (some (demoDisk 1 10 0)) coldServer).2.nbtrk = 2 ∧
    (load_dsk (some (demoDisk 1 10 0)) coldServer).2.track0l = 10 ∧
    (load_dsk (some (demoDisk 1 10 0)) coldServer).2.ready = 1 := by
  set_option maxRecDepth 100000 in decide

/-- Claim C14: for an image of at least 3 sectors that can be opened, whose
SIR has a volume label that `getname` accepts and nonzero `nbtrk` and `nbsec`,
and that holds exactly `(nbtrk + 1) * nbsec` sectors, `load_dsk` succeeds, sets
`track0l = nbsec`, takes `nbtrk` and `nbsec` from the SIR and sets `ready`. -/
theorem load_dsk_single_density (h : HostFile) (s : Server)
    (hopen : h.opens = true) (hb : ∀ b ∈ h.content, b < 256)
    (h3 : 3 * 256 ≤ h.content.length)
    (hlabel : (getname ((h.content.drop (512 + 0x10)).take 11) 0).1 ≠ -1)
    (htrk : h.content.getD (512 + 0x26) 0 ≠ 0)
    (hsec : h.content.getD (512 + 0x27) 0 ≠ 0)
    (hsize : h.content.length =
      256 * ((h.content.getD (512 + 0x26) 0 + 1) * h.content.getD (512 + 0x27) 0)) :
    (load_dsk (some h) s).1 = 0 ∧
    (load_dsk (some h) s).2.track0l = h.content.getD (512 + 0x27) 0 ∧
    (load_dsk (some h) s).2.nbtrk = h.content.getD (512 + 0x26) 0 ∧
    (load_dsk (some h) s).2.nbsec = h.content.getD (512 + 0x27) 0 ∧
    (load_dsk (some h) s).2.ready = 1 := by
  have hc : 768 ≤ h.content.length := by omega
  have ha : h.content.getD (512 + 0x26) 0 < 256 := by
    rw [List.getD_eq_getElem _ _ (by omega)]
    exact hb _ (List.getElem_mem _)
  have hbs : h.content.getD (512 + 0x27) 0 < 256 := by
    rw [List.getD_eq_getElem _ _ (by omega)]
    exact hb _ (List.getElem_mem _)
  generalize hA : h.content.getD (512 + 0x26) 0 = a at *
  generalize hB : h.content.getD (512 + 0x27) 0 = b at *
  have hprod : (a + 1) * b ≤ 256 * 256 := Nat.mul_le_mul (by omega) (by omega)
  have hsmall : h.content.length < 2147483648 := by omega
  have hq : Int.tdiv ((h.content.length : Nat) : Int) 256 = (((a + 1) * b : Nat) : Int) := by
    rw [Int.tdiv_eq_ediv (by omega) (by omega), hsize]
    push_cast
    omega
  have hmult : Int.tdiv ((h.content.length : Nat) : Int) 256 * 256 =
      ((h.content.length : Nat) : Int) := by
    rw [hq, hsize]
    push_cast
    ring
  rw [load_dsk_read h s hopen hc, toInt32_small _ hsmall]
  unfold loadCheck
  simp only [SECSIZE, Nat.cast_ofNat]
  rw [if_neg (not_not.mpr hmult), sir_label _ _ hc, sir_getD _ _ 0x26 (by omega) hc,
    sir_getD _ _ 0x27 (by omega) hc, hA, hB]
  have hpass : ¬ ((getname ((h.content.drop (512 + 0x10)).take 11) 0).1 < 0 ∨ a = 0 ∨ b = 0) := by
    rintro (hn | hn | hn)
    · rcases getnameLoop_sign ((h.content.drop (512 + 0x10)).take 11) 0 11 0 0 [] with hs | hs
      · exact hlabel hs
      · have : (getname ((h.content.drop (512 + 0x10)).take 11) 0).1 =
            (getnameLoop ((h.content.drop (512 + 0x10)).take 11) 0 11 0 0 []).1 := rfl
        omega
    · exact htrk hn
    · exact hsec hn
  rw [if_neg hpass, hq, loadGeometry_single _ _ (by push_cast; ring)]
  exact ⟨rfl, rfl, rfl, rfl, rfl⟩

/-- What a successful `load_dsk` has found: a file that opens, of three
sectors at least, and a sector at position 512 that passes `loadCheck`. -/
theorem load_dsk_success (file : Option HostFile) (s : Server)
    (hok : (load_dsk file s).1 = 0) :
    ∃ h : HostFile, file = some h ∧ h.opens = true ∧ 768 ≤ h.content.length ∧
      load_dsk file s =
        loadCheck (toInt32 (h.content.length : Int))
          { s with
            fd := some { content := h.content, offset := 768, writable := h.userWrite },
            readonly := if h.userWrite then 0 else 1,
            bloc := (h.content.drop 512).take 256 ++ s.bloc.drop 256 } := by
  cases file with
  | none =>
    have : (load_dsk none s).1 = -1 := rfl
    omega
  | some h =>
    by_cases hopen : h.opens = true
    · by_cases hc : 768 ≤ h.content.length
      · exact ⟨h, rfl, hopen, hc, load_dsk_read h s hopen hc⟩
      · have := load_dsk_unreadable h s (Or.inr (by omega))
        omega
    · have hf : h.opens = false := by
        cases hh : h.opens with
        | false => rfl
        | true => exact absurd hh hopen
      have := load_dsk_unreadable h s (Or.inl hf)
      omega

/-- Claim C15 as the spec states it fails: an image of 5 sectors whose SIR
carries `nbtrk = 5` and `nbsec = 1` is loaded with `track0l = 0`, by the rule
`track0l == nbsec/2`. -/
theorem load_dsk_track0l_zero :
    (load_dsk (some (demoDisk 5 1 2)) coldServer).1 = 0 ∧
    (load_dsk (some (demoDisk 5 1 2)) coldServer).2.nbsec = 1 ∧
    ¬ (0 < (load_dsk (some (demoDisk 5 1 2)) coldServer).2.track0l) := by
  set_option maxRecDepth 100000 in decide

/-- Claim C15, amended: after every successful `load_dsk`, `nbsec > 0`, and
`track0l > 0` unless `nbsec = 1`. -/
theorem load_dsk_geometry_positive (file : Option HostFile) (s : Server)
    (hok : (load_dsk file s).1 = 0) :
    0 < (load_dsk file s).2.nbsec ∧
    ((load_dsk file s).2.nbsec ≠ 1 → 0 < (load_dsk file s).2.track0l) := by
  obtain ⟨h, _, _, _, heq⟩ := load_dsk_success file s hok
  rw [heq] at hok ⊢
  obtain ⟨_, _, _, hsec, hg⟩ := loadCheck_success _ _ hok
  rw [hg] at hok ⊢
  rw [loadGeometry_nbsec]
  refine ⟨Nat.pos_of_ne_zero hsec, fun h1 => ?_⟩
  exact loadGeometry_track0l_pos _ _ hsec hok h1

/-- Claim C15, amended, at the single-density image of 4 sectors with
`nbtrk = 1` and `nbsec = 2`. -/
theorem load_dsk_geometry_positive_witness :
    (load_dsk (some (demoDisk 1 2 1)) coldServer).1 = 0 ∧
    (0 < (load_dsk (some (demoDisk 1 2 1)) coldServer).2.nbsec ∧
      ((load_dsk (some (demoDisk 1 2 1)) coldServer).2.nbsec ≠ 1 →
        0 < (load_dsk (some (demoDisk 1 2 1)) coldServer).2.track0l)) :=
  have hok : (load_dsk (some (demoDisk 1 2 1)) coldServer).1 = 0 := by
    set_option maxRecDepth 100000 in decide
  ⟨hok, load_dsk_geometry_positive (some (demoDisk 1 2 1)) coldServer hok⟩

/-- Claim C17: `load_dsk` returns -1 whenever the file size is not a multiple
of 256, or `getname` without separator rejects the 11-byte field at offset
0x10 of the SIR (the sector at position 512), or the byte at offset 0x26 of
the SIR is 0, or the byte at offset 0x27 is 0; and also when `stat` fails. -/
theorem load_dsk_rejects (h : HostFile) (s : Server)
    (hbad : h.content.length % 256 ≠ 0 ∨
      (getname ((h.content.drop (512 + 0x10)).take 11) 0).1 = -1 ∨
      h.content.getD (512 + 0x26) 0 = 0 ∨ h.content.getD (512 + 0x27) 0 = 0) :
    (load_dsk (some h) s).1 = -1 ∧ (load_dsk none s).1 = -1 := by
  refine ⟨?_, rfl⟩
  by_cases hread : h.opens = true ∧ 768 ≤ h.content.length
  · obtain ⟨hopen, hc⟩ := hread
    rw [load_dsk_read h s hopen hc]
    apply loadCheck_fail
    simp only
    rw [sir_label _ _ hc, sir_getD _ _ 0x26 (by omega) hc, sir_getD _ _ 0x27 (by omega) hc]
    rcases hbad with hb | hb | hb | hb
    · left
      intro hm
      exact hb ((size_check h.content.length).mp hm)
    · exact Or.inr (Or.inl hb)
    · exact Or.inr (Or.inr (Or.inl hb))
    · exact Or.inr (Or.inr (Or.inr hb))
  · apply load_dsk_unreadable
    by_cases hopen : h.opens = true
    · right
      by_contra hc
      exact hread ⟨hopen, by omega⟩
    · left
      cases hh : h.opens with
      | false => rfl
      | true => exact absurd hh hopen

/-- Claim C17 at an image of 3 sectors whose SIR carries `nbtrk = 0`. -/
theorem load_dsk_rejects_witness :
    (demoDisk 0 10 0).content.getD (512 + 0x26) 0 = 0 ∧
    ((load_dsk (some (demoDisk 0 10 0)) coldServer).1 = -1 ∧
      (load_dsk none coldServer).1 = -1) :=
  have hz : (demoDisk 0 10 0).content.getD (512 + 0x26) 0 = 0 := by
    set_option maxRecDepth 100000 in decide
  ⟨hz, load_dsk_rejects (demoDisk 0 10 0) coldServer (Or.inr (Or.inr (Or.inl hz)))⟩

/-- Claim C16 as the spec states it fails: an image of 5 sectors whose SIR
carries `nbtrk = 1` and `nbsec = 2` is loaded by the anomalous branch with
`nbtrk = 2` and `track0l = 2`, a geometry of 6 sectors; the address (2,2) is
accepted by `ts2blk` and translates to block 5, past the 5 sectors of the
file. -/
theorem load_dsk_anomalous_geometry :
    (demoDisk 1 2 2).content.length = 5 * 256 ∧
    (load_dsk (some (demoDisk 1 2 2)) coldServer).1 = 0 ∧
    (load_dsk (some (demoDisk 1 2 2)) coldServer).2.track0l +
      (load_dsk (some (demoDisk 1 2 2)) coldServer).2.nbtrk *
        (load_dsk (some (demoDisk 1 2 2)) coldServer).2.nbsec = 6 ∧
    ts2blk (load_dsk (some (demoDisk 1 2 2)) coldServer).2.nbtrk
      (load_dsk (some (demoDisk 1 2 2)) coldServer).2.nbsec
      (load_dsk (some (demoDisk 1 2 2)) coldServer).2.track0l 2 2 = 5 := by
  set_option maxRecDepth 100000 in decide

/-- Claim C16, amended: after a successful `load_dsk` of an image whose number
of sectors exceeds `nbtrk * nbsec` (the values of the SIR) by `nbsec` at most,
that is, when the anomalous branch is not taken, `track0l + nbtrk * nbsec` is
the number of sectors of the file, and every address that `ts2blk` accepts
translates to a block inside the file. -/
theorem load_dsk_accounts_for_file (h : HostFile) (s : Server)
    (hb : ∀ b ∈ h.content, b < 256)
    (hok : (load_dsk (some h) s).1 = 0)
    (hd0 : h.content.getD (512 + 0x26) 0 * h.content.getD (512 + 0x27) 0 ≤
      h.content.length / 256)
    (hd1 : h.content.length / 256 ≤
      h.content.getD (512 + 0x26) 0 * h.content.getD (512 + 0x27) 0 +
        h.content.getD (512 + 0x27) 0) :
    (load_dsk (some h) s).2.track0l +
      (load_dsk (some h) s).2.nbtrk * (load_dsk (some h) s).2.nbsec =
        h.content.length / 256 ∧
    ∀ t sc : Nat,
      ts2blk (load_dsk (some h) s).2.nbtrk (load_dsk (some h) s).2.nbsec
        (load_dsk (some h) s).2.track0l t sc ≠ -1 →
      0 ≤ ts2blk (load_dsk (some h) s).2.nbtrk (load_dsk (some h) s).2.nbsec
        (load_dsk (some h) s).2.track0l t sc ∧
      ts2blk (load_dsk (some h) s).2.nbtrk (load_dsk (some h) s).2.nbsec
        (load_dsk (some h) s).2.track0l t sc < ((h.content.length / 256 : Nat) : Int) := by
  obtain ⟨h2, hfile, _, hc, heq⟩ := load_dsk_success (some h) s hok
  have hh : h2 = h := (Option.some.inj hfile).symm
  subst hh
  have ha : h2.content.getD (512 + 0x26) 0 < 256 := by
    rw [List.getD_eq_getElem _ _ (by omega)]
    exact hb _ (List.getElem_mem _)
  have hbs : h2.content.getD (512 + 0x27) 0 < 256 := by
    rw [List.getD_eq_getElem _ _ (by omega)]
    exact hb _ (List.getElem_mem _)
  rw [heq] at hok ⊢
  obtain ⟨hmult, _, htrk, hsec, hg⟩ := loadCheck_success _ _ hok
  rw [hg] at hok ⊢
  simp only at htrk hsec
  rw [sir_getD _ _ 0x26 (by omega) hc] at htrk hok ⊢
  rw [sir_getD _ _ 0x27 (by omega) hc] at hsec hok ⊢
  generalize h2.content.getD (512 + 0x26) 0 = a at *
  generalize h2.content.getD (512 + 0x27) 0 = b at *
  generalize hq : h2.content.length / 256 = q at *
  have hprod : a * b ≤ 255 * 255 := Nat.mul_le_mul (by omega) (by omega)
  have hsmall : h2.content.length < 2147483648 := by omega
  rw [toInt32_small _ hsmall] at hok hmult ⊢
  have htd : Int.tdiv ((h2.content.length : Nat) : Int) 256 = (q : Int) := by
    rw [Int.tdiv_eq_ediv (by omega) (by omega)]
    omega
  rw [htd] at hok ⊢
  obtain ⟨hn, hacc⟩ := loadGeometry_accounts (q : Int) _ hbs
    (by push_cast; exact_mod_cast hd0) (by push_cast; exact_mod_cast hd1) hok
  rw [hn, loadGeometry_nbsec]
  simp only at hacc ⊢
  generalize (loadGeometry (q : Int) _).2.track0l = l at *
  have hsum : l + a * b = q := by exact_mod_cast hacc
  refine ⟨hsum, fun t sc hne => ?_⟩
  have hcond : ¬ (t > a ∨ sc > b ∨ (sc = 0 ∧ t ≠ 0)) :=
    fun hr => hne (ts2blk_rejected a b l t sc hr)
  refine ⟨ts2blk_accepted a b l t sc hcond, ?_⟩
  have hab : b ≤ a * b := Nat.le_mul_of_pos_left b (Nat.pos_of_ne_zero htrk)
  unfold ts2blk
  rw [if_neg hcond]
  by_cases ht : t = 0
  · rw [if_pos ht]
    split_ifs <;> omega
  · rw [if_neg ht]
    have hmul : ((t : Int) - 1) * (b : Int) ≤ ((a : Int) - 1) * (b : Int) :=
      mul_le_mul_of_nonneg_right (by omega) (by omega)
    have hexp : ((a : Int) - 1) * (b : Int) = (a : Int) * (b : Int) - (b : Int) := by ring
    have hsumz : (l : Int) + (a : Int) * (b : Int) = (q : Int) := by exact_mod_cast hsum
    omega

/-- Claim C16, amended, at the single-density image of 4 sectors with
`nbtrk = 1` and `nbsec = 2`. -/
theorem load_dsk_accounts_for_file_witness :
    ((load_dsk (some (demoDisk 1 2 1)) coldServer).1 = 0 ∧
      (demoDisk 1 2 1).content.length / 256 = 4) ∧
    ((load_dsk (some (demoDisk 1 2 1)) coldServer).2.track0l +
        (load_dsk (some (demoDisk 1 2 1)) coldServer).2.nbtrk *
          (load_dsk (some (demoDisk 1 2 1)) coldServer).2.nbsec =
          (demoDisk 1 2 1).content.length / 256 ∧
      ∀ t sc : Nat,
        ts2blk (load_dsk (some (demoDisk 1 2 1)) coldServer).2.nbtrk
          (load_dsk (some (demoDisk 1 2 1)) coldServer).2.nbsec
          (load_dsk (some (demoDisk 1 2 1)) coldServer).2.track0l t sc ≠ -1 →
        0 ≤ ts2blk (load_dsk (some (demoDisk 1 2 1)) coldServer).2.nbtrk
          (load_dsk (some (demoDisk 1 2 1)) coldServer).2.nbsec
          (load_dsk (some (demoDisk 1 2 1)) coldServer).2.track0l t sc ∧
        ts2blk (load_dsk (some (demoDisk 1 2 1)) coldServer).2.nbtrk
          (load_dsk (some (demoDisk 1 2 1)) coldServer).2.nbsec
          (load_dsk (some (demoDisk 1 2 1)) coldServer).2.track0l t sc <
            (((demoDisk 1 2 1).content.length / 256 : Nat) : Int)) :=
  have hok : (load_dsk (some (demoDisk 1 2 1)) coldServer).1 = 0 := by
    set_option maxRecDepth 100000 in decide
  have hbytes : ∀ b ∈ (demoDisk 1 2 1).content, b < 256 := by
    intro b hb
    simp only [demoDisk, demoSir, List.mem_append, List.mem_replicate, List.mem_cons,
      List.mem_nil_iff, or_false] at hb
    omega
  ⟨⟨hok, by set_option maxRecDepth 100000 in decide⟩,
    load_dsk_accounts_for_file (demoDisk 1 2 1) coldServer hbytes hok
      (by set_option maxRecDepth 100000 in decide)
      (by set_option maxRecDepth 100000 in decide)⟩

/-- Claim C14 at the single-density image of 4 sectors with `nbtrk = 1` and
`nbsec = 2`. -/
theorem load_dsk_single_density_witness :
    ((demoDisk 1 2 1).opens = true ∧ 3 * 256 ≤ (demoDisk 1 2 1).content.length ∧
      (demoDisk 1 2 1).content.length = 256 * ((1 + 1) * 2)) ∧
    ((load_dsk (some (demoDisk 1 2 1)) coldServer).1 = 0 ∧
      (load_dsk (some (demoDisk 1 2 1)) coldServer).2.track0l =
        (demoDisk 1 2 1).content.getD (512 + 0x27) 0 ∧
      (load_dsk (some (demoDisk 1 2 1)) coldServer).2.nbtrk =
        (demoDisk 1 2 1).content.getD (512 + 0x26) 0 ∧
      (load_dsk (some (demoDisk 1 2 1)) coldServer).2.nbsec =
        (demoDisk 1 2 1).content.getD (512 + 0x27) 0 ∧
      (load_dsk (some (demoDisk 1 2 1)) coldServer).2.ready = 1) :=
  have hbytes : ∀ b ∈ (demoDisk 1 2 1).content, b < 256 := by
    intro b hb
    simp only [demoDisk, demoSir, List.mem_append, List.mem_replicate, List.mem_cons,
      List.mem_nil_iff, or_false] at hb
    omega
  ⟨⟨rfl, by set_option maxRecDepth 100000 in decide,
      by set_option maxRecDepth 100000 in decide⟩,
    load_dsk_single_density (demoDisk 1 2 1) coldServer rfl hbytes
      (by set_option maxRecDepth 100000 in decide)
      (by set_option maxRecDepth 100000 in decide)
      (by set_option maxRecDepth 100000 in decide)
      (by set_option maxRecDepth 100000 in decide)
      (by set_option maxRecDepth 100000 in decide)⟩

/-! ## Theorems: command parameters -/

/-- Writing index `i` leaves the prefix of length `i` unchanged. -/
theorem take_set_self (l : List Nat) (i a : Nat) : (l.set i a).take i = l.take i := by
  induction l generalizing i with
  | nil => simp
  | cons x xs ih =>
    cases i with
    | zero => simp
    | succ j => simp [ih j]

/-- Writing index `i` of a list that holds it. -/
theorem set_eq_take_append (l : List Nat) (i a : Nat) (h : i < l.length) :
    l.set i a = l.take i ++ [a] ++ l.drop (i + 1) := by
  have e : l.set i a = (l.set i a).take (i + 1) ++ (l.set i a).drop (i + 1) :=
    (List.take_append_drop (i + 1) (l.set i a)).symm
  rw [e, take_succ_set l i a h, drop_set_of_lt l i a (i + 1) (by omega)]

/-- The loop of `getparam` followed by the final `param[i] = 0`, on a stream
that holds the bytes `pre`, none of them CR, then CR: the bytes after the CR
are left, and the buffer holds from index `i` on the bytes of `pre` that fit
below index 127, then NUL. -/
theorem getparamLoop_eq (rest : List Nat) :
    ∀ (pre : List Nat) (i : Nat) (param : List Nat),
      (∀ b ∈ pre, b < 256 ∧ b ≠ CR) → i ≤ 127 → param.length = 128 →
      (getparamLoop (pre ++ CR :: rest) i param).map (fun r => (r.1, r.2.2.set r.2.1 0)) =
        some (rest, param.take i ++ pre.take (127 - i) ++ [0] ++
          param.drop (min (i + pre.length) 127 + 1)) := by
  intro pre
  induction pre with
  | nil =>
    intro i param _ hi hlen
    have hcr : CR % 256 = CR := rfl
    simp only [List.nil_append, getparamLoop, hcr, if_true, Option.map_some', List.take_nil,
      List.append_nil, List.length_nil, Nat.add_zero]
    rw [Nat.min_eq_left hi, set_eq_take_append param i 0 (by omega)]
  | cons b q ih =>
    intro i param hb hi hlen
    obtain ⟨hb1, hb2⟩ := hb b (by simp)
    have hq : ∀ x ∈ q, x < 256 ∧ x ≠ CR := fun x hx => hb x (by simp [hx])
    have hmod : b % 256 = b := Nat.mod_eq_of_lt hb1
    simp only [List.cons_append, getparamLoop, hmod, hb2, if_false, List.append_eq]
    by_cases h127 : i < 127
    · rw [if_pos h127, ih (i + 1) (param.set i b) hq (by omega)
        (by rw [List.length_set]; exact hlen)]
      rw [take_succ_set param i b (by omega), drop_set_of_lt param i b _ (by omega)]
      have e1 : 127 - i = (127 - (i + 1)) + 1 := by omega
      have e2 : min (i + 1 + q.length) 127 = min (i + (b :: q).length) 127 := by
        simp only [List.length_cons]; congr 1; omega
      rw [e1, List.take_succ_cons, e2]
      simp
    · rw [if_neg h127]
      have hi2 : i = 127 := by omega
      subst hi2
      rw [ih 127 (param.set 127 0) hq (le_refl _) (by rw [List.length_set]; exact hlen)]
      rw [take_set_self, drop_set_of_lt param 127 0 _ (by omega)]
      have e2 : min (127 + q.length) 127 = min (127 + (b :: q).length) 127 := by
        simp only [List.length_cons]; omega
      rw [e2]
      simp

/-- The function `getparam` on a stream that holds the bytes `pre`, none of
them CR, then CR. -/
theorem getparam_eq (t : Session) (pre rest : List Nat)
    (hin : t.srv.input = pre ++ CR :: rest) (hpre : ∀ b ∈ pre, b < 256 ∧ b ≠ CR)
    (hparam : t.param.length = 128) :
    getparam t =
      some { srv := { t.srv with input := rest },
             param := pre.take 127 ++ [0] ++ t.param.drop (min pre.length 127 + 1) } := by
  have h := getparamLoop_eq rest pre 0 t.param hpre (by omega) hparam
  simp only [List.take_zero, List.nil_append, Nat.sub_zero, Nat.zero_add] at h
  unfold getparam
  rw [hin]
  cases hl : getparamLoop (pre ++ CR :: rest) 0 t.param with
  | none =>
    rw [hl] at h
    simp at h
  | some r =>
    obtain ⟨r1, r2, r3⟩ := r
    rw [hl] at h
    simp only [Option.map_some', Option.some.injEq, Prod.mk.injEq] at h
    obtain ⟨h1, h2⟩ := h
    simp only [h1, h2]

/-- Claim C19: on a stream that contains a CR, `getparam` returns, the bytes
up to and including the first CR are consumed, and `param` holds the bytes
that preceded the CR, the first 127 of them at most, followed by NUL; the CR
is not among them. -/
theorem getparam_spec (t : Session) (pre rest : List Nat)
    (hin : t.srv.input = pre ++ CR :: rest) (hpre : ∀ b ∈ pre, b < 256 ∧ b ≠ CR)
    (hparam : t.param.length = 128) :
    ∃ t2 : Session, getparam t = some t2 ∧
      t2.srv = { t.srv with input := rest } ∧
      t2.param.take ((pre.take 127).length + 1) = pre.take 127 ++ [0] ∧
      t2.param.length = 128 ∧
      CR ∉ pre.take 127 := by
  refine ⟨_, getparam_eq t pre rest hin hpre hparam, rfl, ?_, ?_, ?_⟩
  · simp only
    rw [List.append_assoc, List.take_append_eq_append_take]
    simp
  · simp only [List.length_append, List.length_take, List.length_drop, List.length_cons,
      List.length_nil, hparam]
    omega
  · intro hmem
    exact (hpre CR (List.mem_of_mem_take hmem)).2 rfl

/-- Claim C19 at the stream "AB", CR, "S". -/
theorem getparam_spec_witness :
    ((demoSession [65, 66, 13, 83]).srv.input = [65, 66] ++ CR :: [83] ∧
      (demoSession [65, 66, 13, 83]).param.length = 128) ∧
    ∃ t2 : Session, getparam (demoSession [65, 66, 13, 83]) = some t2 ∧
      t2.srv = { (demoSession [65, 66, 13, 83]).srv with input := [83] } ∧
      t2.param.take ((([65, 66] : List Nat).take 127).length + 1) =
        ([65, 66] : List Nat).take 127 ++ [0] ∧
      t2.param.length = 128 ∧
      CR ∉ ([65, 66] : List Nat).take 127 :=
  ⟨⟨rfl, List.length_replicate _ _⟩,
    getparam_spec (demoSession [65, 66, 13, 83]) [65, 66] [83] rfl (by decide)
      (List.length_replicate _ _)⟩

/-- On a stream that holds a parameter and its CR, `getparam` returns having
consumed them, and the buffer keeps its 128 bytes. -/
theorem getparam_returns (t : Session) (pre rest : List Nat)
    (hin : t.srv.input = pre ++ CR :: rest) (hpre : ∀ b ∈ pre, b < 256 ∧ b ≠ CR)
    (hparam : t.param.length = 128) :
    ∃ t2 : Session, getparam t = some t2 ∧ t2.srv = { t.srv with input := rest } ∧
      t2.param.length = 128 := by
  refine ⟨_, getparam_eq t pre rest hin hpre hparam, rfl, ?_⟩
  simp only [List.length_append, List.length_take, List.length_drop, List.length_cons,
    List.length_nil, hparam]
  omega

/-- Claim C18 as the spec states it fails: after the command byte 'C', on the
four parameters "A", "B", "C", "D", each with its CR, followed by the byte
'Q', the dispatcher does not answer: it reads a fifth parameter and, no CR
coming, never returns.  With a CR after the 'Q', NAK is written and the byte
read as the next command is the 'S' that follows the fifth CR, not the 'Q'
that follows the fourth. -/
theorem mainCreate_reads_a_fifth_parameter :
    mainCreate (demoSession [65, 13, 66, 13, 67, 13, 68, 13, 81]) = none ∧
    (mainCreate (demoSession [65, 13, 66, 13, 67, 13, 68, 13, 81, 13, 83])).map
      (fun t => (t.srv.output, t.srv.input)) = some ([NAK], [83]) := by
  set_option maxRecDepth 100000 in decide

/-- Claim C18, amended: after the command byte 'C', on five parameters each
ended by CR (four read by the case 'C', one by the case 'D' that follows it),
the dispatcher consumes exactly those five parameters and writes exactly one
byte, NAK (0x15); the byte after the fifth CR is the next one to be read. -/
theorem mainCreate_five_params (t : Session) (p1 p2 p3 p4 p5 rest : List Nat)
    (hin : t.srv.input =
      p1 ++ CR :: (p2 ++ CR :: (p3 ++ CR :: (p4 ++ CR :: (p5 ++ CR :: rest)))))
    (h1 : ∀ b ∈ p1, b < 256 ∧ b ≠ CR) (h2 : ∀ b ∈ p2, b < 256 ∧ b ≠ CR)
    (h3 : ∀ b ∈ p3, b < 256 ∧ b ≠ CR) (h4 : ∀ b ∈ p4, b < 256 ∧ b ≠ CR)
    (h5 : ∀ b ∈ p5, b < 256 ∧ b ≠ CR) (hparam : t.param.length = 128) :
    ∃ t2 : Session, mainCreate t = some t2 ∧
      t2.srv = { t.srv with input := rest, output := t.srv.output ++ [NAK] } ∧
      NAK = 0x15 := by
  obtain ⟨t1, e1, s1, l1⟩ := getparam_returns t p1 _ hin h1 hparam
  obtain ⟨t2, e2, s2, l2⟩ := getparam_returns t1 p2 _ (by rw [s1]) h2 l1
  obtain ⟨t3, e3, s3, l3⟩ := getparam_returns t2 p3 _ (by rw [s2]) h3 l2
  obtain ⟨t4, e4, s4, l4⟩ := getparam_returns t3 p4 _ (by rw [s3]) h4 l3
  obtain ⟨t5, e5, s5, _⟩ := getparam_returns t4 p5 _ (by rw [s4]) h5 l4
  refine ⟨{ t5 with srv := fputc (NAK : Int) t5.srv }, ?_, ?_, rfl⟩
  · unfold mainCreate mainDelete
    simp only [e1, e2, e3, e4, e5, Option.some_bind]
  · simp only [fputc, toU8_natCast, s5, s4, s3, s2, s1]
    rfl

/-- Claim C18, amended, at the parameters "A", "B", "C", "D", "Q" followed by
the byte 'S'. -/
theorem mainCreate_five_params_witness :
    ((demoSession [65, 13, 66, 13, 67, 13, 68, 13, 81, 13, 83]).srv.input =
        [65] ++ CR :: ([66] ++ CR :: ([67] ++ CR :: ([68] ++ CR :: ([81] ++ CR :: [83])))) ∧
      (demoSession [65, 13, 66, 13, 67, 13, 68, 13, 81, 13, 83]).param.length = 128) ∧
    ∃ t2 : Session,
      mainCreate (demoSession [65, 13, 66, 13, 67, 13, 68, 13, 81, 13, 83]) = some t2 ∧
      t2.srv = { (demoSession [65, 13, 66, 13, 67, 13, 68, 13, 81, 13, 83]).srv with
        input := [83],
        output := (demoSession [65, 13, 66, 13, 67, 13, 68, 13, 81, 13, 83]).srv.output ++
          [NAK] } ∧
      NAK = 0x15 :=
  ⟨⟨rfl, List.length_replicate _ _⟩,
    mainCreate_five_params (demoSession [65, 13, 66, 13, 67, 13, 68, 13, 81, 13, 83])
      [65] [66] [67] [68] [81] [83] rfl (by decide) (by decide) (by decide) (by decide)
      (by decide) (List.length_replicate _ _)⟩

/-! ## Theorems: the listing of disk images -/

/-- The C string in a buffer ends at the first NUL. -/
theorem cstr_append_nul (p q : List Nat) : cstr (p ++ 0 :: q) = cstr p := by
  unfold cstr
  induction p with
  | nil => simp
  | cons a l ih =>
    by_cases ha : a = 0
    · simp [ha]
    · simpa [List.takeWhile_cons, ha] using ih

/-- The loop of `lstdsk` when the client answers every read with a space: all
the names that pass the two tests are written, each followed by CR and LF, one
space is consumed for each, and `endlist` is left at 1. -/
theorem lstdskLoop_spaces (param : List Nat) :
    ∀ (entries : List (List Nat)) (s : Server) (tail : List Nat),
      s.input = List.replicate (listedBy param entries).length 32 ++ tail →
      lstdskLoop param entries s =
        (1, { s with input := tail,
                     output := s.output ++ listingBytes (listedBy param entries) }) := by
  intro entries
  induction entries with
  | nil =>
    intro s tail hin
    obtain ⟨inp, out, fd, nw, bl, rdy, ro, nt, ns, t0⟩ := s
    simp only [listedBy, List.filter_nil, List.length_nil, List.replicate_zero,
      List.nil_append] at hin
    subst hin
    simp [lstdskLoop, listedBy, listingBytes]
  | cons e es ih =>
    intro s tail hin
    by_cases h1 : endsWithDSK e = false
    · have hf : listedBy param (e :: es) = listedBy param es := by
        simp [listedBy, List.filter_cons, h1]
      rw [hf] at hin ⊢
      rw [lstdskLoop, if_pos h1]
      exact ih s tail hin
    · by_cases h2 : startsWithCI e param = false
      · have hf : listedBy param (e :: es) = listedBy param es := by
          simp [listedBy, List.filter_cons, h2]
        rw [hf] at hin ⊢
        rw [lstdskLoop, if_neg h1, if_pos h2]
        exact ih s tail hin
      · have h1t : endsWithDSK e = true := by
          cases hh : endsWithDSK e with
          | false => exact absurd hh h1
          | true => rfl
        have h2t : startsWithCI e param = true := by
          cases hh : startsWithCI e param with
          | false => exact absurd hh h2
          | true => rfl
        have hf : listedBy param (e :: es) = e :: listedBy param es := by
          simp [listedBy, List.filter_cons, h1t, h2t]
        rw [hf] at hin ⊢
        obtain ⟨inp, out, fd, nw, bl, rdy, ro, nt, ns, t0⟩ := s
        simp only [List.length_cons, List.replicate_succ, List.cons_append] at hin
        subst hin
        rw [lstdskLoop, if_neg h1, if_neg h2]
        simp only [fgetc_cons]
        have h32 : ¬ (((32 % 256 : Nat) : Int) ≠ 32) := by decide
        rw [if_neg h32, ih _ tail rfl]
        have e13 : toU8 13 = 13 := rfl
        have e10 : toU8 10 = 10 := rfl
        simp [fputc, fputs, listingBytes, CR, LF, e13, e10]

/-- The function `lstdsk` when the client sends the parameter `pre` with its
CR and then answers every read with a space: CR LF, the names that pass the
two tests against the parameter, each followed by CR LF, then ACK are written;
one space for each name and one more are consumed. -/
theorem lstdsk_spaces (entries : List (List Nat)) (t : Session) (pre tail : List Nat)
    (hpre : ∀ b ∈ pre, b < 256 ∧ b ≠ CR) (hparam : t.param.length = 128)
    (hin : t.srv.input = pre ++ CR ::
      (List.replicate ((listedBy (cstr (pre.take 127)) entries).length + 1) 32 ++ tail)) :
    ∃ t2 : Session, lstdsk entries t = some t2 ∧
      t2.srv = { t.srv with
        input := tail,
        output := t.srv.output ++ [CR, LF] ++
          listingBytes (listedBy (cstr (pre.take 127)) entries) ++ [ACK] } := by
  have hg := getparam_eq t pre _ hin hpre hparam
  have hc : cstr (pre.take 127 ++ [0] ++ t.param.drop (min pre.length 127 + 1)) =
      cstr (pre.take 127) := by
    rw [List.append_assoc]
    exact cstr_append_nul _ _
  have hrep : List.replicate ((listedBy (cstr (pre.take 127)) entries).length + 1) 32 ++ tail =
      List.replicate (listedBy (cstr (pre.take 127)) entries).length 32 ++ 32 :: tail := by
    rw [List.replicate_succ', List.append_assoc]
    rfl
  obtain ⟨srv, par⟩ := t
  obtain ⟨inp, out, fd, nw, bl, rdy, ro, nt, ns, t0⟩ := srv
  simp only at hin hg hc hparam
  unfold lstdsk
  rw [hg]
  simp only [hc]
  rw [lstdskLoop_spaces (cstr (pre.take 127)) entries _ (32 :: tail)
    (by simp only [fputc]; exact hrep)]
  refine ⟨_, rfl, ?_⟩
  have e13 : toU8 13 = 13 := rfl
  have e10 : toU8 10 = 10 := rfl
  have e6 : toU8 6 = 6 := rfl
  simp [fputc, fgetc, CR, LF, ACK, e13, e10, e6]

/-- Claim C20, evaluated on the code: with the names "A.DSK", "b.dsk" and
"readme.txt", an empty parameter and a client that answers with spaces,
CR LF, "A.DSK" CR LF, "b.dsk" CR LF and ACK are written and three spaces are
consumed, as the claim says.  But a directory that holds the name "MYDSK",
which does not end in ".DSK", gets it listed: the test compares the last
three bytes with "DSK" and does not look at the dot. -/
theorem lstdsk_lists_name_without_dot :
    (lstdsk demoEntries (demoSession [13, 32, 32, 32, 81])).map
        (fun t => (t.srv.output, t.srv.input)) =
      some ([13, 10] ++ [65, 46, 68, 83, 75] ++ [13, 10] ++ [98, 46, 100, 115, 107] ++
        [13, 10] ++ [6], [81]) ∧
    (([77, 89, 68, 83, 75] : List Nat).drop (5 - 4)).map tolower ≠ [46, 100, 115, 107] ∧
    (lstdsk [[77, 89, 68, 83, 75]] (demoSession [13, 32, 32, 81])).map
        (fun t => (t.srv.output, t.srv.input)) =
      some ([13, 10] ++ [77, 89, 68, 83, 75] ++ [13, 10] ++ [6], [81]) := by
  set_option maxRecDepth 100000 in decide

/-! ## Theorems: the documentation of `getname` -/

/-- Claim C24, as the code behaves: the two examples of the documentation of
`getname` do not come out as documented. The field "HELLO   TXT" with
dot = 1 is rejected with -1 at its first space, after "HELLO" has been
written; the field "MYDISK     " with dot = 0 is copied with its five
spaces and the returned length is 11. -/
theorem getname_doc_examples_differ :
    getname [72, 69, 76, 76, 79, 32, 32, 32, 84, 88, 84] 1 = (-1, [72, 69, 76, 76, 79]) ∧
    getname [77, 89, 68, 73, 83, 75, 32, 32, 32, 32, 32] 0 =
      (11, [77, 89, 68, 73, 83, 75, 32, 32, 32, 32, 32]) := by
  constructor <;> decide

/-- The count and the bytes written by the loop of `getname` grow by one per
field byte at most, and by one more for the dot. -/
theorem getnameLoop_le (pos : List Nat) (dot : Int) :
    ∀ (fuel j k : Nat) (name : List Nat),
      (getnameLoop pos dot fuel j k name).1 ≤
          ((k + fuel + (if j ≤ 7 ∧ dot ≠ 0 then 1 else 0) : Nat) : Int) ∧
        (getnameLoop pos dot fuel j k name).2.length ≤
          name.length + fuel + (if j ≤ 7 ∧ dot ≠ 0 then 1 else 0) := by
  intro fuel
  induction fuel with
  | zero =>
    intro j k name
    rw [getnameLoop]
    exact ⟨Int.ofNat_le.mpr (Nat.le_add_right k _), Nat.le_add_right name.length _⟩
  | succ n ih =>
    intro j k name
    rw [getnameLoop]
    dsimp only
    by_cases hbad : badNameByte (pos.getD j 0) = true
    · rw [if_pos hbad]
      exact ⟨by omega, by simp only; omega⟩
    · rw [if_neg hbad]
      by_cases hsp : dot ≠ 0 ∧ pos.getD j 0 = 32
      · rw [if_pos hsp]
        exact ⟨by omega, by simp only; omega⟩
      · rw [if_neg hsp]
        generalize pos.getD j 0 = c
        by_cases h7 : j = 7
        · rw [if_pos h7]
          by_cases h8 : pos.getD 8 0 = 0
          · rw [if_pos h8]
            constructor
            · split_ifs <;> push_cast <;> omega
            · split_ifs <;> simp <;> omega
          · rw [if_neg h8]
            have h := ih (j + 1)
              (if dot ≠ 0 then (if c ≠ 0 then k + 1 else k) + 1 else (if c ≠ 0 then k + 1 else k))
              (if dot ≠ 0 then (if c ≠ 0 then name ++ [c] else name) ++ [46]
                else (if c ≠ 0 then name ++ [c] else name))
            rw [if_neg (show ¬ (j + 1 ≤ 7 ∧ dot ≠ 0) by omega)] at h
            refine ⟨le_trans h.1 ?_, le_trans h.2 ?_⟩
            · split_ifs <;> push_cast <;> omega
            · split_ifs <;> simp <;> omega
        · rw [if_neg h7]
          have h := ih (j + 1) (if c ≠ 0 then k + 1 else k) (if c ≠ 0 then name ++ [c] else name)
          refine ⟨le_trans h.1 ?_, le_trans h.2 ?_⟩
          · split_ifs <;> push_cast <;> omega
          · split_ifs <;> simp <;> omega

/-- The bound that holds for `getname`: the returned length and the number
of bytes before the terminator are at most 12, and at most 11 when no dot is
asked for. -/
theorem getname_le (pos : List Nat) (dot : Int) :
    (getname pos dot).1 ≤ 12 ∧ (getname pos dot).2.length + 1 ≤ 13 ∧
      (dot = 0 → (getname pos dot).1 ≤ 11 ∧ (getname pos dot).2.length + 1 ≤ 12) := by
  have h := getnameLoop_le pos dot 11 0 0 []
  have e : getname pos dot = getnameLoop pos dot 11 0 0 [] := rfl
  rw [e]
  by_cases hd : dot = 0
  · rw [if_neg (show ¬ (0 ≤ 7 ∧ dot ≠ 0) by simp [hd])] at h
    simp only [List.length_nil] at h
    refine ⟨by omega, by omega, fun _ => ⟨by omega, by omega⟩⟩
  · rw [if_pos (show 0 ≤ 7 ∧ dot ≠ 0 from ⟨by omega, hd⟩)] at h
    simp only [List.length_nil] at h
    refine ⟨by omega, by omega, fun h0 => absurd h0 hd⟩

/-- Claim C25, as the code behaves: for the field "FILENAMETXT" with
dot = 1, `getname` returns 12 and writes the 12 bytes "FILENAME.TXT"
followed by the terminator, 13 bytes in all, one more than the 12 bytes its
documentation asks of the output buffer. -/
theorem getname_writes_13_bytes :
    getname [70, 73, 76, 69, 78, 65, 77, 69, 84, 88, 84] 1 =
        (12, [70, 73, 76, 69, 78, 65, 77, 69, 46, 84, 88, 84]) ∧
      (getname [70, 73, 76, 69, 78, 65, 77, 69, 84, 88, 84] 1).2.length + 1 = 13 := by
  constructor <;> decide

/-! ## Theorems: the order of the branches of the geometry detection -/

/-- In the order of the code the branches give `loadGeometry`. -/
theorem loadGeometryInOrder_code (nb_sectors : Int) (s : Server) :
    loadGeometryInOrder 0 1 2 nb_sectors s = loadGeometry nb_sectors s := by
  unfold loadGeometryInOrder loadGeometry geometryBranch
  dsimp only
  split_ifs <;> rfl

/-- Claim C27: in the geometry detection of `load_dsk`, the condition of the
first double density branch and the condition of the branch for a track 0
longer than a track never hold together (nor does the second double density
condition hold with the latter), the two double density branches have the
same result, and so the three branches tried in any order give the result,
`nbtrk` and `track0l` of the order of the code. -/
theorem loadGeometry_branch_order (s : Server) (track0l : Nat) (nb_sectors : Int) :
    ¬ (((s.nbsec ≥ 36 ∧ track0l = 20) ∨ (s.nbsec = 18 ∧ track0l = 10) ∨ track0l = s.nbsec / 2) ∧
        track0l > s.nbsec) ∧
      ¬ ((track0l > s.nbsec / 2 ∧ track0l < s.nbsec) ∧ track0l > s.nbsec) ∧
      (∀ r2 r4, geometryBranch s track0l 0 = some r2 → geometryBranch s track0l 2 = some r4 →
        r2 = r4) ∧
      (∀ r, geometryBranch s track0l 0 = some r ∨ geometryBranch s track0l 2 = some r →
        r = (0, { s with track0l := track0l, ready := 1 })) ∧
      ∀ i j k : Fin 3, i ≠ j ∧ i ≠ k ∧ j ≠ k →
        loadGeometryInOrder i j k nb_sectors s = loadGeometry nb_sectors s := by
  refine ⟨?_, ?_, ?_, ?_, ?_⟩
  · rintro ⟨h | h | h, hgt⟩ <;> omega
  · rintro ⟨h, hgt⟩
    omega
  · intro r2 r4 h2 h4
    simp only [geometryBranch] at h2 h4
    split_ifs at h2 h4
    simp only [Option.some.injEq] at h2 h4
    rw [← h2, ← h4]
  · intro r h
    simp only [geometryBranch] at h
    rcases h with h | h <;> split_ifs at h <;> simp only [Option.some.injEq] at h <;> exact h.symm
  · intro i j k hd
    have hdiv : s.nbsec / 2 ≤ s.nbsec := Nat.div_le_self _ _
    unfold loadGeometryInOrder loadGeometry
    by_cases h1 : ((s.nbtrk : Int) + 1) * (s.nbsec : Int) = nb_sectors
    · rw [if_pos h1, if_pos h1]
    · rw [if_neg h1, if_neg h1]
      dsimp only
      generalize toU8 (nb_sectors - (s.nbtrk : Int) * (s.nbsec : Int)) = t
      fin_cases i <;> fin_cases j <;> fin_cases k <;>
        first
        | (exfalso; revert hd; decide)
        | (simp only [geometryBranch]
           split_ifs <;> first | rfl | (exfalso; omega))

/-- The loop of `lstdsk` when the client answers `k` reads with a space and
the next one with a byte `x` that is not a space: the first `k` names that
pass the tests are written; when a name was left, the loop ends there with
`endlist` 0 and `x` consumed, and when none was left it ends with `endlist` 1
and `x` still in the stream. -/
theorem lstdskLoop_stop (param : List Nat) (x : Nat) (hx : x % 256 ≠ 32) (tail : List Nat) :
    ∀ (entries : List (List Nat)) (s : Server) (k : Nat),
      k ≤ (listedBy param entries).length →
      s.input = List.replicate k 32 ++ x :: tail →
      lstdskLoop param entries s =
        (if k < (listedBy param entries).length then 0 else 1,
          { s with
            input := if k < (listedBy param entries).length then tail else x :: tail,
            output := s.output ++ listingBytes ((listedBy param entries).take k) }) := by
  intro entries
  induction entries with
  | nil =>
    intro s k hk hin
    obtain ⟨inp, out, fd, nw, bl, rdy, ro, nt, ns, t0⟩ := s
    simp only [listedBy, List.filter_nil, List.length_nil, Nat.le_zero] at hk
    subst hk
    simp only [List.replicate_zero, List.nil_append] at hin
    subst hin
    simp [lstdskLoop, listedBy, listingBytes]
  | cons e es ih =>
    intro s k hk hin
    by_cases h1 : endsWithDSK e = false
    · have hf : listedBy param (e :: es) = listedBy param es := by
        simp [listedBy, List.filter_cons, h1]
      rw [hf] at hk ⊢
      rw [lstdskLoop, if_pos h1]
      exact ih s k hk hin
    · by_cases h2 : startsWithCI e param = false
      · have hf : listedBy param (e :: es) = listedBy param es := by
          simp [listedBy, List.filter_cons, h2]
        rw [hf] at hk ⊢
        rw [lstdskLoop, if_neg h1, if_pos h2]
        exact ih s k hk hin
      · have h1t : endsWithDSK e = true := by
          cases hh : endsWithDSK e with
          | false => exact absurd hh h1
          | true => rfl
        have h2t : startsWithCI e param = true := by
          cases hh : startsWithCI e param with
          | false => exact absurd hh h2
          | true => rfl
        have hf : listedBy param (e :: es) = e :: listedBy param es := by
          simp [listedBy, List.filter_cons, h1t, h2t]
        rw [hf] at hk ⊢
        obtain ⟨inp, out, fd, nw, bl, rdy, ro, nt, ns, t0⟩ := s
        rw [lstdskLoop, if_neg h1, if_neg h2]
        cases k with
        | zero =>
          simp only [List.replicate_zero, List.nil_append] at hin
          subst hin
          simp only [fgetc_cons]
          have hne : ((x % 256 : Nat) : Int) ≠ 32 := by
            intro h
            exact hx (by exact_mod_cast h)
          rw [if_pos hne]
          simp [listingBytes]
        | succ k =>
          simp only [List.replicate_succ, List.cons_append] at hin
          subst hin
          simp only [fgetc_cons]
          have h32 : ¬ (((32 % 256 : Nat) : Int) ≠ 32) := by decide
          simp only [List.length_cons, Nat.add_le_add_iff_right] at hk
          rw [if_neg h32, ih _ k hk rfl]
          have e13 : toU8 13 = 13 := rfl
          have e10 : toU8 10 = 10 := rfl
          simp [fputc, fputs, listingBytes, CR, LF, e13, e10]

/-- Claim C21, amended: when the client sends the parameter `pre` with its CR,
answers `k` reads of the listing with a space and the next read with ESC
(0x1B), `lstdsk` writes CR LF and the first `k` names that pass the tests,
then stops the listing: no further name is written and no further byte is
read, and exactly one more byte is written, ACK (0x06). -/
theorem lstdsk_abort (entries : List (List Nat)) (t : Session) (pre tail : List Nat) (k : Nat)
    (hpre : ∀ b ∈ pre, b < 256 ∧ b ≠ CR) (hparam : t.param.length = 128)
    (hk : k ≤ (listedBy (cstr (pre.take 127)) entries).length)
    (hin : t.srv.input = pre ++ CR :: (List.replicate k 32 ++ ESC :: tail)) :
    ∃ t2 : Session, lstdsk entries t = some t2 ∧
      t2.srv = { t.srv with
        input := tail,
        output := t.srv.output ++ [CR, LF] ++
          listingBytes ((listedBy (cstr (pre.take 127)) entries).take k) ++ [ACK] } ∧
      ESC = 0x1B ∧ ACK = 0x06 := by
  have hg := getparam_eq t pre _ hin hpre hparam
  have hc : cstr (pre.take 127 ++ [0] ++ t.param.drop (min pre.length 127 + 1)) =
      cstr (pre.take 127) := by
    rw [List.append_assoc]
    exact cstr_append_nul _ _
  obtain ⟨srv, par⟩ := t
  obtain ⟨inp, out, fd, nw, bl, rdy, ro, nt, ns, t0⟩ := srv
  simp only at hin hg hc hparam
  unfold lstdsk
  rw [hg]
  simp only [hc]
  rw [lstdskLoop_stop (cstr (pre.take 127)) ESC (by decide) tail entries _ k hk
    (by simp only [fputc])]
  refine ⟨_, rfl, ?_, rfl, rfl⟩
  have e13 : toU8 13 = 13 := rfl
  have e10 : toU8 10 = 10 := rfl
  have e6 : toU8 6 = 6 := rfl
  by_cases hlt : k < (listedBy (cstr (pre.take 127)) entries).length
  · simp [fputc, CR, LF, ACK, e13, e10, e6, hlt]
  · simp [fputc, fgetc, CR, LF, ACK, e13, e10, e6, hlt]

/-- Claim C21, amended, at the names "A.DSK", "b.dsk" and "readme.txt", an
empty parameter, one space and then ESC, followed by the byte 'Q'. -/
theorem lstdsk_abort_witness :
    ((demoSession [13, 32, 27, 81]).param.length = 128 ∧
      1 ≤ (listedBy (cstr (([] : List Nat).take 127)) demoEntries).length ∧
      (demoSession [13, 32, 27, 81]).srv.input =
        [] ++ CR :: (List.replicate 1 32 ++ ESC :: [81])) ∧
    ∃ t2 : Session, lstdsk demoEntries (demoSession [13, 32, 27, 81]) = some t2 ∧
      t2.srv = { (demoSession [13, 32, 27, 81]).srv with
        input := [81],
        output := (demoSession [13, 32, 27, 81]).srv.output ++ [CR, LF] ++
          listingBytes ((listedBy (cstr (([] : List Nat).take 127)) demoEntries).take 1) ++
          [ACK] } ∧
      ESC = 0x1B ∧ ACK = 0x06 :=
  ⟨⟨List.length_replicate _ _, by decide, rfl⟩,
    lstdsk_abort demoEntries (demoSession [13, 32, 27, 81]) [] [81] 1
      (by simp) (List.length_replicate _ _) (by decide) rfl⟩

/-- Claim C21 as stated fails on the code: with the names "A.DSK", "b.dsk"
and "readme.txt" and an empty parameter, a client that sends ESC at the first
read of the listing, or after one name, still gets the byte ACK (0x06) after
its ESC. -/
theorem lstdsk_writes_ack_after_esc :
    (lstdsk demoEntries (demoSession [13, 27, 81])).map
        (fun t => (t.srv.output, t.srv.input)) = some ([13, 10] ++ [6], [81]) ∧
    (lstdsk demoEntries (demoSession [13, 32, 27, 81])).map
        (fun t => (t.srv.output, t.srv.input)) =
      some ([13, 10] ++ [65, 46, 68, 83, 75] ++ [13, 10] ++ [6], [81]) := by
  set_option maxRecDepth 100000 in decide

/-! ## Theorems: the checksum bytes of a frame -/

/-- The frame of the send handler on a mounted disk: a payload of 256 bytes
followed by the high and the low byte of its checksum. -/
theorem sndblk_mounted_frame (s : Server) (drv trk sec resp : Nat) (rest : List Nat)
    (hin : s.input = drv :: trk :: sec :: resp :: rest)
    (hready : s.ready ≠ 0) (hbloc : s.bloc.length = 256)
    (hfile : ∀ f, s.fd = some f → ∀ b ∈ f.content, b < 256) :
    ∃ payload : List Nat, payload.length = 256 ∧ (∀ b ∈ payload, b < 256) ∧
      (sndblk s).output =
        s.output ++ payload ++ [checksum payload / 256, checksum payload % 256] := by
  have hz : [checksum (List.replicate 256 0) / 256, checksum (List.replicate 256 0) % 256] =
      [0, 0] := by
    rw [checksum_zeros]
  have hzero : ∀ b ∈ List.replicate 256 0, b < 256 := by
    intro b hb
    rw [List.mem_replicate] at hb
    omega
  rcases ts2blk_cases s.nbtrk s.nbsec s.track0l (trk % 256) (sec % 256) with h | ⟨blk, hblk⟩
  · refine ⟨List.replicate 256 0, List.length_replicate _ _, hzero, ?_⟩
    rw [hz, sndblk_zero_reply s drv trk sec resp rest hin hready hbloc (Or.inl h)]
  · have hopt : s.fd = none ∨ ∃ f, s.fd = some f := by
      cases s.fd with
      | none => exact Or.inl rfl
      | some f => exact Or.inr ⟨f, rfl⟩
    rcases hopt with hfd | ⟨f, hfd⟩
    · refine ⟨List.replicate 256 0, List.length_replicate _ _, hzero, ?_⟩
      rw [hz, sndblk_zero_reply s drv trk sec resp rest hin hready hbloc (Or.inr hfd)]
    · by_cases hlen : 256 * blk + 256 ≤ f.content.length
      · have hb : ∀ b ∈ (f.content.drop (256 * blk)).take 256, b < 256 :=
          fun b hb => hfile f hfd b (List.mem_of_mem_drop (List.mem_of_mem_take hb))
        refine ⟨(f.content.drop (256 * blk)).take 256, ?_, hb, ?_⟩
        · rw [List.length_take, List.length_drop]; omega
        · rw [sndblk_sector s drv trk sec resp blk rest f hin hready hbloc hblk hfd hlen hb]
      · refine ⟨List.replicate 256 0, List.length_replicate _ _, hzero, ?_⟩
        rw [hz, sndblk_short_read s drv trk sec resp blk rest f hin hready hbloc hblk hfd
          (by omega)]

/-- Claim C26: the bytes of a 256-byte buffer sum to 65280 at most, so that
the mask of `checksum` leaves the sum as it is, and the two bytes that the
send handler computes from a checksum, `(c >> 8) & 0xFF` and `c & 0xFF`,
give the checksum back as `msb * 256 + lsb`. The frame that `sndblk` writes
for a mounted disk has 258 bytes and satisfies the comparison of `rcvblk`, and
a receive request that carries it to an accepted address of a disk mounted
for writing is accepted. -/
theorem checksum_bytes_recombine (data : List Nat) (hlen : data.length = 256)
    (hb : ∀ b ∈ data, b < 256)
    (s : Server) (drv trk sec resp : Nat) (rest : List Nat)
    (hin : s.input = drv :: trk :: sec :: resp :: rest)
    (hready : s.ready ≠ 0) (hbloc : s.bloc.length = 256)
    (hfile : ∀ f, s.fd = some f → ∀ b ∈ f.content, b < 256) :
    data.sum ≤ 65280 ∧ checksum data = data.sum ∧
    ((checksum data >>> 8) &&& 0xFF) * 256 + (checksum data &&& 0xFF) = checksum data ∧
    ((sndblk s).output.drop s.output.length).length = 258 ∧
    (checksum (((sndblk s).output.drop s.output.length).take 256) : Int) =
      ((((sndblk s).output.drop s.output.length).getD 256 0 : Nat) : Int) * 256 +
        ((((sndblk s).output.drop s.output.length).getD 257 0 : Nat) : Int) ∧
    (∀ (r : Server) (drv2 trk2 sec2 blk2 : Nat) (rest2 : List Nat) (f2 : OpenFile),
      r.input = drv2 :: trk2 :: sec2 :: ((sndblk s).output.drop s.output.length ++ rest2) →
      r.bloc.length = 256 → r.ready ≠ 0 → r.fd = some f2 → f2.writable = true →
      ts2blk r.nbtrk r.nbsec r.track0l (trk2 % 256) (sec2 % 256) = (blk2 : Int) →
      (rcvblk r).1 = 1) := by
  have hsum : data.sum ≤ 65280 := by
    have h := sum_le_of_bytes data hb
    rw [hlen] at h
    exact h
  have hck : checksum data = data.sum := by
    rw [checksum_eq_sum_mod data hlen]
    exact Nat.mod_eq_of_lt (by omega)
  have hrec : ∀ c : Nat, c < 65536 → ((c >>> 8) &&& 0xFF) * 256 + (c &&& 0xFF) = c := by
    intro c hc
    rw [and_255, and_255, shiftRight_8]
    omega
  obtain ⟨payload, hpl, hpb, hout⟩ :=
    sndblk_mounted_frame s drv trk sec resp rest hin hready hbloc hfile
  have hfr : (sndblk s).output.drop s.output.length =
      payload ++ [checksum payload / 256, checksum payload % 256] := by
    rw [hout, List.append_assoc, List.drop_left]
  have hlt := checksum_lt payload
  have h256 : (payload ++ [checksum payload / 256, checksum payload % 256]).getD 256 0 =
      checksum payload / 256 := by
    rw [List.getD_append_right _ _ _ _ (by omega), hpl]
    rfl
  have h257 : (payload ++ [checksum payload / 256, checksum payload % 256]).getD 257 0 =
      checksum payload % 256 := by
    rw [List.getD_append_right _ _ _ _ (by omega), hpl]
    rfl
  have htake : (payload ++ [checksum payload / 256, checksum payload % 256]).take 256 =
      payload := by
    rw [← hpl, List.take_left]
  refine ⟨hsum, hck, hrec _ (checksum_lt data), ?_, ?_, ?_⟩
  · rw [hfr, List.length_append, hpl]
    rfl
  · rw [hfr, h256, h257, htake]
    omega
  · intro r drv2 trk2 sec2 blk2 rest2 f2 hin2 hbloc2 hready2 hfd2 hw2 hblk2
    rw [hfr] at hin2
    have hin3 : r.input = drv2 :: trk2 :: sec2 ::
        (payload ++ (checksum payload / 256) :: (checksum payload % 256) :: rest2) := by
      rw [hin2]
      simp only [List.append_assoc, List.cons_append, List.nil_append]
    have heq := rcvblk_eq r drv2 trk2 sec2 (checksum payload / 256) (checksum payload % 256)
      payload rest2 hin3 hpl hpb hbloc2
    have hcmp : (checksum payload : Int) =
        ((checksum payload / 256 % 256 : Nat) : Int) * 256 +
          ((checksum payload % 256 % 256 : Nat) : Int) := by
      omega
    have hnn : ¬ ((256 : Int) * (blk2 : Int) < 0) := by omega
    have hw := lseek_write_open blk2 { r with input := rest2, bloc := payload } f2 hfd2 hw2
    rw [heq, if_pos hcmp, hblk2, if_neg hnn, if_neg hready2, hw.2]
    simp only [hw.1, ne_eq, not_true_eq_false, if_false]

/-- Claim C26 at the sample session: the buffer of 256 bytes 7, the frame
sent for track 1, sector 1, and that frame carried by a receive request for
track 2, sector 3. -/
theorem checksum_bytes_recombine_witness :
    (demoPayload.length = 256 ∧ (demoServer [0, 1, 1, 6]).ready ≠ 0 ∧
      (demoServer [0, 1, 1, 6]).bloc.length = 256 ∧
      ts2blk 2 10 10 (2 % 256) (3 % 256) = (22 : Nat)) ∧
    (demoPayload.sum ≤ 65280 ∧ checksum demoPayload = demoPayload.sum ∧
      ((sndblk (demoServer [0, 1, 1, 6])).output.drop
        (demoServer [0, 1, 1, 6]).output.length).length = 258 ∧
      (rcvblk (demoServer (0 :: 2 :: 3 ::
        ((sndblk (demoServer [0, 1, 1, 6])).output.drop
          (demoServer [0, 1, 1, 6]).output.length ++ [83])))).1 = 1) := by
  have h := checksum_bytes_recombine demoPayload (List.length_replicate _ _)
    (fun b hb => by rw [demoPayload, List.mem_replicate] at hb; omega)
    (demoServer [0, 1, 1, 6]) 0 1 1 6 [] rfl (by decide) (List.length_replicate _ _)
    (fun f hf => by
      have e : f = demoImage := (Option.some.inj hf).symm
      rw [e]
      exact demoImage_bytes)
  exact ⟨⟨List.length_replicate _ _, by decide, List.length_replicate _ _, by decide⟩,
    h.1, h.2.1, h.2.2.2.1,
    h.2.2.2.2.2 _ 0 2 3 22 [83] demoImage rfl (List.length_replicate _ _) (by decide) rfl rfl
      (by decide)⟩

/-! ## Theorems: mounting an image -/

/-- What the guess of the geometry leaves as it is, and its two results. -/
theorem loadGeometry_frame (n : Int) (s : Server) :
    (loadGeometry n s).2.input = s.input ∧ (loadGeometry n s).2.output = s.output ∧
    (loadGeometry n s).2.bloc = s.bloc ∧ (loadGeometry n s).2.readonly = s.readonly ∧
    ((loadGeometry n s).1 = 0 ∨ (loadGeometry n s).1 = -1) ∧
    ((loadGeometry n s).1 = 0 → (loadGeometry n s).2.ready = 1) ∧
    ((loadGeometry n s).1 ≠ 0 → (loadGeometry n s).2.ready = s.ready) := by
  unfold loadGeometry
  dsimp only
  split_ifs <;> simp

/-- What `loadCheck` leaves as it is, and its two results. -/
theorem loadCheck_frame (size : Int) (s : Server) :
    (loadCheck size s).2.input = s.input ∧ (loadCheck size s).2.output = s.output ∧
    (loadCheck size s).2.bloc = s.bloc ∧ (loadCheck size s).2.readonly = s.readonly ∧
    ((loadCheck size s).1 = 0 ∨ (loadCheck size s).1 = -1) ∧
    ((loadCheck size s).1 = 0 → (loadCheck size s).2.ready = 1) ∧
    ((loadCheck size s).1 ≠ 0 → (loadCheck size s).2.ready = s.ready) := by
  unfold loadCheck
  dsimp only
  split_ifs
  · simp
  · simp
  · exact loadGeometry_frame _ _

/-- What `load_dsk` leaves as it is, and its two results: the streams are not
touched, `bloc` keeps its 256 bytes, a success sets `ready` and leaves in
`readonly` whether the owner may write the file, and a failure leaves `ready`
as it was. -/
theorem load_dsk_frame (file : Option HostFile) (s : Server) :
    (load_dsk file s).2.input = s.input ∧ (load_dsk file s).2.output = s.output ∧
    (s.bloc.length = 256 → (load_dsk file s).2.bloc.length = 256) ∧
    ((load_dsk file s).1 = 0 ∨ (load_dsk file s).1 = -1) ∧
    ((load_dsk file s).1 = 0 → (load_dsk file s).2.ready = 1 ∧
      ∃ h : HostFile, file = some h ∧
        (load_dsk file s).2.readonly = if h.userWrite then 0 else 1) ∧
    ((load_dsk file s).1 ≠ 0 → (load_dsk file s).2.ready = s.ready) := by
  cases file with
  | none => simp [load_dsk]
  | some h =>
    unfold load_dsk
    dsimp only
    by_cases hopen : h.opens = false
    · rw [if_pos hopen]
      simp
    · rw [if_neg hopen]
      have hle : ((h.content.drop 512).take 256).length ≤ 256 := by
        rw [List.length_take]
        omega
      have hrd : (read (lseek ((SECSIZE : Int) * 2)
            { s with
              fd := some { content := h.content, offset := 0, writable := h.userWrite },
              readonly := if h.userWrite then 0 else 1 }).2).2 =
          { s with
            fd := some { content := h.content,
                         offset := 512 + ((h.content.drop 512).take 256).length,
                         writable := h.userWrite },
            readonly := if h.userWrite then 0 else 1,
            bloc := (h.content.drop 512).take 256 ++
              s.bloc.drop ((h.content.drop 512).take 256).length } := by
        simp [lseek, read, SECSIZE]
      rw [hrd]
      have hbl : s.bloc.length = 256 →
          ((h.content.drop 512).take 256 ++
            s.bloc.drop ((h.content.drop 512).take 256).length).length = 256 := by
        intro hb
        rw [List.length_append, List.length_drop]
        omega
      by_cases hr : (read (lseek ((SECSIZE : Int) * 2)
            { s with
              fd := some { content := h.content, offset := 0, writable := h.userWrite },
              readonly := if h.userWrite then 0 else 1 }).2).1 ≠ (SECSIZE : Int)
      · rw [if_pos hr]
        exact ⟨rfl, rfl, hbl, Or.inr rfl, fun h0 => absurd h0 (show ¬ ((-1 : Int) = 0) by decide), fun _ => rfl⟩
      · rw [if_neg hr]
        obtain ⟨f1, f2, f3, f4, f5, f6, f7⟩ := loadCheck_frame (toInt32 (h.content.length : Int))
          { s with
            fd := some { content := h.content,
                         offset := 512 + ((h.content.drop 512).take 256).length,
                         writable := h.userWrite },
            readonly := if h.userWrite then 0 else 1,
            bloc := (h.content.drop 512).take 256 ++
              s.bloc.drop ((h.content.drop 512).take 256).length }
        refine ⟨f1, f2, fun hb => ?_, f5, fun h0 => ⟨f6 h0, h, rfl, f4⟩, fun h0 => f7 h0⟩
        rw [f3]
        exact hbl hb

/-- The three ways through `rmount`: the image with ".DSK" loads, or it does
not and the image with ".dsk" loads, or neither loads. -/
theorem rmount_cases (file : List Nat → Option HostFile) (t : Session) :
    ((load_dsk (file (cstr t.param ++ [46, 68, 83, 75]))
        { t.srv with fd := none, ready := 1 }).1 = 0 →
      rmount file t =
        (1, { t with srv :=
          (load_dsk (file (cstr t.param ++ [46, 68, 83, 75]))
            { t.srv with fd := none, ready := 1 }).2 })) ∧
    ((load_dsk (file (cstr t.param ++ [46, 68, 83, 75]))
        { t.srv with fd := none, ready := 1 }).1 ≠ 0 →
      (load_dsk (file (cstr t.param ++ [46, 100, 115, 107]))
        (load_dsk (file (cstr t.param ++ [46, 68, 83, 75]))
          { t.srv with fd := none, ready := 1 }).2).1 = 0 →
      rmount file t =
        (1, { t with srv :=
          (load_dsk (file (cstr t.param ++ [46, 100, 115, 107]))
            (load_dsk (file (cstr t.param ++ [46, 68, 83, 75]))
              { t.srv with fd := none, ready := 1 }).2).2 })) ∧
    ((load_dsk (file (cstr t.param ++ [46, 68, 83, 75]))
        { t.srv with fd := none, ready := 1 }).1 ≠ 0 →
      (load_dsk (file (cstr t.param ++ [46, 100, 115, 107]))
        (load_dsk (file (cstr t.param ++ [46, 68, 83, 75]))
          { t.srv with fd := none, ready := 1 }).2).1 ≠ 0 →
      rmount file t =
        (0, { t with srv :=
          { (load_dsk (file (cstr t.param ++ [46, 100, 115, 107]))
              (load_dsk (file (cstr t.param ++ [46, 68, 83, 75]))
                { t.srv with fd := none, ready := 1 }).2).2 with ready := 0 } })) := by
  have fU := load_dsk_frame (file (cstr t.param ++ [46, 68, 83, 75]))
    { t.srv with fd := none, ready := 1 }
  have fL := load_dsk_frame (file (cstr t.param ++ [46, 100, 115, 107]))
    (load_dsk (file (cstr t.param ++ [46, 68, 83, 75])) { t.srv with fd := none, ready := 1 }).2
  unfold rmount
  dsimp only
  generalize load_dsk (file (cstr t.param ++ [46, 68, 83, 75]))
    { t.srv with fd := none, ready := 1 } = U at fU fL ⊢
  generalize load_dsk (file (cstr t.param ++ [46, 100, 115, 107])) U.2 = L at fL ⊢
  obtain ⟨_, _, _, hU, hU1, _⟩ := fU
  obtain ⟨_, _, _, hL, hL1, _⟩ := fL
  have neg : ∀ x : Int, x = 0 ∨ x = -1 → x ≠ 0 → x < 0 := by
    intro x hx hne
    omega
  have nonneg : ∀ x : Int, x = 0 → ¬ x < 0 := by
    intro x hx
    omega
  refine ⟨fun h0 => ?_, fun h1 h2 => ?_, fun h1 h2 => ?_⟩
  · rw [if_neg (nonneg _ h0), (hU1 h0).1]
  · rw [if_pos (neg _ hU h1), if_neg (nonneg _ h2), (hL1 h2).1]
  · rw [if_pos (neg _ hU h1), if_pos (neg _ hL h2)]

/-- The case 'R' of the dispatcher while no disk is mounted: NAK. -/
theorem mainReceive_not_ready (s : Server) (drv trk sec msb lsb : Nat) (payload rest : List Nat)
    (hin : s.input = drv :: trk :: sec :: (payload ++ msb :: lsb :: rest))
    (hlen : payload.length = 256) (hb : ∀ b ∈ payload, b < 256)
    (hbloc : s.bloc.length = 256) (h : s.ready = 0) :
    mainReceive s = { s with input := rest, bloc := payload, output := s.output ++ [NAK] } := by
  have heq := rcvblk_eq s drv trk sec msb lsb payload rest hin hlen hb hbloc
  have hres : rcvblk s = (0, { s with input := rest, bloc := payload }) := by
    rw [heq]
    by_cases hck : (checksum payload : Int) =
        ((msb % 256 : Nat) : Int) * 256 + ((lsb % 256 : Nat) : Int)
    · rw [if_pos hck]
      by_cases hneg : (256 : Int) * ts2blk s.nbtrk s.nbsec s.track0l (trk % 256) (sec % 256) < 0
      · rw [if_pos hneg]
      · rw [if_neg hneg, if_pos h]
    · rw [if_neg hck]
  simp [mainReceive, hres, fputc, NAK, toU8]

/-- Claim C22: the case 'M' of the dispatcher on a parameter `name` ended by
CR. With `up` the result of `load_dsk` on the name followed by ".DSK", the
descriptor being closed before, and `lo` the result of `load_dsk` on the name
followed by ".dsk" after that: when `up` succeeds, or fails while `lo`
succeeds, ACK and then 'R' or 'W' are written, 'R' when `readonly` is set,
which is when the owner may not write the file that was loaded, and `ready`
is 1; when both fail, NAK alone is written and `ready` is 0, so that a send
request that follows gets the reply of the path without disk and a receive
request that follows gets NAK. -/
theorem mainMount_spec (file : List Nat → Option HostFile) (t : Session)
    (name rest : List Nat)
    (hin : t.srv.input = name ++ CR :: rest) (hname : ∀ b ∈ name, b < 256 ∧ b ≠ CR)
    (hparam : t.param.length = 128) (hbloc : t.srv.bloc.length = 256) :
    ∃ (t2 : Session) (up lo : Int × Server),
      mainMount file t = some t2 ∧
      up = load_dsk (file (cstr (name.take 127) ++ [46, 68, 83, 75]))
        { t.srv with input := rest, fd := none, ready := 1 } ∧
      lo = load_dsk (file (cstr (name.take 127) ++ [46, 100, 115, 107])) up.2 ∧
      t2.srv.input = rest ∧
      ((up.1 = 0 ∨ (up.1 ≠ 0 ∧ lo.1 = 0)) →
        t2.srv.ready = 1 ∧
        t2.srv.output = t.srv.output ++ [ACK, if t2.srv.readonly ≠ 0 then 82 else 87] ∧
        ∃ h : HostFile,
          file (cstr (name.take 127) ++
            (if up.1 = 0 then [46, 68, 83, 75] else [46, 100, 115, 107])) = some h ∧
          t2.srv.readonly = if h.userWrite then 0 else 1) ∧
      ((up.1 ≠ 0 ∧ lo.1 ≠ 0) →
        t2.srv.ready = 0 ∧ t2.srv.output = t.srv.output ++ [NAK] ∧
        (∀ (drv trk sec resp : Nat) (tail : List Nat),
          mainSend { t2.srv with input := drv :: trk :: sec :: resp :: tail } =
            { t2.srv with input := tail,
                          output := t2.srv.output ++ List.replicate 258 0 ++ [1] }) ∧
        (∀ (drv trk sec msb lsb : Nat) (payload tail : List Nat),
          payload.length = 256 → (∀ b ∈ payload, b < 256) →
          (mainReceive
            { t2.srv with input := drv :: trk :: sec :: (payload ++ msb :: lsb :: tail) }).output =
            t2.srv.output ++ [NAK])) := by
  have hg := getparam_eq t name _ hin hname hparam
  have hc : cstr (name.take 127 ++ [0] ++ t.param.drop (min name.length 127 + 1)) =
      cstr (name.take 127) := by
    rw [List.append_assoc]
    exact cstr_append_nul _ _
  obtain ⟨srv, par⟩ := t
  simp only at hin hg hc hparam hbloc ⊢
  have hcases := rmount_cases file
    { srv := { srv with input := rest },
      param := name.take 127 ++ [0] ++ par.drop (min name.length 127 + 1) }
  simp only [hc] at hcases
  have fU := load_dsk_frame (file (cstr (name.take 127) ++ [46, 68, 83, 75]))
    { srv with input := rest, fd := none, ready := 1 }
  have fL := load_dsk_frame (file (cstr (name.take 127) ++ [46, 100, 115, 107]))
    (load_dsk (file (cstr (name.take 127) ++ [46, 68, 83, 75]))
      { srv with input := rest, fd := none, ready := 1 }).2
  unfold mainMount
  rw [hg]
  dsimp only
  generalize hUdef : load_dsk (file (cstr (name.take 127) ++ [46, 68, 83, 75]))
    { srv with input := rest, fd := none, ready := 1 } = U at hcases fU fL ⊢
  generalize hLdef : load_dsk (file (cstr (name.take 127) ++ [46, 100, 115, 107])) U.2 = L
    at hcases fL ⊢
  obtain ⟨uin, uout, ubl, ures, uok, ubad⟩ := fU
  obtain ⟨lin, lout, lbl, lres, lok, lbad⟩ := fL
  obtain ⟨c1, c2, c3⟩ := hcases
  have e6 : toU8 6 = 6 := rfl
  have e21 : toU8 21 = 21 := rfl
  by_cases hu : U.1 = 0
  · rw [c1 hu]
    dsimp only
    rw [if_pos (show (1 : Int) ≠ 0 by decide)]
    refine ⟨_, U, L, rfl, rfl, hLdef.symm, ?_, ?_, ?_⟩
    · simp only [fputc]
      exact uin
    · intro _
      obtain ⟨hr, h, hf, hro⟩ := uok hu
      refine ⟨?_, ?_, h, ?_, ?_⟩
      · simp only [fputc]
        exact hr
      · simp [fputc, uout, ACK, e6]
        split_ifs <;> rfl
      · rw [if_pos hu]
        exact hf
      · simp only [fputc]
        exact hro
    · rintro ⟨h1, _⟩
      exact absurd hu h1
  · by_cases hl : L.1 = 0
    · rw [c2 hu hl]
      dsimp only
      rw [if_pos (show (1 : Int) ≠ 0 by decide)]
      refine ⟨_, U, L, rfl, rfl, hLdef.symm, ?_, ?_, ?_⟩
      · simp only [fputc]
        rw [lin, uin]
      · intro _
        obtain ⟨hr, h, hf, hro⟩ := lok hl
        refine ⟨?_, ?_, h, ?_, ?_⟩
        · simp only [fputc]
          exact hr
        · simp [fputc, lout, uout, ACK, e6]
          split_ifs <;> rfl
        · rw [if_neg hu]
          exact hf
        · simp only [fputc]
          exact hro
      · rintro ⟨_, h2⟩
        exact absurd hl h2
    · rw [c3 hu hl]
      dsimp only
      rw [if_neg (show ¬ ((0 : Int) ≠ 0) by decide)]
      refine ⟨_, U, L, rfl, rfl, hLdef.symm, ?_, ?_, ?_⟩
      · simp only [fputc]
        rw [lin, uin]
      · rintro (h1 | ⟨_, h2⟩)
        · exact absurd h1 hu
        · exact absurd h2 hl
      · intro _
        refine ⟨rfl, ?_, ?_, ?_⟩
        · simp [fputc, lout, uout, NAK, e21]
        · intro drv trk sec resp tail
          exact sndblk_not_ready _ drv trk sec resp tail rfl rfl
        · intro drv trk sec msb lsb payload tail hlen hb
          rw [mainReceive_not_ready _ drv trk sec msb lsb payload tail rfl hlen hb
            (by simp only [fputc]; exact lbl (ubl hbloc)) rfl]

/-- Claim C22 at the host of `demoFiles`: the parameter "A" mounts "A.dsk"
after "A.DSK" was not found, ACK and 'W' are written and the geometry of the
image is set; the parameter "B" finds no image and NAK is written. -/
theorem mainMount_spec_witness :
    ((demoSession [65, 13, 83]).srv.input = [65] ++ CR :: [83] ∧
      (demoSession [65, 13, 83]).param.length = 128 ∧
      (demoSession [65, 13, 83]).srv.bloc.length = 256) ∧
    (∃ t2 : Session, mainMount demoFiles (demoSession [65, 13, 83]) = some t2 ∧
      t2.srv.input = [83]) ∧
    (mainMount demoFiles (demoSession [65, 13, 83])).map
        (fun t => (t.srv.output, t.srv.ready, t.srv.readonly, t.srv.nbtrk, t.srv.nbsec,
          t.srv.track0l)) = some ([6, 87], 1, 0, 1, 2, 2) ∧
    (mainMount demoFiles (demoSession [66, 13, 83])).map
        (fun t => (t.srv.output, t.srv.ready)) = some ([21], 0) := by
  obtain ⟨t2, up, lo, h1, _, _, h2, _⟩ := mainMount_spec demoFiles (demoSession [65, 13, 83])
    [65] [83] rfl (by decide) (List.length_replicate _ _) (List.length_replicate _ _)
  refine ⟨⟨rfl, List.length_replicate _ _, List.length_replicate _ _⟩, ⟨t2, h1, h2⟩, ?_, ?_⟩
  · set_option maxRecDepth 100000 in decide
  · set_option maxRecDepth 100000 in decide

/-! ## Theorems: the command loop -/

/-- Claim C23: a command byte that is none of 0x55, 0xAA, 'S', 's', 'R', 'r',
'V', '?', 'Q', 'A', 'I', 'C', 'D', 'E', 'P', 'M' makes one pass of the command
loop read that byte and nothing more, write nothing, and go on to the next
command with the descriptor and the file behind it, the geometry, `ready`,
`readonly` and `curdir` as they were; only the first byte of `param` is
cleared. -/
theorem mainStep_unknown_command (host : Host) (p : Process) (c : Nat) (rest : List Nat)
    (hin : p.ses.srv.input = c :: rest) (hc : c < 256)
    (htab : c ∉ [0x55, 0xAA, 83, 115, 82, 114, 86, 63, 81, 65, 73, 67, 68, 69, 80, 77]) :
    ∃ q : Process,
      mainStep host p = Outcome.next q ∧
      q = { p with ses := { srv := { p.ses.srv with input := rest },
                            param := p.ses.param.set 0 0 } } ∧
      q.ses.srv.output = p.ses.srv.output ∧ q.ses.srv.input = rest ∧
      q.ses.srv.fd = p.ses.srv.fd ∧ q.ses.srv.nwrites = p.ses.srv.nwrites ∧
      q.ses.srv.nbtrk = p.ses.srv.nbtrk ∧ q.ses.srv.nbsec = p.ses.srv.nbsec ∧
      q.ses.srv.track0l = p.ses.srv.track0l ∧ q.ses.srv.ready = p.ses.srv.ready ∧
      q.ses.srv.readonly = p.ses.srv.readonly ∧ q.curdir = p.curdir := by
  refine ⟨_, ?_, rfl, rfl, rfl, rfl, rfl, rfl, rfl, rfl, rfl, rfl, rfl⟩
  simp only [List.mem_cons, List.mem_singleton, List.not_mem_nil, or_false, not_or] at htab
  obtain ⟨t1, t2, t3, t4, t5, t6, t7, t8, t9, t10, t11, t12, t13, t14, t15, t16⟩ := htab
  obtain ⟨⟨srv, par⟩, cur⟩ := p
  obtain ⟨inp, out, fd, nw, bl, rdy, ro, nt, ns, t0⟩ := srv
  simp only at hin
  subst hin
  have hcm : c % 256 = c := Nat.mod_eq_of_lt hc
  unfold mainStep
  simp only [fgetc_cons, hcm]
  rw [if_neg (show ¬ ((c : Int) = 0x55 ∨ (c : Int) = 0xAA) by omega),
    if_neg (show ¬ ((c : Int) = 83 ∨ (c : Int) = 115) by omega),
    if_neg (show ¬ ((c : Int) = 82 ∨ (c : Int) = 114) by omega),
    if_neg (show ¬ ((c : Int) = 86) by omega),
    if_neg (show ¬ ((c : Int) = 63) by omega),
    if_neg (show ¬ ((c : Int) = 81) by omega),
    if_neg (show ¬ ((c : Int) = 65) by omega),
    if_neg (show ¬ ((c : Int) = 73) by omega),
    if_neg (show ¬ ((c : Int) = 67) by omega),
    if_neg (show ¬ ((c : Int) = 68) by omega),
    if_neg (show ¬ ((c : Int) = 69) by omega),
    if_neg (show ¬ ((c : Int) = 80) by omega),
    if_neg (show ¬ ((c : Int) = 77) by omega),
    if_neg (show ¬ ((c : Int) = -1) by omega)]

/-- Claim C23 at the byte 'Z' followed by the byte 'Q'. -/
theorem mainStep_unknown_command_witness :
    ((demoProcess [90, 81]).ses.srv.input = 90 :: [81] ∧
      (90 : Nat) ∉ [0x55, 0xAA, 83, 115, 82, 114, 86, 63, 81, 65, 73, 67, 68, 69, 80, 77]) ∧
    ∃ q : Process,
      mainStep demoHost (demoProcess [90, 81]) = Outcome.next q ∧
      q.ses.srv.output = [] ∧ q.ses.srv.input = [81] ∧ q.curdir = [47] := by
  obtain ⟨q, h1, _, h2, h3, _, _, _, _, _, _, _, h4⟩ :=
    mainStep_unknown_command demoHost (demoProcess [90, 81]) 90 [81] rfl (by decide) (by decide)
  exact ⟨⟨rfl, by decide⟩, q, h1, h2, h3, h4⟩

/-- The command loop at some bytes of the command table: a sync byte is
echoed, '?' is answered with `curdir`, CR and ACK, 'Q' with ACK, 'E' with ACK
and the exit status 0, the end of the stream ends the process with status 1,
'V' without the CR of its parameter never returns, 'P' to a directory that
does not exist is answered with NAK, and 'M' with the parameter "A" is
answered with ACK and 'W'. -/
theorem mainStep_samples :
    (match mainStep demoHost (demoProcess [0x55, 81]) with
      | Outcome.next q => some (q.ses.srv.output, q.ses.srv.input)
      | _ => none) = some ([0x55], [81]) ∧
    (match mainStep demoHost (demoProcess [63, 81]) with
      | Outcome.next q => some (q.ses.srv.output, q.ses.srv.input)
      | _ => none) = some ([47, 13, 6], [81]) ∧
    (match mainStep demoHost (demoProcess [81, 81]) with
      | Outcome.next q => some (q.ses.srv.output, q.ses.srv.input)
      | _ => none) = some ([6], [81]) ∧
    (match mainStep demoHost (demoProcess [69, 81]) with
      | Outcome.exited n q => some (n, q.ses.srv.output)
      | _ => none) = some (0, [6]) ∧
    (match mainStep demoHost (demoProcess []) with
      | Outcome.exited n q => some (n, q.ses.srv.output)
      | _ => none) = some (1, []) ∧
    mainStep demoHost (demoProcess [86, 65]) = Outcome.blocked ∧
    (match mainStep demoHost (demoProcess [80, 65, 13, 81]) with
      | Outcome.next q => some (q.ses.srv.output, q.ses.srv.input, q.curdir)
      | _ => none) = some ([21], [81], [47]) ∧
    (match mainStep demoHost (demoProcess [77, 65, 13, 81]) with
      | Outcome.next q => some (q.ses.srv.output, q.ses.srv.input, q.ses.srv.ready)
      | _ => none) = some ([6, 87], [81], 1) := by
  set_option maxRecDepth 100000 in decide

end Flexnet
